import Mathlib

/-! Flow debugger subsystem

A shallow embedding of `UFlowDebuggerSubsystem` (FlowDebuggerSubsystem.h / .cpp):
the debug traits kept per graph node in `UFlowGraphEditorSettings::PerNodeTraits` and the
functions that create, remove, find and flag them; the runtime logs kept per flow asset and
the handlers that fill, clear and report them; the functions that pause the play session.

Conventions of the embedding
* `TArray<T>` is a `List T`; `TMap<FGuid, V>` is a function `FGuid → Option V`
  (the code only ever looks a key up, adds it or removes it).
* A pointer into the settings object (`FFlowTraitSettings*`, `TArray*`,
  `FFlowDebugTrait*`) is represented by the value it points to; a store through
  the pointer is an explicit write-back into the map.
* The settings singleton reached through `GetMutableDefault` is passed and
  returned explicitly; `SaveConfig()` is recorded by a call counter.
* `RuntimeLogs` is the list of its pairs in insertion order (the code iterates over it);
  the world contexts of `GUnrealEd` are passed and returned explicitly.
-/

namespace FlowDebugger

/-! ## Data model -/

/-- An `FGuid`, read as one number; the zero-filled (default constructed) guid is `0`. -/
abbrev FGuid := Nat

/-- The enumeration `enum class EFlowTraitType { Breakpoint, Max }`. -/
inductive EFlowTraitType where
  | Breakpoint
  | Max
deriving DecidableEq, Repr

/-- Underlying integer value of an enumerator. -/
def EFlowTraitType.toNat : EFlowTraitType → Nat
  | .Breakpoint => 0
  | .Max => 1

/-- Enumerator with a given underlying value, when there is one. -/
def EFlowTraitType.ofNat? : Nat → Option EFlowTraitType
  | 0 => some .Breakpoint
  | 1 => some .Max
  | _ => none

/-- Modelled from the spec: the engine range `TEnumRange<EFlowTraitType>()` under
`ENUM_RANGE_BY_COUNT(EFlowTraitType, EFlowTraitType::Max)` (every declared trait type): the
enumerators with values `0 .. Max - 1`, in increasing order. -/
def TEnumRange : List EFlowTraitType :=
  (List.range EFlowTraitType.Max.toNat).filterMap EFlowTraitType.ofNat?

/-- The trait record `struct FFlowDebugTrait`. -/
structure FFlowDebugTrait where
  PinId : FGuid
  Type_ : EFlowTraitType
  bEnabled : Bool
  bHit : Bool
deriving DecidableEq, Repr

namespace FFlowDebugTrait

/-- Constructor `FFlowDebugTrait(EFlowTraitType InType, const bool bInitialState)`: `PinId` is left zero-filled. -/
def ofType (InType : EFlowTraitType) (bInitialState : Bool) : FFlowDebugTrait :=
  { PinId := 0, Type_ := InType, bEnabled := bInitialState, bHit := false }

/-- Constructor `FFlowDebugTrait(EFlowTraitType InType, FGuid InPinId, const bool bInitialState)`. -/
def ofPin (InType : EFlowTraitType) (InPinId : FGuid) (bInitialState : Bool) : FFlowDebugTrait :=
  { PinId := InPinId, Type_ := InType, bEnabled := bInitialState, bHit := false }

/-- Method `FFlowDebugTrait::IsEnabled`. -/
def IsEnabled (Trait : FFlowDebugTrait) : Bool := Trait.bEnabled

/-- Method `FFlowDebugTrait::IsHit`. -/
def IsHit (Trait : FFlowDebugTrait) : Bool := Trait.bHit

/-- Operator `FFlowDebugTrait::operator==`: compares `Type` and `PinId` only. -/
def opEq (Trait Other : FFlowDebugTrait) : Bool :=
  Trait.Type_ == Other.Type_ && Trait.PinId == Other.PinId

end FFlowDebugTrait

/-- Modelled from the spec: `FFlowTraitSettings` (declared in Graph/FlowGraphEditorSettings.h,
which is not part of the sources at hand), the per-node settings record: the sequence of
node-level traits and the sequence of pin-level traits. -/
structure FFlowTraitSettings where
  NodeTraits : List FFlowDebugTrait
  PinTraits : List FFlowDebugTrait
deriving DecidableEq, Repr

/-- Modelled from the spec: the engine operator `TArray::operator==` over traits, same length
and element-wise `FFlowDebugTrait::operator==`. -/
def TArray.opEq : List FFlowDebugTrait → List FFlowDebugTrait → Bool
  | [], [] => true
  | a :: as, b :: bs => a.opEq b && TArray.opEq as bs
  | _, _ => false

namespace FFlowTraitSettings

/-- Modelled from the spec: the default constructed record `FFlowTraitSettings()`, both
sequences empty. -/
def default : FFlowTraitSettings := { NodeTraits := [], PinTraits := [] }

/-- Modelled from the spec: `FFlowTraitSettings::operator==`, member-wise comparison of the two
sequences (the code compares a record with `FFlowTraitSettings()` to decide whether all of its
data is default). -/
def opEq (A B : FFlowTraitSettings) : Bool :=
  TArray.opEq A.NodeTraits B.NodeTraits && TArray.opEq A.PinTraits B.PinTraits

end FFlowTraitSettings

/-- The part of a `UFlowGraphNode` the subsystem reads: its `NodeGuid` and, for each entry of
`Pins`, that pin's `PinId`. -/
structure UFlowGraphNode where
  NodeGuid : FGuid
  Pins : List FGuid
deriving DecidableEq, Repr

/-- The part of a `UEdGraphPin` the subsystem reads: its `PinId` and its owning node
(`GetOwningNode()`, which the code casts to `UFlowGraphNode`). -/
structure UEdGraphPin where
  PinId : FGuid
  GetOwningNode : UFlowGraphNode
deriving DecidableEq, Repr

/-- The two overload families of the trait functions: the owner of a trait is a node or a pin. -/
inductive Owner where
  | Node (OwnerNode : UFlowGraphNode)
  | Pin (OwnerPin : UEdGraphPin)
deriving DecidableEq, Repr

/-- The node a trait owner lives in. -/
def Owner.node : Owner → UFlowGraphNode
  | .Node OwnerNode => OwnerNode
  | .Pin OwnerPin => OwnerPin.GetOwningNode

/-- The state of `UFlowGraphEditorSettings` the subsystem works on: the map `PerNodeTraits`
and the number of `SaveConfig()` calls made so far. -/
structure UFlowGraphEditorSettings where
  PerNodeTraits : FGuid → Option FFlowTraitSettings
  SaveConfigCalls : Nat

namespace UFlowGraphEditorSettings

/-- Settings with no per-node record and no save made. -/
def empty : UFlowGraphEditorSettings :=
  { PerNodeTraits := fun _ => none, SaveConfigCalls := 0 }

/-- Overwrite the record stored under `Key` (a store through a `FFlowTraitSettings*`). -/
def store (S : UFlowGraphEditorSettings) (Key : FGuid) (Value : FFlowTraitSettings) :
    UFlowGraphEditorSettings :=
  { S with PerNodeTraits := fun k => if k = Key then some Value else S.PerNodeTraits k }

/-- Map removal `PerNodeTraits.Remove(Key)`. -/
def Remove (S : UFlowGraphEditorSettings) (Key : FGuid) : UFlowGraphEditorSettings :=
  { S with PerNodeTraits := fun k => if k = Key then none else S.PerNodeTraits k }

/-- Map access `PerNodeTraits.FindOrAdd(Key)`: the record under `Key`, added default constructed when the
key is absent; returns the map after the call together with the record referred to. -/
def FindOrAdd (S : UFlowGraphEditorSettings) (Key : FGuid) :
    UFlowGraphEditorSettings × FFlowTraitSettings :=
  match S.PerNodeTraits Key with
  | some Value => (S, Value)
  | none => (S.store Key FFlowTraitSettings.default, FFlowTraitSettings.default)

end UFlowGraphEditorSettings

/-! ## Engine containers -/

/-- Modelled from the spec: the engine routine `TArray::RemoveAtSwap(Index, 1)` behind the
unstable swap-remove deletion; the last element is moved into the hole left at `Index` and the
array shrinks by one. -/
def TArray.RemoveAtSwap {α : Type} (A : List α) (Index : Nat) : List α :=
  match A.getLast? with
  | none => A
  | some Last => (A.set Index Last).dropLast

/-- Modelled from the spec: the loop of the engine routine `TArray::RemoveAllSwap`,
`for (ItemIndex = 0; ItemIndex < Num();) if (Predicate(A[ItemIndex])) RemoveAtSwap(ItemIndex); else ++ItemIndex;`
run for at most `Fuel` iterations. -/
def TArray.RemoveAllSwapLoop {α : Type} (Predicate : α → Bool) :
    Nat → List α → Nat → List α
  | 0, A, _ => A
  | Fuel + 1, A, ItemIndex =>
    match A.get? ItemIndex with
    | none => A
    | some Item =>
      if Predicate Item then
        TArray.RemoveAllSwapLoop Predicate Fuel (TArray.RemoveAtSwap A ItemIndex) ItemIndex
      else
        TArray.RemoveAllSwapLoop Predicate Fuel A (ItemIndex + 1)

/-- Modelled from the spec: the engine routine `TArray::RemoveAllSwap(Predicate)`, every element
passing `Predicate` removed by swap-removal; the array after the loop and the returned count
`OriginalNum - ArrayNum`. Each iteration either removes an element or advances the index, so
`Num()` iterations are enough. -/
def TArray.RemoveAllSwap {α : Type} (Predicate : α → Bool) (A : List α) : List α × Nat :=
  let R := TArray.RemoveAllSwapLoop Predicate A.length A 0
  (R, A.length - R.length)

/-- The element a pointer returned by a first-match scan refers to, rewritten in place:
`F` is applied to the first element passing `Test`, all other elements stay. -/
def TArray.storeFirst {α : Type} (Test : α → Bool) (F : α → α) : List α → List α
  | [] => []
  | a :: as => if Test a then F a :: as else a :: TArray.storeFirst Test F as

/-- Modelled from the spec: the engine macro `checkSlow(Condition)`, a debug-only assertion,
compiled in only when the build sets `DO_GUARD_SLOW`. `none` is the failed assertion, which stops the program; otherwise execution
goes on. -/
def checkSlow (DO_GUARD_SLOW : Bool) (Condition : Bool) : Option Unit :=
  if DO_GUARD_SLOW && !Condition then none else some ()

/-! ## UFlowDebuggerSubsystem: trait functions -/

/-- The lambda `[Type](const FFlowDebugTrait& Trait) { return Trait.Type == Type; }` used by the
node overloads of `CreateTrait`, `RemoveTrait` and (as the loop test) `FindTrait`. -/
def IsNodeTrait (T : EFlowTraitType) (Trait : FFlowDebugTrait) : Bool :=
  Trait.Type_ == T

/-- The lambda `[OwnerPin, Type](const FFlowDebugTrait& Trait) { return Trait.PinId == OwnerPin->PinId && Trait.Type == Type; }`
used by the pin overloads of `CreateTrait`, `RemoveTrait` and (as the loop test) `FindTrait`. -/
def IsPinTrait (OwnerPin : UEdGraphPin) (T : EFlowTraitType) (Trait : FFlowDebugTrait) : Bool :=
  Trait.PinId == OwnerPin.PinId && Trait.Type_ == T

/-- Function `SaveFlowGraphEditorSettings`: calls `Settings->SaveConfig()`. -/
def SaveFlowGraphEditorSettings (S : UFlowGraphEditorSettings) : UFlowGraphEditorSettings :=
  { S with SaveConfigCalls := S.SaveConfigCalls + 1 }

/-- Function `GetPerNodeSettings`: `Settings->PerNodeTraits.Find(OwnerNode->NodeGuid)`. -/
def GetPerNodeSettings (S : UFlowGraphEditorSettings) (OwnerNode : UFlowGraphNode) :
    Option FFlowTraitSettings :=
  S.PerNodeTraits OwnerNode.NodeGuid

/-- Function `GetNodeTraits`: null when there is no record or its `NodeTraits` is empty. -/
def GetNodeTraits (S : UFlowGraphEditorSettings) (OwnerNode : UFlowGraphNode) :
    Option (List FFlowDebugTrait) :=
  match GetPerNodeSettings S OwnerNode with
  | none => none
  | some Settings => if Settings.NodeTraits.isEmpty then none else some Settings.NodeTraits

/-- Function `GetPinTraits`: null when there is no record or its `PinTraits` is empty. -/
def GetPinTraits (S : UFlowGraphEditorSettings) (OwnerNode : UFlowGraphNode) :
    Option (List FFlowDebugTrait) :=
  match GetPerNodeSettings S OwnerNode with
  | none => none
  | some Settings => if Settings.PinTraits.isEmpty then none else some Settings.PinTraits

/-- A store through the `TArray*` returned by `GetNodeTraits(OwnerNode)`. -/
def storeNodeTraits (S : UFlowGraphEditorSettings) (OwnerNode : UFlowGraphNode)
    (Traits : List FFlowDebugTrait) : UFlowGraphEditorSettings :=
  match GetPerNodeSettings S OwnerNode with
  | none => S
  | some Settings => S.store OwnerNode.NodeGuid { Settings with NodeTraits := Traits }

/-- A store through the `TArray*` returned by `GetPinTraits(OwnerNode)`. -/
def storePinTraits (S : UFlowGraphEditorSettings) (OwnerNode : UFlowGraphNode)
    (Traits : List FFlowDebugTrait) : UFlowGraphEditorSettings :=
  match GetPerNodeSettings S OwnerNode with
  | none => S
  | some Settings => S.store OwnerNode.NodeGuid { Settings with PinTraits := Traits }

/-- Function `CreateTrait`, both overloads. The result is `none` when the `checkSlow` assertion
fails. -/
def CreateTrait (DO_GUARD_SLOW : Bool) (S : UFlowGraphEditorSettings) :
    Owner → EFlowTraitType → Bool → Option UFlowGraphEditorSettings
  | .Node OwnerNode, T, bEnabled =>
    let Found := S.FindOrAdd OwnerNode.NodeGuid
    let TraitSettings := Found.2
    match checkSlow DO_GUARD_SLOW (!TraitSettings.NodeTraits.any (IsNodeTrait T)) with
    | none => none
    | some _ =>
      some (SaveFlowGraphEditorSettings (Found.1.store OwnerNode.NodeGuid
        { TraitSettings with
          NodeTraits := TraitSettings.NodeTraits ++ [FFlowDebugTrait.ofType T bEnabled] }))
  | .Pin OwnerPin, T, bEnabled =>
    let Found := S.FindOrAdd OwnerPin.GetOwningNode.NodeGuid
    let TraitSettings := Found.2
    match checkSlow DO_GUARD_SLOW (!TraitSettings.PinTraits.any (IsPinTrait OwnerPin T)) with
    | none => none
    | some _ =>
      some (SaveFlowGraphEditorSettings (Found.1.store OwnerPin.GetOwningNode.NodeGuid
        { TraitSettings with
          PinTraits := TraitSettings.PinTraits ++ [FFlowDebugTrait.ofPin T OwnerPin.PinId bEnabled] }))

/-- Function `ClearNodeTraits`. -/
def ClearNodeTraits (S : UFlowGraphEditorSettings) (OwnerNode : UFlowGraphNode) :
    UFlowGraphEditorSettings :=
  match GetPerNodeSettings S OwnerNode with
  | none => S
  | some TraitSettings =>
    let Cleared : FFlowTraitSettings := { TraitSettings with NodeTraits := [] }
    let S1 := S.store OwnerNode.NodeGuid Cleared
    SaveFlowGraphEditorSettings
      (if Cleared.opEq FFlowTraitSettings.default then S1.Remove OwnerNode.NodeGuid else S1)

/-- Function `ClearPinTraits`, the node overload and the pin overload. -/
def ClearPinTraits (S : UFlowGraphEditorSettings) : Owner → UFlowGraphEditorSettings
  | .Node OwnerNode =>
    match GetPerNodeSettings S OwnerNode with
    | none => S
    | some TraitSettings =>
      let Cleared : FFlowTraitSettings := { TraitSettings with PinTraits := [] }
      let S1 := S.store OwnerNode.NodeGuid Cleared
      SaveFlowGraphEditorSettings
        (if Cleared.opEq FFlowTraitSettings.default then S1.Remove OwnerNode.NodeGuid else S1)
  | .Pin OwnerPin =>
    let OwnerNode := OwnerPin.GetOwningNode
    match GetPerNodeSettings S OwnerNode with
    | none => S
    | some TraitSettings =>
      let Cleared : FFlowTraitSettings :=
        { TraitSettings with
          PinTraits := (TArray.RemoveAllSwap (fun Trait => Trait.PinId == OwnerPin.PinId)
            TraitSettings.PinTraits).1 }
      let S1 := S.store OwnerNode.NodeGuid Cleared
      SaveFlowGraphEditorSettings
        (if Cleared.opEq FFlowTraitSettings.default then S1.Remove OwnerNode.NodeGuid else S1)

/-- Function `RemoveNodeTraitByPredicate`. -/
def RemoveNodeTraitByPredicate (S : UFlowGraphEditorSettings) (OwnerNode : UFlowGraphNode)
    (Predicate : FFlowDebugTrait → Bool) : UFlowGraphEditorSettings :=
  match GetNodeTraits S OwnerNode with
  | none => S
  | some Traits =>
    let Removed := TArray.RemoveAllSwap Predicate Traits
    let S1 := storeNodeTraits S OwnerNode Removed.1
    if Removed.2 ≠ 0 then
      SaveFlowGraphEditorSettings
        (if Removed.1.isEmpty then ClearNodeTraits S1 OwnerNode else S1)
    else S1

/-- Function `RemovePinTraitByPredicate`, the node overload and the pin overload. -/
def RemovePinTraitByPredicate (S : UFlowGraphEditorSettings) (Owner_ : Owner)
    (Predicate : FFlowDebugTrait → Bool) : UFlowGraphEditorSettings :=
  let OwnerNode := Owner_.node
  match GetPinTraits S OwnerNode with
  | none => S
  | some Traits =>
    let Removed := TArray.RemoveAllSwap Predicate Traits
    let S1 := storePinTraits S OwnerNode Removed.1
    if Removed.2 ≠ 0 then
      SaveFlowGraphEditorSettings
        (if Removed.1.isEmpty then ClearPinTraits S1 Owner_ else S1)
    else S1

/-- Function `RemoveTrait`, both overloads. -/
def RemoveTrait (S : UFlowGraphEditorSettings) : Owner → EFlowTraitType → UFlowGraphEditorSettings
  | .Node OwnerNode, T => RemoveNodeTraitByPredicate S OwnerNode (IsNodeTrait T)
  | .Pin OwnerPin, T => RemovePinTraitByPredicate S (.Pin OwnerPin) (IsPinTrait OwnerPin T)

/-- Function `CleanupTraits`: the predicate holds of a trait when no pin of `OwnerNode->Pins`
has the trait's `PinId`. -/
def CleanupTraits (S : UFlowGraphEditorSettings) (OwnerNode : UFlowGraphNode) :
    UFlowGraphEditorSettings :=
  RemovePinTraitByPredicate S (.Node OwnerNode)
    (fun Trait => (OwnerNode.Pins.any (fun PinId => PinId == Trait.PinId)) == false)

/-- Function `FindTrait`, both overloads; the result stands for the trait pointed to, `none` for
`nullptr`. -/
def FindTrait (S : UFlowGraphEditorSettings) : Owner → EFlowTraitType → Option FFlowDebugTrait
  | .Node OwnerNode, T =>
    match GetNodeTraits S OwnerNode with
    | none => none
    | some Traits => Traits.find? (IsNodeTrait T)
  | .Pin OwnerPin, T =>
    match GetPinTraits S OwnerPin.GetOwningNode with
    | none => none
    | some Traits => Traits.find? (IsPinTrait OwnerPin T)

/-- A store through the `FFlowDebugTrait*` returned by `FindTrait(Owner, Type)`: the pointer
refers to the first element of the scanned sequence that passes the scan's test. -/
def storeTrait (S : UFlowGraphEditorSettings) (Owner_ : Owner) (T : EFlowTraitType)
    (F : FFlowDebugTrait → FFlowDebugTrait) : UFlowGraphEditorSettings :=
  match Owner_ with
  | .Node OwnerNode =>
    match GetNodeTraits S OwnerNode with
    | none => S
    | some Traits => storeNodeTraits S OwnerNode (TArray.storeFirst (IsNodeTrait T) F Traits)
  | .Pin OwnerPin =>
    match GetPinTraits S OwnerPin.GetOwningNode with
    | none => S
    | some Traits =>
      storePinTraits S OwnerPin.GetOwningNode (TArray.storeFirst (IsPinTrait OwnerPin T) F Traits)

/-- Function `SetTraitEnabled`, both overloads. -/
def SetTraitEnabled (S : UFlowGraphEditorSettings) (Owner_ : Owner) (T : EFlowTraitType)
    (bIsEnabled : Bool) : UFlowGraphEditorSettings :=
  match FindTrait S Owner_ T with
  | some _ =>
    SaveFlowGraphEditorSettings
      (storeTrait S Owner_ T (fun Trait => { Trait with bEnabled := bIsEnabled }))
  | none => S

/-- Function `IsTraitEnabled`, both overloads. -/
def IsTraitEnabled (S : UFlowGraphEditorSettings) (Owner_ : Owner) (T : EFlowTraitType) : Bool :=
  match FindTrait S Owner_ T with
  | some Trait => Trait.IsEnabled
  | none => false

/-- Function `ToggleTrait`, both overloads. -/
def ToggleTrait (DO_GUARD_SLOW : Bool) (S : UFlowGraphEditorSettings) (Owner_ : Owner)
    (T : EFlowTraitType) : Option UFlowGraphEditorSettings :=
  match FindTrait S Owner_ T with
  | some _ => some (RemoveTrait S Owner_ T)
  | none => CreateTrait DO_GUARD_SLOW S Owner_ T true

/-- Function `SetTraitHit`, both overloads: the settings after the call and the returned flag. -/
def SetTraitHit (S : UFlowGraphEditorSettings) (Owner_ : Owner) (T : EFlowTraitType)
    (bHit : Bool) : UFlowGraphEditorSettings × Bool :=
  match FindTrait S Owner_ T with
  | some _ => (storeTrait S Owner_ T (fun Trait => { Trait with bHit := bHit }), true)
  | none => (S, false)

/-- The loop of `SetAllTraitsHit` over the remaining types of the enum range, carrying the
settings and `HitTraitTypes`. -/
def SetAllTraitsHitLoop (Owner_ : Owner) (bHit : Bool) :
    List EFlowTraitType → UFlowGraphEditorSettings × List EFlowTraitType →
      UFlowGraphEditorSettings × List EFlowTraitType
  | [], Acc => Acc
  | T :: Rest, (S, HitTraitTypes) =>
    let R := SetTraitHit S Owner_ T bHit
    SetAllTraitsHitLoop Owner_ bHit Rest (R.1, if R.2 then HitTraitTypes ++ [T] else HitTraitTypes)

/-- Function `SetAllTraitsHit`, both overloads: the settings after the call and the returned
`HitTraitTypes`. -/
def SetAllTraitsHit (S : UFlowGraphEditorSettings) (Owner_ : Owner) (bHit : Bool) :
    UFlowGraphEditorSettings × List EFlowTraitType :=
  SetAllTraitsHitLoop Owner_ bHit TEnumRange (S, [])

/-- Function `IsTraitHit`, both overloads. -/
def IsTraitHit (S : UFlowGraphEditorSettings) (Owner_ : Owner) (T : EFlowTraitType) : Bool :=
  match FindTrait S Owner_ T with
  | some Trait => Trait.IsHit
  | none => false

/-! ## Vocabulary of the statements -/

/-- The node-level traits stored for a node guid (none when the node has no record). -/
def NodeTraitsOf (S : UFlowGraphEditorSettings) (NodeGuid : FGuid) : List FFlowDebugTrait :=
  match S.PerNodeTraits NodeGuid with
  | none => []
  | some Settings => Settings.NodeTraits

/-- The pin-level traits stored for a node guid (none when the node has no record). -/
def PinTraitsOf (S : UFlowGraphEditorSettings) (NodeGuid : FGuid) : List FFlowDebugTrait :=
  match S.PerNodeTraits NodeGuid with
  | none => []
  | some Settings => Settings.PinTraits

/-- The stored traits that belong to an owner: the node-level sequence for a node, the traits
carrying the pin's id in the pin-level sequence for a pin. -/
def OwnerTraits (S : UFlowGraphEditorSettings) : Owner → List FFlowDebugTrait
  | .Node OwnerNode => NodeTraitsOf S OwnerNode.NodeGuid
  | .Pin OwnerPin =>
    (PinTraitsOf S OwnerPin.GetOwningNode.NodeGuid).filter (fun Trait => Trait.PinId == OwnerPin.PinId)

/-- The identity of a trait inside a sequence, as compared by `FFlowDebugTrait::operator==`. -/
def TraitKey (Trait : FFlowDebugTrait) : EFlowTraitType × FGuid :=
  (Trait.Type_, Trait.PinId)

/-- No node-level and no pin-level sequence of any record holds two traits with the same
(type, pin id). -/
def UniqueTraits (S : UFlowGraphEditorSettings) : Prop :=
  ∀ (NodeGuid : FGuid) (Settings : FFlowTraitSettings),
    S.PerNodeTraits NodeGuid = some Settings →
      (Settings.NodeTraits.map TraitKey).Nodup ∧ (Settings.PinTraits.map TraitKey).Nodup

/-- A call of the mutation API. -/
inductive Mutation where
  | CreateTrait (Owner_ : Owner) (T : EFlowTraitType) (bEnabled : Bool)
  | RemoveTrait (Owner_ : Owner) (T : EFlowTraitType)
  | RemoveNodeTraitByPredicate (OwnerNode : UFlowGraphNode) (Predicate : FFlowDebugTrait → Bool)
  | RemovePinTraitByPredicate (Owner_ : Owner) (Predicate : FFlowDebugTrait → Bool)
  | ClearNodeTraits (OwnerNode : UFlowGraphNode)
  | ClearPinTraits (Owner_ : Owner)
  | CleanupTraits (OwnerNode : UFlowGraphNode)
  | SetTraitEnabled (Owner_ : Owner) (T : EFlowTraitType) (bIsEnabled : Bool)
  | SetTraitHit (Owner_ : Owner) (T : EFlowTraitType) (bHit : Bool)
  | SetAllTraitsHit (Owner_ : Owner) (bHit : Bool)
  | ToggleTrait (Owner_ : Owner) (T : EFlowTraitType)

/-- The settings after a call of the mutation API; `none` when an assertion stops the call. -/
def Mutation.run (DO_GUARD_SLOW : Bool) (S : UFlowGraphEditorSettings) :
    Mutation → Option UFlowGraphEditorSettings
  | .CreateTrait Owner_ T bEnabled => FlowDebugger.CreateTrait DO_GUARD_SLOW S Owner_ T bEnabled
  | .RemoveTrait Owner_ T => some (FlowDebugger.RemoveTrait S Owner_ T)
  | .RemoveNodeTraitByPredicate OwnerNode Predicate =>
    some (FlowDebugger.RemoveNodeTraitByPredicate S OwnerNode Predicate)
  | .RemovePinTraitByPredicate Owner_ Predicate =>
    some (FlowDebugger.RemovePinTraitByPredicate S Owner_ Predicate)
  | .ClearNodeTraits OwnerNode => some (FlowDebugger.ClearNodeTraits S OwnerNode)
  | .ClearPinTraits Owner_ => some (FlowDebugger.ClearPinTraits S Owner_)
  | .CleanupTraits OwnerNode => some (FlowDebugger.CleanupTraits S OwnerNode)
  | .SetTraitEnabled Owner_ T bIsEnabled => some (FlowDebugger.SetTraitEnabled S Owner_ T bIsEnabled)
  | .SetTraitHit Owner_ T bHit => some (FlowDebugger.SetTraitHit S Owner_ T bHit).1
  | .SetAllTraitsHit Owner_ bHit => some (FlowDebugger.SetAllTraitsHit S Owner_ bHit).1
  | .ToggleTrait Owner_ T => FlowDebugger.ToggleTrait DO_GUARD_SLOW S Owner_ T

/-- The calling discipline for `CreateTrait`: it is called only when `FindTrait` finds nothing
for the owner and type; the other calls are unrestricted. -/
def Mutation.CallerChecked (S : UFlowGraphEditorSettings) : Mutation → Prop
  | .CreateTrait Owner_ T _ => FindTrait S Owner_ T = none
  | _ => True

/-- The settings obtained by setting the hit flag on each stored trait of an owner, and on
nothing else (the reading of `SetAllTraitsHit` given by the specification). -/
def SetHitOnEachTraitOf (S : UFlowGraphEditorSettings) (Owner_ : Owner) (bHit : Bool) :
    UFlowGraphEditorSettings :=
  match Owner_ with
  | .Node OwnerNode =>
    match S.PerNodeTraits OwnerNode.NodeGuid with
    | none => S
    | some Settings =>
      S.store OwnerNode.NodeGuid
        { Settings with NodeTraits := Settings.NodeTraits.map (fun Trait => { Trait with bHit := bHit }) }
  | .Pin OwnerPin =>
    match S.PerNodeTraits OwnerPin.GetOwningNode.NodeGuid with
    | none => S
    | some Settings =>
      S.store OwnerPin.GetOwningNode.NodeGuid
        { Settings with
          PinTraits := Settings.PinTraits.map (fun Trait =>
            if Trait.PinId == OwnerPin.PinId then { Trait with bHit := bHit } else Trait) }

/-- The number of stored traits that the scan of `FindTrait` accepts for an owner and type. -/
def CountTraits (S : UFlowGraphEditorSettings) : Owner → EFlowTraitType → Nat
  | .Node OwnerNode, T => (NodeTraitsOf S OwnerNode.NodeGuid).countP (IsNodeTrait T)
  | .Pin OwnerPin, T =>
    (PinTraitsOf S OwnerPin.GetOwningNode.NodeGuid).countP (IsPinTrait OwnerPin T)

/-- No record of the map has both its node-level and its pin-level sequence empty. -/
def NoEmptyRecord (S : UFlowGraphEditorSettings) : Prop :=
  ∀ (NodeGuid : FGuid) (Settings : FFlowTraitSettings),
    S.PerNodeTraits NodeGuid = some Settings →
      Settings.NodeTraits ≠ [] ∨ Settings.PinTraits ≠ []

/-! ## UFlowDebuggerSubsystem: runtime logs -/

/-- The identity of a `UFlowAsset` object, which is what a `TWeakObjectPtr<UFlowAsset>` key of
`RuntimeLogs` compares. -/
abbrev UFlowAsset := Nat

/-- Modelled from the spec: the engine enumeration `EMessageSeverity`, most severe first. -/
inductive EMessageSeverity where
  | CriticalError
  | Error
  | PerformanceWarning
  | Warning
  | Info
deriving DecidableEq, Repr

/-- Underlying integer value of a severity. -/
def EMessageSeverity.toNat : EMessageSeverity → Nat
  | .CriticalError => 0
  | .Error => 1
  | .PerformanceWarning => 2
  | .Warning => 3
  | .Info => 4

/-- The part of an `FTokenizedMessage` the subsystem depends on: its severity; `Content` stands
for the rest of the message. -/
structure FTokenizedMessage where
  Severity : EMessageSeverity
  Content : Nat
deriving DecidableEq, Repr

/-- Modelled from the spec: an `IMessageLogListing`, the messages of one log in the order they
were added, and the number of `OnDataChanged` broadcasts made on it. -/
structure IMessageLogListing where
  Messages : List FTokenizedMessage
  DataChangedBroadcasts : Nat
deriving DecidableEq, Repr

namespace IMessageLogListing

/-- Modelled from the spec: the listing call `AddMessage(Message)`, which appends the message. -/
def AddMessage (Log : IMessageLogListing) (Message : FTokenizedMessage) : IMessageLogListing :=
  { Log with Messages := Log.Messages ++ [Message] }

/-- Modelled from the spec: the listing call `OnDataChanged().Broadcast()`. -/
def BroadcastDataChanged (Log : IMessageLogListing) : IMessageLogListing :=
  { Log with DataChangedBroadcasts := Log.DataChangedBroadcasts + 1 }

/-- Modelled from the spec: the listing call `NumMessages(SeverityFilter)`, the number of
messages at least as severe as the filter (for `Warning`: warning or worse). -/
def NumMessages (Log : IMessageLogListing) (SeverityFilter : EMessageSeverity) : Nat :=
  (Log.Messages.filter (fun Message => Message.Severity.toNat ≤ SeverityFilter.toNat)).length

end IMessageLogListing

/-- Modelled from the spec: `FFlowMessageLogListing::GetLogListing(FlowAsset, EFlowLogType::Runtime)`
(Asset/FlowMessageLogListing.h, not part of the sources at hand), the log created for an
instance when none exists yet: a listing without messages. -/
def GetLogListing (_FlowAsset : UFlowAsset) : IMessageLogListing :=
  { Messages := [], DataChangedBroadcasts := 0 }

/-- The state the log handlers of `UFlowDebuggerSubsystem` work on: the map `RuntimeLogs`, as
its pairs in insertion order, and for every asset the number of bindings of the subsystem in
the asset's `OnRuntimeMessageAdded()` delegate. -/
structure UFlowDebuggerSubsystem where
  RuntimeLogs : List (UFlowAsset × IMessageLogListing)
  RuntimeMessageListeners : UFlowAsset → Nat

namespace UFlowDebuggerSubsystem

/-- The subsystem after its constructor: no log, no listener bound to any asset. -/
def initial : UFlowDebuggerSubsystem :=
  { RuntimeLogs := [], RuntimeMessageListeners := fun _ => 0 }

/-- Map query `RuntimeLogs.Contains(FlowAsset)`. -/
def Contains (D : UFlowDebuggerSubsystem) (FlowAsset : UFlowAsset) : Bool :=
  D.RuntimeLogs.any (fun Log => Log.1 == FlowAsset)

/-- Map query `RuntimeLogs.FindRef(FlowAsset)`: the listing under the key, `none` for the null
pointer returned when the key is absent. -/
def FindRef (D : UFlowDebuggerSubsystem) (FlowAsset : UFlowAsset) : Option IMessageLogListing :=
  (D.RuntimeLogs.find? (fun Log => Log.1 == FlowAsset)).map (fun Log => Log.2)

/-- Map update `RuntimeLogs.Add(FlowAsset, Listing)` on a list of pairs: the value under an
existing key is replaced, a new pair is added at the end. -/
def AddPair (FlowAsset : UFlowAsset) (Listing : IMessageLogListing) :
    List (UFlowAsset × IMessageLogListing) → List (UFlowAsset × IMessageLogListing)
  | [] => [(FlowAsset, Listing)]
  | Log :: Rest =>
    if Log.1 == FlowAsset then (FlowAsset, Listing) :: Rest
    else Log :: AddPair FlowAsset Listing Rest

/-- Map update `RuntimeLogs.Add(FlowAsset, Listing)`. -/
def Add (D : UFlowDebuggerSubsystem) (FlowAsset : UFlowAsset) (Listing : IMessageLogListing) :
    UFlowDebuggerSubsystem :=
  { D with RuntimeLogs := AddPair FlowAsset Listing D.RuntimeLogs }

/-- A store through the shared pointer returned by `FindRef(FlowAsset)`: the listing under the
key is rewritten in place. -/
def storeLog (D : UFlowDebuggerSubsystem) (FlowAsset : UFlowAsset)
    (F : IMessageLogListing → IMessageLogListing) : UFlowDebuggerSubsystem :=
  { D with
    RuntimeLogs := D.RuntimeLogs.map (fun Log =>
      if Log.1 == FlowAsset then (Log.1, F Log.2) else Log) }

/-- Handler `OnInstancedTemplateAdded`. -/
def OnInstancedTemplateAdded (D : UFlowDebuggerSubsystem) (FlowAsset : UFlowAsset) :
    UFlowDebuggerSubsystem :=
  if !D.Contains FlowAsset then
    let D1 := D.Add FlowAsset (GetLogListing FlowAsset)
    { D1 with
      RuntimeMessageListeners := fun A =>
        if A = FlowAsset then D1.RuntimeMessageListeners A + 1 else D1.RuntimeMessageListeners A }
  else D

/-- Handler `OnInstancedTemplateRemoved`: `RemoveAll(this)` on the asset's delegate. -/
def OnInstancedTemplateRemoved (D : UFlowDebuggerSubsystem) (FlowAsset : UFlowAsset) :
    UFlowDebuggerSubsystem :=
  { D with
    RuntimeMessageListeners := fun A => if A = FlowAsset then 0 else D.RuntimeMessageListeners A }

/-- Handler `OnRuntimeMessageAdded`. -/
def OnRuntimeMessageAdded (D : UFlowDebuggerSubsystem) (FlowAsset : UFlowAsset)
    (Message : FTokenizedMessage) : UFlowDebuggerSubsystem :=
  match D.FindRef FlowAsset with
  | some _ => D.storeLog FlowAsset (fun Log => (Log.AddMessage Message).BroadcastDataChanged)
  | none => D

/-- Handler `OnBeginPIE`. -/
def OnBeginPIE (D : UFlowDebuggerSubsystem) (_bIsSimulating : Bool) : UFlowDebuggerSubsystem :=
  { D with RuntimeLogs := [] }

end UFlowDebuggerSubsystem

/-- The part of an `FNotificationInfo` built in `OnEndPIE` that varies: the asset its hyperlink
names and opens (the text, the expire duration and the fail state are the same for all). -/
structure FNotificationInfo where
  HyperlinkAsset : UFlowAsset
deriving DecidableEq, Repr

/-- Handler `OnEndPIE`: the notifications handed to `AddNotification`, in the order of the loop
over `RuntimeLogs`; `IsValid` tells which weak pointers are still valid. The subsystem itself is
not changed. -/
def UFlowDebuggerSubsystem.OnEndPIE (D : UFlowDebuggerSubsystem) (IsValid : UFlowAsset → Bool)
    (_bIsSimulating : Bool) : List FNotificationInfo :=
  D.RuntimeLogs.filterMap (fun Log =>
    if IsValid Log.1 && decide (Log.2.NumMessages EMessageSeverity.Warning > 0) then
      some { HyperlinkAsset := Log.1 }
    else none)

/-- A notification the subsystem receives. `RuntimeMessageAdded` is a broadcast of the asset's
`OnRuntimeMessageAdded()` delegate. -/
inductive Event where
  | InstancedTemplateAdded (FlowAsset : UFlowAsset)
  | InstancedTemplateRemoved (FlowAsset : UFlowAsset)
  | RuntimeMessageAdded (FlowAsset : UFlowAsset) (Message : FTokenizedMessage)
  | BeginPIE (bIsSimulating : Bool)
  | EndPIE (bIsSimulating : Bool)

/-- The handler `OnRuntimeMessageAdded` run `Bindings` times, once for each binding a broadcast
of the asset's delegate invokes. -/
def UFlowDebuggerSubsystem.Broadcast (FlowAsset : UFlowAsset) (Message : FTokenizedMessage) :
    Nat → UFlowDebuggerSubsystem → UFlowDebuggerSubsystem
  | 0, D => D
  | Bindings + 1, D =>
    UFlowDebuggerSubsystem.Broadcast FlowAsset Message Bindings
      (D.OnRuntimeMessageAdded FlowAsset Message)

/-- The subsystem after one notification. -/
def Event.step (D : UFlowDebuggerSubsystem) : Event → UFlowDebuggerSubsystem
  | .InstancedTemplateAdded FlowAsset => D.OnInstancedTemplateAdded FlowAsset
  | .InstancedTemplateRemoved FlowAsset => D.OnInstancedTemplateRemoved FlowAsset
  | .RuntimeMessageAdded FlowAsset Message =>
    UFlowDebuggerSubsystem.Broadcast FlowAsset Message (D.RuntimeMessageListeners FlowAsset) D
  | .BeginPIE bIsSimulating => D.OnBeginPIE bIsSimulating
  | .EndPIE _ => D

/-- The subsystem after a sequence of notifications. -/
def Event.run (D : UFlowDebuggerSubsystem) (Events : List Event) : UFlowDebuggerSubsystem :=
  Events.foldl Event.step D

/-- The number of logs the table holds for an asset. -/
def UFlowDebuggerSubsystem.NumLogs (D : UFlowDebuggerSubsystem) (FlowAsset : UFlowAsset) : Nat :=
  D.RuntimeLogs.countP (fun Log => Log.1 == FlowAsset)

/-- A sequence of notifications in which every session begin arrives while no listener is
bound (every registered instance was unregistered before it). -/
def Event.BeginsUnbound : UFlowDebuggerSubsystem → List Event → Prop
  | _, [] => True
  | D, .BeginPIE bIsSimulating :: Rest =>
    (∀ FlowAsset, D.RuntimeMessageListeners FlowAsset = 0) ∧
      Event.BeginsUnbound (D.OnBeginPIE bIsSimulating) Rest
  | D, E :: Rest => Event.BeginsUnbound (E.step D) Rest

/-! ## UFlowDebuggerSubsystem: play session -/

/-- The part of a `UWorld` the pause functions read and write. -/
structure UWorld where
  IsGameWorld : Bool
  bDebugPauseExecution : Bool
deriving DecidableEq, Repr

/-- An `FWorldContext`: its `World()`, `none` for a null pointer. Every context has a world of
its own. -/
structure FWorldContext where
  World : Option UWorld
deriving DecidableEq, Repr

/-- Function `ForEachGameWorld` over `GUnrealEd->GetWorldContexts()`: `Func` is called on every
non-null game world, in order; it may write the world and the variables it captured (`σ`). -/
def ForEachGameWorld {σ : Type} (Func : UWorld → σ → UWorld × σ) :
    List FWorldContext → σ → List FWorldContext × σ
  | [], Captured => ([], Captured)
  | PieContext :: Rest, Captured =>
    match PieContext.World with
    | some PlayWorld =>
      if PlayWorld.IsGameWorld then
        let R := Func PlayWorld Captured
        let Done := ForEachGameWorld Func Rest R.2
        ({ World := some R.1 } :: Done.1, Done.2)
      else
        let Done := ForEachGameWorld Func Rest Captured
        (PieContext :: Done.1, Done.2)
    | none =>
      let Done := ForEachGameWorld Func Rest Captured
      (PieContext :: Done.1, Done.2)

/-- Function `AreAllGameWorldPaused`. -/
def AreAllGameWorldPaused (Contexts : List FWorldContext) : Bool :=
  (ForEachGameWorld
    (fun World bPaused => (World, bPaused && World.bDebugPauseExecution)) Contexts true).2

/-- Function `PausePlaySession`: the world contexts after the call and whether
`GUnrealEd->PlaySessionPaused()` was called. -/
def PausePlaySession (Contexts : List FWorldContext) : List FWorldContext × Bool :=
  ForEachGameWorld
    (fun World bPaused =>
      if !World.bDebugPauseExecution then ({ World with bDebugPauseExecution := true }, true)
      else (World, bPaused))
    Contexts false

/-- Function `IsPlaySessionPaused`. -/
def IsPlaySessionPaused (Contexts : List FWorldContext) : Bool :=
  AreAllGameWorldPaused Contexts

/-- What `PausePlaySession` is to do to one world context: the pause flag of a game world that
is not paused gets set, any other context stays as it is. -/
def FWorldContext.paused (C : FWorldContext) : FWorldContext :=
  match C.World with
  | some W =>
    if W.IsGameWorld && !W.bDebugPauseExecution then
      { World := some { W with bDebugPauseExecution := true } }
    else C
  | none => C

/-- A world context holding a game world whose pause flag is not set. -/
def FWorldContext.runsUnpaused (C : FWorldContext) : Bool :=
  match C.World with
  | some W => W.IsGameWorld && !W.bDebugPauseExecution
  | none => false

/-- Every listener bound to an asset's message delegate belongs to a log of the table: an asset
has at most one listener, and none when the table holds no log for it. -/
def UFlowDebuggerSubsystem.ListenersMatchLogs (D : UFlowDebuggerSubsystem) : Prop :=
  ∀ FlowAsset, D.RuntimeMessageListeners FlowAsset ≤ (if D.Contains FlowAsset then 1 else 0)

/-- The pin of an owner, for a pin owner. -/
def Owner.pin? : Owner → Option UEdGraphPin
  | .Node _ => none
  | .Pin OwnerPin => some OwnerPin

/-- The node whose record a call of the mutation API is addressed to. -/
def Mutation.node : Mutation → UFlowGraphNode
  | .CreateTrait Owner_ _ _ => Owner_.node
  | .RemoveTrait Owner_ _ => Owner_.node
  | .RemoveNodeTraitByPredicate OwnerNode _ => OwnerNode
  | .RemovePinTraitByPredicate Owner_ _ => Owner_.node
  | .ClearNodeTraits OwnerNode => OwnerNode
  | .ClearPinTraits Owner_ => Owner_.node
  | .CleanupTraits OwnerNode => OwnerNode
  | .SetTraitEnabled Owner_ _ _ => Owner_.node
  | .SetTraitHit Owner_ _ _ => Owner_.node
  | .SetAllTraitsHit Owner_ _ => Owner_.node
  | .ToggleTrait Owner_ _ => Owner_.node

/-- Whether a call of the mutation API works on the pin-level sequence of the record (`true`) or
on its node-level sequence (`false`): the pin overloads, `ClearPinTraits`,
`RemovePinTraitByPredicate` and `CleanupTraits` are pin-level, the rest node-level. -/
def Mutation.onPinTraits : Mutation → Bool
  | .CreateTrait Owner_ _ _ => Owner_.pin?.isSome
  | .RemoveTrait Owner_ _ => Owner_.pin?.isSome
  | .RemoveNodeTraitByPredicate _ _ => false
  | .RemovePinTraitByPredicate _ _ => true
  | .ClearNodeTraits _ => false
  | .ClearPinTraits _ => true
  | .CleanupTraits _ => true
  | .SetTraitEnabled Owner_ _ _ => Owner_.pin?.isSome
  | .SetTraitHit Owner_ _ _ => Owner_.pin?.isSome
  | .SetAllTraitsHit Owner_ _ => Owner_.pin?.isSome
  | .ToggleTrait Owner_ _ => Owner_.pin?.isSome

/-- The pin a call of the mutation API is addressed to, for the calls addressed to one pin
without a caller-supplied predicate. -/
def Mutation.pin? : Mutation → Option UEdGraphPin
  | .CreateTrait Owner_ _ _ => Owner_.pin?
  | .RemoveTrait Owner_ _ => Owner_.pin?
  | .RemoveNodeTraitByPredicate _ _ => none
  | .RemovePinTraitByPredicate _ _ => none
  | .ClearNodeTraits _ => none
  | .ClearPinTraits Owner_ => Owner_.pin?
  | .CleanupTraits _ => none
  | .SetTraitEnabled Owner_ _ _ => Owner_.pin?
  | .SetTraitHit Owner_ _ _ => Owner_.pin?
  | .SetAllTraitsHit Owner_ _ => Owner_.pin?
  | .ToggleTrait Owner_ _ => Owner_.pin?

/-- Settings `S1` differ from `S` at most in one sequence of the record under `NodeGuid`: the
records under all other guids are the same; the pin-level sequence is the same when the
node-level one was worked on (`bPin = false`), and the other way round; and when one pin was
addressed, the traits of all other pins are the same up to their order. -/
def TouchesOnly (S S1 : UFlowGraphEditorSettings) (NodeGuid : FGuid) (bPin : Bool)
    (Pin : Option UEdGraphPin) : Prop :=
  (∀ g, g ≠ NodeGuid → S1.PerNodeTraits g = S.PerNodeTraits g) ∧
    (bPin = false → PinTraitsOf S1 NodeGuid = PinTraitsOf S NodeGuid) ∧
    (bPin = true → NodeTraitsOf S1 NodeGuid = NodeTraitsOf S NodeGuid) ∧
    (∀ OwnerPin, Pin = some OwnerPin →
      ((PinTraitsOf S1 NodeGuid).filter (fun Trait => !(Trait.PinId == OwnerPin.PinId))).Perm
        ((PinTraitsOf S NodeGuid).filter (fun Trait => !(Trait.PinId == OwnerPin.PinId))))

/-! ## Containers: facts about the engine routines -/

theorem TArray.RemoveAtSwap_append_singleton {α : Type} (L : List α) (x : α) :
    TArray.RemoveAtSwap (L ++ [x]) L.length = L := by
  simp [TArray.RemoveAtSwap]

theorem getLast?_snoc {α : Type} (L : List α) (y : α) : (L ++ [y]).getLast? = some y := by
  simp

theorem TArray.RemoveAtSwap_append_cons_concat {α : Type} (L R : List α) (x y : α) :
    TArray.RemoveAtSwap (L ++ x :: (R ++ [y])) L.length = L ++ y :: R := by
  have h0 : L ++ x :: (R ++ [y]) = (L ++ x :: R) ++ [y] := by simp
  have h : (L ++ x :: (R ++ [y])).getLast? = some y := by
    rw [h0]; exact getLast?_snoc _ _
  simp only [TArray.RemoveAtSwap, h]
  simp
  have h2 : y :: (R ++ [y]) = (y :: R) ++ [y] := by simp
  rw [h2, List.dropLast_concat]

theorem TArray.RemoveAtSwap_spec {α : Type} (L R : List α) (x : α) :
    ∃ R', R'.Perm R ∧ TArray.RemoveAtSwap (L ++ x :: R) L.length = L ++ R' := by
  rcases List.eq_nil_or_concat R with h | ⟨R0, y, h⟩
  · subst h
    exact ⟨[], List.Perm.refl _, by simpa using TArray.RemoveAtSwap_append_singleton L x⟩
  · subst h
    refine ⟨y :: R0, ?_, ?_⟩
    · simpa using (List.perm_append_singleton y R0).symm
    · simpa using TArray.RemoveAtSwap_append_cons_concat L R0 x y

/-- Loop invariant in split form: the scanned prefix `L` stays, the rest is filtered up to order. -/
theorem TArray.RemoveAllSwapLoop_spec {α : Type} (p : α → Bool) :
    ∀ (fuel : Nat) (L R : List α), R.length ≤ fuel →
      ∃ R', R'.Perm (R.filter (fun x => !p x)) ∧
        TArray.RemoveAllSwapLoop p fuel (L ++ R) L.length = L ++ R' := by
  intro fuel
  induction fuel with
  | zero =>
    intro L R h
    have : R = [] := List.length_eq_zero.mp (Nat.le_zero.mp h)
    subst this
    exact ⟨[], by simp, by simp [TArray.RemoveAllSwapLoop]⟩
  | succ n ih =>
    intro L R h
    cases R with
    | nil => exact ⟨[], by simp, by simp [TArray.RemoveAllSwapLoop]⟩
    | cons x R =>
      have hlen : R.length ≤ n := by simpa using h
      have hget : (L ++ x :: R).get? L.length = some x := by
        rw [List.get?_eq_getElem?, List.getElem?_append_right (Nat.le_refl _)]
        simp
      by_cases hp : p x = true
      · obtain ⟨R1, hperm, heq⟩ := TArray.RemoveAtSwap_spec L R x
        have hlen1 : R1.length ≤ n := by rw [hperm.length_eq]; exact hlen
        obtain ⟨R2, hperm2, heq2⟩ := ih L R1 hlen1
        refine ⟨R2, ?_, ?_⟩
        · simp only [List.filter_cons, hp, Bool.not_true]
          exact hperm2.trans (hperm.filter _)
        · simp only [TArray.RemoveAllSwapLoop, hget, hp, if_true, heq, heq2]
      · obtain ⟨R2, hperm2, heq2⟩ := ih (L ++ [x]) R hlen
        refine ⟨x :: R2, ?_, ?_⟩
        · simp only [List.filter_cons, hp]
          simpa using hperm2
        · simp only [TArray.RemoveAllSwapLoop, hget, hp]
          simpa using heq2

theorem TArray.RemoveAllSwap_perm {α : Type} (p : α → Bool) (A : List α) :
    (TArray.RemoveAllSwap p A).1.Perm (A.filter (fun x => !p x)) := by
  obtain ⟨R', hperm, heq⟩ := TArray.RemoveAllSwapLoop_spec p A.length [] A (Nat.le_refl _)
  simp only [List.nil_append, List.length_nil] at heq
  simp only [TArray.RemoveAllSwap, heq]
  exact hperm


theorem TArray.RemoveAllSwapLoop_of_none {α : Type} (p : α → Bool) :
    ∀ (fuel : Nat) (A : List α) (i : Nat), (∀ x ∈ A, p x = false) →
      TArray.RemoveAllSwapLoop p fuel A i = A := by
  intro fuel
  induction fuel with
  | zero => intro A i _; rfl
  | succ n ih =>
    intro A i h
    simp only [TArray.RemoveAllSwapLoop]
    cases hget : A.get? i with
    | none => rfl
    | some x =>
      have hx : p x = false := h x (List.get?_mem hget)
      simp [hx, ih A (i + 1) h]

theorem TArray.RemoveAllSwap_fst_of_none {α : Type} (p : α → Bool) (A : List α)
    (h : ∀ x ∈ A, p x = false) : (TArray.RemoveAllSwap p A).1 = A := by
  simp [TArray.RemoveAllSwap, TArray.RemoveAllSwapLoop_of_none p _ A 0 h]

theorem TArray.mem_RemoveAllSwap {α : Type} (p : α → Bool) (A : List α) (x : α) :
    x ∈ (TArray.RemoveAllSwap p A).1 ↔ x ∈ A ∧ p x = false := by
  rw [(TArray.RemoveAllSwap_perm p A).mem_iff]
  simp [List.mem_filter]

theorem TArray.RemoveAllSwap_snd {α : Type} (p : α → Bool) (A : List α) :
    (TArray.RemoveAllSwap p A).2 = A.length - (A.filter (fun x => !p x)).length := by
  have h := (TArray.RemoveAllSwap_perm p A).length_eq
  simp only [TArray.RemoveAllSwap] at h ⊢
  rw [h]

theorem TArray.RemoveAllSwap_snd_eq_zero {α : Type} (p : α → Bool) (A : List α) :
    (TArray.RemoveAllSwap p A).2 = 0 ↔ ∀ x ∈ A, p x = false := by
  rw [TArray.RemoveAllSwap_snd]
  have hle : (A.filter (fun x => !p x)).length ≤ A.length := List.length_filter_le _ _
  constructor
  · intro h
    have hlen : (A.filter (fun x => !p x)).length = A.length := by omega
    have := List.filter_length_eq_length.mp hlen
    intro x hx
    simpa using this x hx
  · intro h
    have : A.filter (fun x => !p x) = A := by
      apply List.filter_eq_self.mpr
      intro x hx
      simp [h x hx]
    rw [this]; simp

theorem TArray.RemoveAllSwap_fst_eq_nil {α : Type} (p : α → Bool) (A : List α) :
    (TArray.RemoveAllSwap p A).1 = [] ↔ ∀ x ∈ A, p x = true := by
  constructor
  · intro h x hx
    by_contra hpx
    have : x ∈ (TArray.RemoveAllSwap p A).1 :=
      (TArray.mem_RemoveAllSwap p A x).mpr ⟨hx, by simpa using hpx⟩
    rw [h] at this
    exact absurd this (List.not_mem_nil _)
  · intro h
    apply List.eq_nil_iff_forall_not_mem.mpr
    intro x hx
    have := (TArray.mem_RemoveAllSwap p A x).mp hx
    rw [h x this.1] at this
    exact absurd this.2 (by simp)

theorem TArray.RemoveAllSwap_nil {α : Type} (p : α → Bool) :
    TArray.RemoveAllSwap p ([] : List α) = ([], 0) := rfl

theorem TArray.find?_storeFirst {α : Type} (Test : α → Bool) (F : α → α)
    (hF : ∀ a, Test (F a) = Test a) (l : List α) :
    (TArray.storeFirst Test F l).find? Test = (l.find? Test).map F := by
  induction l with
  | nil => rfl
  | cons a as ih =>
    by_cases h : Test a = true
    · simp [TArray.storeFirst, h, hF]
    · simp [TArray.storeFirst, h, ih]

theorem TArray.storeFirst_of_find?_none {α : Type} (Test : α → Bool) (F : α → α) (l : List α)
    (h : l.find? Test = none) : TArray.storeFirst Test F l = l := by
  induction l with
  | nil => rfl
  | cons a as ih =>
    by_cases ha : Test a = true
    · simp [List.find?, ha] at h
    · simp [List.find?, ha] at h
      simp [TArray.storeFirst, ha]
      exact ih (by simpa using h)

theorem TArray.map_storeFirst {α β : Type} (Test : α → Bool) (F : α → α) (key : α → β)
    (hF : ∀ a, key (F a) = key a) (l : List α) :
    (TArray.storeFirst Test F l).map key = l.map key := by
  induction l with
  | nil => rfl
  | cons a as ih =>
    by_cases h : Test a = true
    · simp [TArray.storeFirst, h, hF]
    · simp [TArray.storeFirst, h, ih]

theorem TArray.storeFirst_eq_nil {α : Type} (Test : α → Bool) (F : α → α) (l : List α) :
    TArray.storeFirst Test F l = [] ↔ l = [] := by
  cases l with
  | nil => simp [TArray.storeFirst]
  | cons a as => by_cases h : Test a = true <;> simp [TArray.storeFirst, h]

/-! ## Settings: basic facts -/

@[ext]
theorem UFlowGraphEditorSettings.ext {A B : UFlowGraphEditorSettings}
    (h1 : ∀ g, A.PerNodeTraits g = B.PerNodeTraits g)
    (h2 : A.SaveConfigCalls = B.SaveConfigCalls) : A = B := by
  cases A; cases B
  simp only [UFlowGraphEditorSettings.mk.injEq]
  exact ⟨funext h1, h2⟩

@[simp]
theorem UFlowGraphEditorSettings.store_apply (S : UFlowGraphEditorSettings) (k g : FGuid)
    (v : FFlowTraitSettings) :
    (S.store k v).PerNodeTraits g = if g = k then some v else S.PerNodeTraits g := rfl

@[simp]
theorem UFlowGraphEditorSettings.Remove_apply (S : UFlowGraphEditorSettings) (k g : FGuid) :
    (S.Remove k).PerNodeTraits g = if g = k then none else S.PerNodeTraits g := rfl

@[simp]
theorem SaveFlowGraphEditorSettings_apply (S : UFlowGraphEditorSettings) :
    (SaveFlowGraphEditorSettings S).PerNodeTraits = S.PerNodeTraits := rfl

theorem TArray.opEq_nil (A : List FFlowDebugTrait) : TArray.opEq A [] = true ↔ A = [] := by
  cases A <;> simp [TArray.opEq]

theorem FFlowTraitSettings.opEq_default (R : FFlowTraitSettings) :
    R.opEq FFlowTraitSettings.default = true ↔ R.NodeTraits = [] ∧ R.PinTraits = [] := by
  simp [FFlowTraitSettings.opEq, FFlowTraitSettings.default, TArray.opEq_nil]

theorem FindTrait_node (S : UFlowGraphEditorSettings) (OwnerNode : UFlowGraphNode)
    (T : EFlowTraitType) :
    FindTrait S (.Node OwnerNode) T = (NodeTraitsOf S OwnerNode.NodeGuid).find? (IsNodeTrait T) := by
  simp only [FindTrait, GetNodeTraits, GetPerNodeSettings, NodeTraitsOf]
  cases h : S.PerNodeTraits OwnerNode.NodeGuid with
  | none => rfl
  | some R =>
    by_cases hN : R.NodeTraits = [] <;> simp [hN]

theorem FindTrait_pin (S : UFlowGraphEditorSettings) (OwnerPin : UEdGraphPin)
    (T : EFlowTraitType) :
    FindTrait S (.Pin OwnerPin) T =
      (PinTraitsOf S OwnerPin.GetOwningNode.NodeGuid).find? (IsPinTrait OwnerPin T) := by
  simp only [FindTrait, GetPinTraits, GetPerNodeSettings, PinTraitsOf]
  cases h : S.PerNodeTraits OwnerPin.GetOwningNode.NodeGuid with
  | none => rfl
  | some R =>
    by_cases hN : R.PinTraits = [] <;> simp [hN]

/-- The record stored for the node of `ClearNodeTraits` afterwards. -/
theorem ClearNodeTraits_apply (S : UFlowGraphEditorSettings) (OwnerNode : UFlowGraphNode)
    (g : FGuid) :
    (ClearNodeTraits S OwnerNode).PerNodeTraits g =
      if g = OwnerNode.NodeGuid then
        match S.PerNodeTraits g with
        | none => none
        | some R => if R.PinTraits = [] then none else some { R with NodeTraits := [] }
      else S.PerNodeTraits g := by
  simp only [ClearNodeTraits, GetPerNodeSettings]
  cases h : S.PerNodeTraits OwnerNode.NodeGuid with
  | none =>
    by_cases hg : g = OwnerNode.NodeGuid
    · subst hg; simp [h]
    · simp [hg]
  | some R =>
    by_cases hg : g = OwnerNode.NodeGuid
    · subst hg
      by_cases hP : R.PinTraits = [] <;> simp [h, hP, FFlowTraitSettings.opEq_default]
    · by_cases hP : R.PinTraits = [] <;> simp [hg, hP, FFlowTraitSettings.opEq_default]

/-- The record stored for the node of `ClearPinTraits` afterwards. -/
theorem ClearPinTraits_apply (S : UFlowGraphEditorSettings) (Owner_ : Owner) (g : FGuid) :
    (ClearPinTraits S Owner_).PerNodeTraits g =
      if g = Owner_.node.NodeGuid then
        match S.PerNodeTraits g with
        | none => none
        | some R =>
          let Rest : List FFlowDebugTrait :=
            match Owner_ with
            | .Node _ => []
            | .Pin OwnerPin =>
              (TArray.RemoveAllSwap (fun Trait => Trait.PinId == OwnerPin.PinId) R.PinTraits).1
          if R.NodeTraits = [] ∧ Rest = [] then none else some { R with PinTraits := Rest }
      else S.PerNodeTraits g := by
  cases Owner_ with
  | Node OwnerNode =>
    simp only [ClearPinTraits, GetPerNodeSettings, Owner.node]
    cases h : S.PerNodeTraits OwnerNode.NodeGuid with
    | none =>
      by_cases hg : g = OwnerNode.NodeGuid
      · subst hg; simp [h]
      · simp [hg]
    | some R =>
      by_cases hg : g = OwnerNode.NodeGuid
      · subst hg
        by_cases hP : R.NodeTraits = [] <;> simp [h, hP, FFlowTraitSettings.opEq_default]
      · by_cases hP : R.NodeTraits = [] <;> simp [hg, hP, FFlowTraitSettings.opEq_default]
  | Pin OwnerPin =>
    simp only [ClearPinTraits, GetPerNodeSettings, Owner.node]
    cases h : S.PerNodeTraits OwnerPin.GetOwningNode.NodeGuid with
    | none =>
      by_cases hg : g = OwnerPin.GetOwningNode.NodeGuid
      · subst hg; simp [h]
      · simp [hg]
    | some R =>
      by_cases hg : g = OwnerPin.GetOwningNode.NodeGuid
      · subst hg
        by_cases hP : R.NodeTraits = [] ∧
            (TArray.RemoveAllSwap (fun Trait => Trait.PinId == OwnerPin.PinId) R.PinTraits).1 = []
        · simp [h, hP, FFlowTraitSettings.opEq_default]
        · simp [h, hP, FFlowTraitSettings.opEq_default]
      · by_cases hP : R.NodeTraits = [] ∧
            (TArray.RemoveAllSwap (fun Trait => Trait.PinId == OwnerPin.PinId) R.PinTraits).1 = []
        · simp [hg, hP, FFlowTraitSettings.opEq_default]
        · simp [hg, hP, FFlowTraitSettings.opEq_default]

theorem FFlowTraitSettings.with_NodeTraits_self (R : FFlowTraitSettings) :
    ({ R with NodeTraits := R.NodeTraits } : FFlowTraitSettings) = R := by
  cases R; rfl

/-- The record stored for the node of `RemoveNodeTraitByPredicate` afterwards. -/
theorem RemoveNodeTraitByPredicate_apply (S : UFlowGraphEditorSettings)
    (OwnerNode : UFlowGraphNode) (Predicate : FFlowDebugTrait → Bool) (g : FGuid) :
    (RemoveNodeTraitByPredicate S OwnerNode Predicate).PerNodeTraits g =
      if g = OwnerNode.NodeGuid then
        match S.PerNodeTraits g with
        | none => none
        | some R =>
          if R.NodeTraits ≠ [] ∧ (TArray.RemoveAllSwap Predicate R.NodeTraits).1 = [] ∧
              R.PinTraits = [] then none
          else some { R with NodeTraits := (TArray.RemoveAllSwap Predicate R.NodeTraits).1 }
      else S.PerNodeTraits g := by
  simp only [RemoveNodeTraitByPredicate, GetNodeTraits, GetPerNodeSettings]
  cases h : S.PerNodeTraits OwnerNode.NodeGuid with
  | none =>
    by_cases hg : g = OwnerNode.NodeGuid
    · subst hg; simp [h]
    · simp [hg]
  | some R =>
    by_cases hN : R.NodeTraits = []
    · by_cases hg : g = OwnerNode.NodeGuid
      · subst hg
        simp only [hN, List.isEmpty_nil, if_true, h, TArray.RemoveAllSwap_nil]
        simp
        cases R; simp_all
      · simp [hN, hg]
    · simp only [List.isEmpty_eq_true, hN, if_false]
      by_cases hc : (TArray.RemoveAllSwap Predicate R.NodeTraits).2 = 0
      · have hsame := TArray.RemoveAllSwap_fst_of_none Predicate R.NodeTraits
          ((TArray.RemoveAllSwap_snd_eq_zero _ _).mp hc)
        by_cases hg : g = OwnerNode.NodeGuid
        · subst hg
          simp [hc, storeNodeTraits, GetPerNodeSettings, h, hsame, hN]
        · simp [hc, storeNodeTraits, GetPerNodeSettings, h, hg]
      · by_cases hE : (TArray.RemoveAllSwap Predicate R.NodeTraits).1 = []
        · simp only [ne_eq, hc, not_false_eq_true, if_true, hE, List.isEmpty_nil,
            SaveFlowGraphEditorSettings_apply, ClearNodeTraits_apply]
          by_cases hg : g = OwnerNode.NodeGuid
          · subst hg
            by_cases hP : R.PinTraits = [] <;>
              simp [storeNodeTraits, GetPerNodeSettings, h, hN, hP, hE]
          · simp [storeNodeTraits, GetPerNodeSettings, h, hg]
        · by_cases hg : g = OwnerNode.NodeGuid
          · subst hg
            simp [hc, hE, storeNodeTraits, GetPerNodeSettings, h]
          · simp [hc, hE, storeNodeTraits, GetPerNodeSettings, h, hg]

/-- The record stored for the node of `RemovePinTraitByPredicate` afterwards. -/
theorem RemovePinTraitByPredicate_apply (S : UFlowGraphEditorSettings)
    (Owner_ : Owner) (Predicate : FFlowDebugTrait → Bool) (g : FGuid) :
    (RemovePinTraitByPredicate S Owner_ Predicate).PerNodeTraits g =
      if g = Owner_.node.NodeGuid then
        match S.PerNodeTraits g with
        | none => none
        | some R =>
          if R.PinTraits ≠ [] ∧ (TArray.RemoveAllSwap Predicate R.PinTraits).1 = [] ∧
              R.NodeTraits = [] then none
          else some { R with PinTraits := (TArray.RemoveAllSwap Predicate R.PinTraits).1 }
      else S.PerNodeTraits g := by
  simp only [RemovePinTraitByPredicate, GetPinTraits, GetPerNodeSettings]
  cases h : S.PerNodeTraits Owner_.node.NodeGuid with
  | none =>
    by_cases hg : g = Owner_.node.NodeGuid
    · subst hg; simp [h]
    · simp [hg]
  | some R =>
    by_cases hN : R.PinTraits = []
    · by_cases hg : g = Owner_.node.NodeGuid
      · subst hg
        simp only [hN, List.isEmpty_nil, if_true, h, TArray.RemoveAllSwap_nil]
        simp
        cases R; simp_all
      · simp [hN, hg]
    · simp only [List.isEmpty_eq_true, hN, if_false]
      by_cases hc : (TArray.RemoveAllSwap Predicate R.PinTraits).2 = 0
      · have hsame := TArray.RemoveAllSwap_fst_of_none Predicate R.PinTraits
          ((TArray.RemoveAllSwap_snd_eq_zero _ _).mp hc)
        by_cases hg : g = Owner_.node.NodeGuid
        · subst hg
          simp [hc, storePinTraits, GetPerNodeSettings, h, hsame, hN]
        · simp [hc, storePinTraits, GetPerNodeSettings, h, hg]
      · by_cases hE : (TArray.RemoveAllSwap Predicate R.PinTraits).1 = []
        · simp only [ne_eq, hc, not_false_eq_true, if_true, hE, List.isEmpty_nil,
            SaveFlowGraphEditorSettings_apply, ClearPinTraits_apply]
          by_cases hg : g = Owner_.node.NodeGuid
          · subst hg
            by_cases hP : R.NodeTraits = [] <;> cases Owner_ <;>
              simp [storePinTraits, GetPerNodeSettings, h, hN, hP, hE, TArray.RemoveAllSwap_nil]
          · simp [storePinTraits, GetPerNodeSettings, h, hg]
        · by_cases hg : g = Owner_.node.NodeGuid
          · subst hg
            simp [hc, hE, storePinTraits, GetPerNodeSettings, h]
          · simp [hc, hE, storePinTraits, GetPerNodeSettings, h, hg]

/-! ## Settings: what each call does to the stored sequences -/

theorem NodeTraitsOf_RemoveNodeTraitByPredicate (S : UFlowGraphEditorSettings)
    (OwnerNode : UFlowGraphNode) (Predicate : FFlowDebugTrait → Bool) (g : FGuid) :
    NodeTraitsOf (RemoveNodeTraitByPredicate S OwnerNode Predicate) g =
      if g = OwnerNode.NodeGuid then (TArray.RemoveAllSwap Predicate (NodeTraitsOf S g)).1
      else NodeTraitsOf S g := by
  simp only [NodeTraitsOf, RemoveNodeTraitByPredicate_apply]
  by_cases hg : g = OwnerNode.NodeGuid
  · simp only [hg, if_true]
    cases h : S.PerNodeTraits OwnerNode.NodeGuid with
    | none => simp [TArray.RemoveAllSwap_nil]
    | some R =>
      dsimp only
      split_ifs <;> simp_all
  · simp [hg]

theorem PinTraitsOf_RemoveNodeTraitByPredicate (S : UFlowGraphEditorSettings)
    (OwnerNode : UFlowGraphNode) (Predicate : FFlowDebugTrait → Bool) (g : FGuid) :
    PinTraitsOf (RemoveNodeTraitByPredicate S OwnerNode Predicate) g = PinTraitsOf S g := by
  simp only [PinTraitsOf, RemoveNodeTraitByPredicate_apply]
  by_cases hg : g = OwnerNode.NodeGuid
  · simp only [hg, if_true]
    cases h : S.PerNodeTraits OwnerNode.NodeGuid with
    | none => simp
    | some R =>
      dsimp only
      split_ifs <;> simp_all
  · simp [hg]

theorem PinTraitsOf_RemovePinTraitByPredicate (S : UFlowGraphEditorSettings)
    (Owner_ : Owner) (Predicate : FFlowDebugTrait → Bool) (g : FGuid) :
    PinTraitsOf (RemovePinTraitByPredicate S Owner_ Predicate) g =
      if g = Owner_.node.NodeGuid then (TArray.RemoveAllSwap Predicate (PinTraitsOf S g)).1
      else PinTraitsOf S g := by
  simp only [PinTraitsOf, RemovePinTraitByPredicate_apply]
  by_cases hg : g = Owner_.node.NodeGuid
  · simp only [hg, if_true]
    cases h : S.PerNodeTraits Owner_.node.NodeGuid with
    | none => simp [TArray.RemoveAllSwap_nil]
    | some R =>
      dsimp only
      split_ifs <;> simp_all
  · simp [hg]

theorem NodeTraitsOf_RemovePinTraitByPredicate (S : UFlowGraphEditorSettings)
    (Owner_ : Owner) (Predicate : FFlowDebugTrait → Bool) (g : FGuid) :
    NodeTraitsOf (RemovePinTraitByPredicate S Owner_ Predicate) g = NodeTraitsOf S g := by
  simp only [NodeTraitsOf, RemovePinTraitByPredicate_apply]
  by_cases hg : g = Owner_.node.NodeGuid
  · simp only [hg, if_true]
    cases h : S.PerNodeTraits Owner_.node.NodeGuid with
    | none => simp
    | some R =>
      dsimp only
      split_ifs <;> simp_all
  · simp [hg]

theorem NodeTraitsOf_ClearNodeTraits (S : UFlowGraphEditorSettings)
    (OwnerNode : UFlowGraphNode) (g : FGuid) :
    NodeTraitsOf (ClearNodeTraits S OwnerNode) g =
      if g = OwnerNode.NodeGuid then [] else NodeTraitsOf S g := by
  simp only [NodeTraitsOf, ClearNodeTraits_apply]
  by_cases hg : g = OwnerNode.NodeGuid
  · simp only [hg, if_true]
    cases h : S.PerNodeTraits OwnerNode.NodeGuid with
    | none => simp
    | some R =>
      dsimp only
      split_ifs <;> simp_all
  · simp [hg]

theorem PinTraitsOf_ClearNodeTraits (S : UFlowGraphEditorSettings)
    (OwnerNode : UFlowGraphNode) (g : FGuid) :
    PinTraitsOf (ClearNodeTraits S OwnerNode) g = PinTraitsOf S g := by
  simp only [PinTraitsOf, ClearNodeTraits_apply]
  by_cases hg : g = OwnerNode.NodeGuid
  · simp only [hg, if_true]
    cases h : S.PerNodeTraits OwnerNode.NodeGuid with
    | none => simp
    | some R =>
      dsimp only
      split_ifs <;> simp_all
  · simp [hg]

theorem NodeTraitsOf_ClearPinTraits (S : UFlowGraphEditorSettings) (Owner_ : Owner) (g : FGuid) :
    NodeTraitsOf (ClearPinTraits S Owner_) g = NodeTraitsOf S g := by
  simp only [NodeTraitsOf, ClearPinTraits_apply]
  by_cases hg : g = Owner_.node.NodeGuid
  · simp only [hg, if_true]
    cases h : S.PerNodeTraits Owner_.node.NodeGuid with
    | none => simp
    | some R =>
      dsimp only
      split_ifs <;> simp_all
  · simp [hg]

theorem PinTraitsOf_ClearPinTraits (S : UFlowGraphEditorSettings) (Owner_ : Owner) (g : FGuid) :
    PinTraitsOf (ClearPinTraits S Owner_) g =
      if g = Owner_.node.NodeGuid then
        match Owner_ with
        | .Node _ => []
        | .Pin OwnerPin =>
          (TArray.RemoveAllSwap (fun Trait => Trait.PinId == OwnerPin.PinId) (PinTraitsOf S g)).1
      else PinTraitsOf S g := by
  simp only [PinTraitsOf, ClearPinTraits_apply]
  by_cases hg : g = Owner_.node.NodeGuid
  · simp only [hg, if_true]
    cases h : S.PerNodeTraits Owner_.node.NodeGuid with
    | none => cases Owner_ <;> simp [TArray.RemoveAllSwap_nil]
    | some R =>
      cases Owner_ <;> dsimp only <;> split_ifs <;> simp_all
  · simp [hg]

theorem TArray.any_eq_isSome_find? {α : Type} (p : α → Bool) (l : List α) :
    l.any p = (l.find? p).isSome := by
  induction l with
  | nil => rfl
  | cons a as ih => by_cases h : p a = true <;> simp [List.find?, h, ih]

/-- The assertion of `CreateTrait` fails exactly when slow checks are compiled in and
`FindTrait` finds a trait. -/
theorem CreateTrait_eq_none_iff (DO_GUARD_SLOW : Bool) (S : UFlowGraphEditorSettings)
    (Owner_ : Owner) (T : EFlowTraitType) (bEnabled : Bool) :
    CreateTrait DO_GUARD_SLOW S Owner_ T bEnabled = none ↔
      DO_GUARD_SLOW = true ∧ (FindTrait S Owner_ T).isSome = true := by
  cases Owner_ with
  | Node OwnerNode =>
    rw [FindTrait_node, ← TArray.any_eq_isSome_find?]
    simp only [CreateTrait, checkSlow, UFlowGraphEditorSettings.FindOrAdd, NodeTraitsOf]
    have hcases : S.PerNodeTraits OwnerNode.NodeGuid = none ∨
        ∃ R, S.PerNodeTraits OwnerNode.NodeGuid = some R := by
      cases S.PerNodeTraits OwnerNode.NodeGuid <;> simp
    rcases hcases with h | ⟨R, h⟩
    · cases DO_GUARD_SLOW <;> simp [h, FFlowTraitSettings.default]
    · cases DO_GUARD_SLOW <;> cases hA : R.NodeTraits.any (IsNodeTrait T) <;> simp [h, hA]
  | Pin OwnerPin =>
    rw [FindTrait_pin, ← TArray.any_eq_isSome_find?]
    simp only [CreateTrait, checkSlow, UFlowGraphEditorSettings.FindOrAdd, PinTraitsOf]
    have hcases : S.PerNodeTraits OwnerPin.GetOwningNode.NodeGuid = none ∨
        ∃ R, S.PerNodeTraits OwnerPin.GetOwningNode.NodeGuid = some R := by
      cases S.PerNodeTraits OwnerPin.GetOwningNode.NodeGuid <;> simp
    rcases hcases with h | ⟨R, h⟩
    · cases DO_GUARD_SLOW <;> simp [h, FFlowTraitSettings.default]
    · cases DO_GUARD_SLOW <;> cases hA : R.PinTraits.any (IsPinTrait OwnerPin T) <;> simp [h, hA]

/-- The settings a successful `CreateTrait` leaves: the trait is appended to the owner's
sequence, in a record added when there was none, and one save is made. -/
theorem CreateTrait_apply (DO_GUARD_SLOW : Bool) (S S1 : UFlowGraphEditorSettings)
    (Owner_ : Owner) (T : EFlowTraitType) (bEnabled : Bool) :
    CreateTrait DO_GUARD_SLOW S Owner_ T bEnabled = some S1 →
    (∀ g, S1.PerNodeTraits g =
      if g = Owner_.node.NodeGuid then
        some (match Owner_ with
          | .Node _ =>
            { NodeTraits := NodeTraitsOf S g ++ [FFlowDebugTrait.ofType T bEnabled],
              PinTraits := PinTraitsOf S g }
          | .Pin OwnerPin =>
            { NodeTraits := NodeTraitsOf S g,
              PinTraits := PinTraitsOf S g ++ [FFlowDebugTrait.ofPin T OwnerPin.PinId bEnabled] })
      else S.PerNodeTraits g) ∧
    S1.SaveConfigCalls = S.SaveConfigCalls + 1 := by
  intro h
  cases Owner_ with
  | Node OwnerNode =>
    simp only [CreateTrait, checkSlow, UFlowGraphEditorSettings.FindOrAdd] at h
    cases hR : S.PerNodeTraits OwnerNode.NodeGuid with
    | none =>
      simp only [hR] at h
      split at h
      · exact absurd h (by simp)
      · simp only [Option.some.injEq] at h
        subst h
        refine ⟨fun g => ?_, rfl⟩
        by_cases hg : g = OwnerNode.NodeGuid
        · subst hg; simp [Owner.node, NodeTraitsOf, PinTraitsOf, hR, FFlowTraitSettings.default]
        · simp [Owner.node, hg]
    | some R =>
      simp only [hR] at h
      split at h
      · exact absurd h (by simp)
      · simp only [Option.some.injEq] at h
        subst h
        refine ⟨fun g => ?_, rfl⟩
        by_cases hg : g = OwnerNode.NodeGuid
        · subst hg; simp [Owner.node, NodeTraitsOf, PinTraitsOf, hR]
        · simp [Owner.node, hg]
  | Pin OwnerPin =>
    simp only [CreateTrait, checkSlow, UFlowGraphEditorSettings.FindOrAdd] at h
    cases hR : S.PerNodeTraits OwnerPin.GetOwningNode.NodeGuid with
    | none =>
      simp only [hR] at h
      split at h
      · exact absurd h (by simp)
      · simp only [Option.some.injEq] at h
        subst h
        refine ⟨fun g => ?_, rfl⟩
        by_cases hg : g = OwnerPin.GetOwningNode.NodeGuid
        · subst hg; simp [Owner.node, NodeTraitsOf, PinTraitsOf, hR, FFlowTraitSettings.default]
        · simp [Owner.node, hg]
    | some R =>
      simp only [hR] at h
      split at h
      · exact absurd h (by simp)
      · simp only [Option.some.injEq] at h
        subst h
        refine ⟨fun g => ?_, rfl⟩
        by_cases hg : g = OwnerPin.GetOwningNode.NodeGuid
        · subst hg; simp [Owner.node, NodeTraitsOf, PinTraitsOf, hR]
        · simp [Owner.node, hg]

/-- When `FindTrait` finds nothing, or slow checks are compiled out, `CreateTrait` returns. -/
theorem CreateTrait_isSome (DO_GUARD_SLOW : Bool) (S : UFlowGraphEditorSettings)
    (Owner_ : Owner) (T : EFlowTraitType) (bEnabled : Bool)
    (h : DO_GUARD_SLOW = false ∨ FindTrait S Owner_ T = none) :
    ∃ S1, CreateTrait DO_GUARD_SLOW S Owner_ T bEnabled = some S1 := by
  cases hC : CreateTrait DO_GUARD_SLOW S Owner_ T bEnabled with
  | some S1 => exact ⟨S1, rfl⟩
  | none =>
    have := (CreateTrait_eq_none_iff _ _ _ _ _).mp hC
    rcases h with h | h
    · rw [h] at this; exact absurd this.1 (by simp)
    · rw [h] at this; exact absurd this.2 (by simp)

theorem NodeTraitsOf_CreateTrait (DO_GUARD_SLOW : Bool) (S S1 : UFlowGraphEditorSettings)
    (Owner_ : Owner) (T : EFlowTraitType) (bEnabled : Bool) (g : FGuid) :
    CreateTrait DO_GUARD_SLOW S Owner_ T bEnabled = some S1 →
    NodeTraitsOf S1 g =
      match Owner_ with
      | .Node OwnerNode =>
        if g = OwnerNode.NodeGuid then NodeTraitsOf S g ++ [FFlowDebugTrait.ofType T bEnabled]
        else NodeTraitsOf S g
      | .Pin _ => NodeTraitsOf S g := by
  intro h
  have hA := (CreateTrait_apply _ _ _ _ _ _ h).1 g
  cases Owner_ with
  | Node OwnerNode =>
    by_cases hg : g = OwnerNode.NodeGuid
    · subst hg
      simp only [Owner.node, if_true] at hA
      rw [NodeTraitsOf, hA]
      simp
    · simp only [Owner.node, hg, if_false] at hA
      simp [NodeTraitsOf, hA, hg]
  | Pin OwnerPin =>
    by_cases hg : g = OwnerPin.GetOwningNode.NodeGuid
    · subst hg
      simp only [Owner.node, if_true] at hA
      rw [NodeTraitsOf, hA]
    · simp only [Owner.node, hg, if_false] at hA
      simp [NodeTraitsOf, hA]

theorem PinTraitsOf_CreateTrait (DO_GUARD_SLOW : Bool) (S S1 : UFlowGraphEditorSettings)
    (Owner_ : Owner) (T : EFlowTraitType) (bEnabled : Bool) (g : FGuid) :
    CreateTrait DO_GUARD_SLOW S Owner_ T bEnabled = some S1 →
    PinTraitsOf S1 g =
      match Owner_ with
      | .Node _ => PinTraitsOf S g
      | .Pin OwnerPin =>
        if g = OwnerPin.GetOwningNode.NodeGuid then
          PinTraitsOf S g ++ [FFlowDebugTrait.ofPin T OwnerPin.PinId bEnabled]
        else PinTraitsOf S g := by
  intro h
  have hA := (CreateTrait_apply _ _ _ _ _ _ h).1 g
  cases Owner_ with
  | Node OwnerNode =>
    by_cases hg : g = OwnerNode.NodeGuid
    · subst hg
      simp only [Owner.node, if_true] at hA
      rw [PinTraitsOf, hA]
    · simp only [Owner.node, hg, if_false] at hA
      simp [PinTraitsOf, hA]
  | Pin OwnerPin =>
    by_cases hg : g = OwnerPin.GetOwningNode.NodeGuid
    · subst hg
      simp only [Owner.node, if_true] at hA
      rw [PinTraitsOf, hA]
      simp
    · simp only [Owner.node, hg, if_false] at hA
      simp [PinTraitsOf, hA, hg]

/-! ## Creating a trait -/

theorem IsNodeTrait_ofType (T : EFlowTraitType) (b : Bool) :
    IsNodeTrait T (FFlowDebugTrait.ofType T b) = true := by
  simp [IsNodeTrait, FFlowDebugTrait.ofType]

theorem IsPinTrait_ofPin (OwnerPin : UEdGraphPin) (T : EFlowTraitType) (b : Bool) :
    IsPinTrait OwnerPin T (FFlowDebugTrait.ofPin T OwnerPin.PinId b) = true := by
  simp [IsPinTrait, FFlowDebugTrait.ofPin]

/-- After a successful `CreateTrait` on settings where `FindTrait` found nothing, `FindTrait`
returns the trait just constructed. -/
theorem FindTrait_CreateTrait (DO_GUARD_SLOW : Bool) (S S1 : UFlowGraphEditorSettings)
    (Owner_ : Owner) (T : EFlowTraitType) (bEnabled : Bool)
    (hFind : FindTrait S Owner_ T = none)
    (h : CreateTrait DO_GUARD_SLOW S Owner_ T bEnabled = some S1) :
    FindTrait S1 Owner_ T = some
      { PinId := (match Owner_ with
          | .Node _ => 0
          | .Pin OwnerPin => OwnerPin.PinId),
        Type_ := T, bEnabled := bEnabled, bHit := false } := by
  cases Owner_ with
  | Node OwnerNode =>
    rw [FindTrait_node] at hFind ⊢
    rw [NodeTraitsOf_CreateTrait _ _ _ _ _ _ _ h]
    simp [List.find?_append, hFind, IsNodeTrait_ofType]
    rfl
  | Pin OwnerPin =>
    rw [FindTrait_pin] at hFind ⊢
    rw [PinTraitsOf_CreateTrait _ _ _ _ _ _ _ h]
    simp [List.find?_append, hFind, IsPinTrait_ofPin]
    rfl

/-- C1: when `FindTrait(owner, type)` returns nothing, `CreateTrait(owner, type, e)` returns
(whether or not slow checks are compiled in) and afterwards `FindTrait(owner, type)` returns a
trait whose enabled flag is `e` and whose hit flag is false. -/
theorem C1_create_then_find (DO_GUARD_SLOW : Bool) (S : UFlowGraphEditorSettings)
    (Owner_ : Owner) (T : EFlowTraitType) (e : Bool)
    (hFind : FindTrait S Owner_ T = none) :
    ∃ S1, CreateTrait DO_GUARD_SLOW S Owner_ T e = some S1 ∧
      ∃ Trait, FindTrait S1 Owner_ T = some Trait ∧ Trait.IsEnabled = e ∧ Trait.IsHit = false := by
  obtain ⟨S1, h⟩ := CreateTrait_isSome DO_GUARD_SLOW S Owner_ T e (Or.inr hFind)
  exact ⟨S1, h, _, FindTrait_CreateTrait _ _ _ _ _ _ hFind h, rfl, rfl⟩

/-- C1 at the empty settings, for a node-level and a pin-level breakpoint. -/
theorem C1_create_then_find_witness :
    (FindTrait UFlowGraphEditorSettings.empty (.Node { NodeGuid := 7, Pins := [1, 2] })
        .Breakpoint = none ∧
      ∃ S1, CreateTrait true UFlowGraphEditorSettings.empty
          (.Node { NodeGuid := 7, Pins := [1, 2] }) .Breakpoint true = some S1 ∧
        ∃ Trait, FindTrait S1 (.Node { NodeGuid := 7, Pins := [1, 2] }) .Breakpoint = some Trait ∧
          Trait.IsEnabled = true ∧ Trait.IsHit = false) :=
  ⟨rfl, C1_create_then_find true UFlowGraphEditorSettings.empty
    (.Node { NodeGuid := 7, Pins := [1, 2] }) .Breakpoint true rfl⟩

theorem CountTraits_CreateTrait (DO_GUARD_SLOW : Bool) (S S1 : UFlowGraphEditorSettings)
    (Owner_ : Owner) (T : EFlowTraitType) (bEnabled : Bool)
    (h : CreateTrait DO_GUARD_SLOW S Owner_ T bEnabled = some S1) :
    CountTraits S1 Owner_ T = CountTraits S Owner_ T + 1 := by
  cases Owner_ with
  | Node OwnerNode =>
    simp [CountTraits, NodeTraitsOf_CreateTrait _ _ _ _ _ _ _ h, List.countP_append,
      IsNodeTrait_ofType]
  | Pin OwnerPin =>
    simp [CountTraits, PinTraitsOf_CreateTrait _ _ _ _ _ _ _ h, List.countP_append,
      IsPinTrait_ofPin]

theorem CountTraits_pos_iff (S : UFlowGraphEditorSettings) (Owner_ : Owner)
    (T : EFlowTraitType) :
    0 < CountTraits S Owner_ T ↔ (FindTrait S Owner_ T).isSome = true := by
  cases Owner_ with
  | Node OwnerNode =>
    rw [FindTrait_node, ← TArray.any_eq_isSome_find?]
    simp [CountTraits, List.countP_pos_iff]
  | Pin OwnerPin =>
    rw [FindTrait_pin, ← TArray.any_eq_isSome_find?]
    simp [CountTraits, List.countP_pos_iff]

/-- C2 (as amended): when a trait with the given owner and type already exists, `CreateTrait`
is rejected by its uniqueness assertion in a build with slow checks compiled in; in a build
without them the call returns, having appended one more trait for the same owner and type, so
that at least two are then stored. -/
theorem C2_create_existing (S : UFlowGraphEditorSettings) (Owner_ : Owner)
    (T : EFlowTraitType) (e : Bool)
    (hFind : (FindTrait S Owner_ T).isSome = true) :
    CreateTrait true S Owner_ T e = none ∧
      ∃ S1, CreateTrait false S Owner_ T e = some S1 ∧
        CountTraits S1 Owner_ T = CountTraits S Owner_ T + 1 ∧ 2 ≤ CountTraits S1 Owner_ T := by
  refine ⟨(CreateTrait_eq_none_iff _ _ _ _ _).mpr ⟨rfl, hFind⟩, ?_⟩
  obtain ⟨S1, h⟩ := CreateTrait_isSome false S Owner_ T e (Or.inl rfl)
  have hc := CountTraits_CreateTrait _ _ _ _ _ _ h
  have hp := (CountTraits_pos_iff S Owner_ T).mpr hFind
  exact ⟨S1, h, hc, by omega⟩

/-- C2 (as amended) at the settings holding one node-level breakpoint of node 7. -/
theorem C2_create_existing_witness :
    (FindTrait
        { PerNodeTraits := fun g =>
            if g = 7 then some { NodeTraits := [FFlowDebugTrait.ofType .Breakpoint true],
                                 PinTraits := [] }
            else none,
          SaveConfigCalls := 1 }
        (.Node { NodeGuid := 7, Pins := [] }) .Breakpoint).isSome = true ∧
      (CreateTrait true
        { PerNodeTraits := fun g =>
            if g = 7 then some { NodeTraits := [FFlowDebugTrait.ofType .Breakpoint true],
                                 PinTraits := [] }
            else none,
          SaveConfigCalls := 1 }
        (.Node { NodeGuid := 7, Pins := [] }) .Breakpoint false = none ∧
      ∃ S1, CreateTrait false
          { PerNodeTraits := fun g =>
              if g = 7 then some { NodeTraits := [FFlowDebugTrait.ofType .Breakpoint true],
                                   PinTraits := [] }
              else none,
            SaveConfigCalls := 1 }
          (.Node { NodeGuid := 7, Pins := [] }) .Breakpoint false = some S1 ∧
        CountTraits S1 (.Node { NodeGuid := 7, Pins := [] }) .Breakpoint =
          CountTraits
            { PerNodeTraits := fun g =>
                if g = 7 then some { NodeTraits := [FFlowDebugTrait.ofType .Breakpoint true],
                                     PinTraits := [] }
                else none,
              SaveConfigCalls := 1 }
            (.Node { NodeGuid := 7, Pins := [] }) .Breakpoint + 1 ∧
        2 ≤ CountTraits S1 (.Node { NodeGuid := 7, Pins := [] }) .Breakpoint) :=
  ⟨by decide, C2_create_existing _ _ _ _ (by decide)⟩

/-- C2, counterexample: with slow checks compiled out, `CreateTrait` called twice in a row
for the same node and type is not rejected; the node's sequence then holds two traits of that
type (both calls return and both save). -/
theorem C2_counterexample :
    ((CreateTrait false UFlowGraphEditorSettings.empty
        (.Node { NodeGuid := 7, Pins := [] }) .Breakpoint true).bind
      (fun S1 => CreateTrait false S1 (.Node { NodeGuid := 7, Pins := [] }) .Breakpoint true)).map
      (fun S2 => (S2.PerNodeTraits 7, S2.SaveConfigCalls)) =
    some (some { NodeTraits := [FFlowDebugTrait.ofType .Breakpoint true,
                                FFlowDebugTrait.ofType .Breakpoint true],
                 PinTraits := [] }, 2) := by
  decide

/-! ## Writing through a trait pointer -/

theorem FFlowTraitSettings.with_PinTraits_self (R : FFlowTraitSettings) :
    ({ R with PinTraits := R.PinTraits } : FFlowTraitSettings) = R := by
  cases R; rfl

/-- The records after a store through the pointer returned by `FindTrait`. -/
theorem storeTrait_apply (S : UFlowGraphEditorSettings) (Owner_ : Owner) (T : EFlowTraitType)
    (F : FFlowDebugTrait → FFlowDebugTrait) (g : FGuid) :
    (storeTrait S Owner_ T F).PerNodeTraits g =
      if g = Owner_.node.NodeGuid then
        (S.PerNodeTraits g).map (fun R =>
          match Owner_ with
          | .Node _ => { R with NodeTraits := TArray.storeFirst (IsNodeTrait T) F R.NodeTraits }
          | .Pin OwnerPin =>
            { R with PinTraits := TArray.storeFirst (IsPinTrait OwnerPin T) F R.PinTraits })
      else S.PerNodeTraits g := by
  cases Owner_ with
  | Node OwnerNode =>
    simp only [storeTrait, GetNodeTraits, GetPerNodeSettings, storeNodeTraits, Owner.node]
    cases h : S.PerNodeTraits OwnerNode.NodeGuid with
    | none =>
      by_cases hg : g = OwnerNode.NodeGuid
      · subst hg; simp [h]
      · simp [hg]
    | some R =>
      by_cases hN : R.NodeTraits = []
      · by_cases hg : g = OwnerNode.NodeGuid
        · subst hg
          simp [h, hN, TArray.storeFirst]
          cases R; simp_all
        · simp [hN, hg]
      · by_cases hg : g = OwnerNode.NodeGuid
        · subst hg; simp [h, hN]
        · simp [h, hN, hg]
  | Pin OwnerPin =>
    simp only [storeTrait, GetPinTraits, GetPerNodeSettings, storePinTraits, Owner.node]
    cases h : S.PerNodeTraits OwnerPin.GetOwningNode.NodeGuid with
    | none =>
      by_cases hg : g = OwnerPin.GetOwningNode.NodeGuid
      · subst hg; simp [h]
      · simp [hg]
    | some R =>
      by_cases hN : R.PinTraits = []
      · by_cases hg : g = OwnerPin.GetOwningNode.NodeGuid
        · subst hg
          simp [h, hN, TArray.storeFirst]
          cases R; simp_all
        · simp [hN, hg]
      · by_cases hg : g = OwnerPin.GetOwningNode.NodeGuid
        · subst hg; simp [h, hN]
        · simp [h, hN, hg]

theorem storeTrait_SaveConfigCalls (S : UFlowGraphEditorSettings) (Owner_ : Owner)
    (T : EFlowTraitType) (F : FFlowDebugTrait → FFlowDebugTrait) :
    (storeTrait S Owner_ T F).SaveConfigCalls = S.SaveConfigCalls := by
  cases Owner_ with
  | Node OwnerNode =>
    simp only [storeTrait, GetNodeTraits, GetPerNodeSettings, storeNodeTraits]
    cases h : S.PerNodeTraits OwnerNode.NodeGuid with
    | none => rfl
    | some R =>
      by_cases hN : R.NodeTraits = []
      · simp [hN]
      · simp only [List.isEmpty_eq_true, hN]; rfl
  | Pin OwnerPin =>
    simp only [storeTrait, GetPinTraits, GetPerNodeSettings, storePinTraits]
    cases h : S.PerNodeTraits OwnerPin.GetOwningNode.NodeGuid with
    | none => rfl
    | some R =>
      by_cases hN : R.PinTraits = []
      · simp [hN]
      · simp only [List.isEmpty_eq_true, hN]; rfl

theorem NodeTraitsOf_storeTrait (S : UFlowGraphEditorSettings) (Owner_ : Owner)
    (T : EFlowTraitType) (F : FFlowDebugTrait → FFlowDebugTrait) (g : FGuid) :
    NodeTraitsOf (storeTrait S Owner_ T F) g =
      match Owner_ with
      | .Node OwnerNode =>
        if g = OwnerNode.NodeGuid then TArray.storeFirst (IsNodeTrait T) F (NodeTraitsOf S g)
        else NodeTraitsOf S g
      | .Pin _ => NodeTraitsOf S g := by
  simp only [NodeTraitsOf, storeTrait_apply]
  cases Owner_ with
  | Node OwnerNode =>
    by_cases hg : g = OwnerNode.NodeGuid
    · subst hg
      cases h : S.PerNodeTraits OwnerNode.NodeGuid <;> simp [Owner.node, h, TArray.storeFirst]
    · simp [Owner.node, hg]
  | Pin OwnerPin =>
    by_cases hg : g = OwnerPin.GetOwningNode.NodeGuid
    · subst hg
      cases h : S.PerNodeTraits OwnerPin.GetOwningNode.NodeGuid <;> simp [Owner.node, h]
    · simp [Owner.node, hg]

theorem PinTraitsOf_storeTrait (S : UFlowGraphEditorSettings) (Owner_ : Owner)
    (T : EFlowTraitType) (F : FFlowDebugTrait → FFlowDebugTrait) (g : FGuid) :
    PinTraitsOf (storeTrait S Owner_ T F) g =
      match Owner_ with
      | .Node _ => PinTraitsOf S g
      | .Pin OwnerPin =>
        if g = OwnerPin.GetOwningNode.NodeGuid then
          TArray.storeFirst (IsPinTrait OwnerPin T) F (PinTraitsOf S g)
        else PinTraitsOf S g := by
  simp only [PinTraitsOf, storeTrait_apply]
  cases Owner_ with
  | Node OwnerNode =>
    by_cases hg : g = OwnerNode.NodeGuid
    · subst hg
      cases h : S.PerNodeTraits OwnerNode.NodeGuid <;> simp [Owner.node, h]
    · simp [Owner.node, hg]
  | Pin OwnerPin =>
    by_cases hg : g = OwnerPin.GetOwningNode.NodeGuid
    · subst hg
      cases h : S.PerNodeTraits OwnerPin.GetOwningNode.NodeGuid <;>
        simp [Owner.node, h, TArray.storeFirst]
    · simp [Owner.node, hg]

/-! ## Uniqueness of traits per owner and type -/

theorem UniqueTraits_iff (S : UFlowGraphEditorSettings) :
    UniqueTraits S ↔
      ∀ g, ((NodeTraitsOf S g).map TraitKey).Nodup ∧ ((PinTraitsOf S g).map TraitKey).Nodup := by
  constructor
  · intro h g
    cases hR : S.PerNodeTraits g with
    | none => simp [NodeTraitsOf, PinTraitsOf, hR]
    | some R => simpa [NodeTraitsOf, PinTraitsOf, hR] using h g R hR
  · intro h g R hR
    simpa [NodeTraitsOf, PinTraitsOf, hR] using h g

theorem TArray.nodup_map_RemoveAllSwap {β : Type} (key : FFlowDebugTrait → β)
    (p : FFlowDebugTrait → Bool) (l : List FFlowDebugTrait) (h : (l.map key).Nodup) :
    ((TArray.RemoveAllSwap p l).1.map key).Nodup := by
  rw [((TArray.RemoveAllSwap_perm p l).map key).nodup_iff]
  exact h.sublist ((List.filter_sublist l).map key)

theorem TArray.nodup_map_storeFirst {β : Type} (key : FFlowDebugTrait → β)
    (Test : FFlowDebugTrait → Bool) (F : FFlowDebugTrait → FFlowDebugTrait)
    (hF : ∀ a, key (F a) = key a) (l : List FFlowDebugTrait) (h : (l.map key).Nodup) :
    ((TArray.storeFirst Test F l).map key).Nodup := by
  rw [TArray.map_storeFirst Test F key hF]; exact h

theorem UniqueTraits_RemoveNodeTraitByPredicate (S : UFlowGraphEditorSettings)
    (OwnerNode : UFlowGraphNode) (Predicate : FFlowDebugTrait → Bool) (h : UniqueTraits S) :
    UniqueTraits (RemoveNodeTraitByPredicate S OwnerNode Predicate) := by
  rw [UniqueTraits_iff] at h ⊢
  intro g
  rw [NodeTraitsOf_RemoveNodeTraitByPredicate, PinTraitsOf_RemoveNodeTraitByPredicate]
  refine ⟨?_, (h g).2⟩
  split
  · exact TArray.nodup_map_RemoveAllSwap _ _ _ (h g).1
  · exact (h g).1

theorem UniqueTraits_RemovePinTraitByPredicate (S : UFlowGraphEditorSettings)
    (Owner_ : Owner) (Predicate : FFlowDebugTrait → Bool) (h : UniqueTraits S) :
    UniqueTraits (RemovePinTraitByPredicate S Owner_ Predicate) := by
  rw [UniqueTraits_iff] at h ⊢
  intro g
  rw [NodeTraitsOf_RemovePinTraitByPredicate, PinTraitsOf_RemovePinTraitByPredicate]
  refine ⟨(h g).1, ?_⟩
  split
  · exact TArray.nodup_map_RemoveAllSwap _ _ _ (h g).2
  · exact (h g).2

theorem UniqueTraits_RemoveTrait (S : UFlowGraphEditorSettings) (Owner_ : Owner)
    (T : EFlowTraitType) (h : UniqueTraits S) : UniqueTraits (RemoveTrait S Owner_ T) := by
  cases Owner_ with
  | Node OwnerNode => exact UniqueTraits_RemoveNodeTraitByPredicate _ _ _ h
  | Pin OwnerPin => exact UniqueTraits_RemovePinTraitByPredicate _ _ _ h

theorem UniqueTraits_ClearNodeTraits (S : UFlowGraphEditorSettings)
    (OwnerNode : UFlowGraphNode) (h : UniqueTraits S) :
    UniqueTraits (ClearNodeTraits S OwnerNode) := by
  rw [UniqueTraits_iff] at h ⊢
  intro g
  rw [NodeTraitsOf_ClearNodeTraits, PinTraitsOf_ClearNodeTraits]
  refine ⟨?_, (h g).2⟩
  split
  · simp
  · exact (h g).1

theorem UniqueTraits_ClearPinTraits (S : UFlowGraphEditorSettings) (Owner_ : Owner)
    (h : UniqueTraits S) : UniqueTraits (ClearPinTraits S Owner_) := by
  rw [UniqueTraits_iff] at h ⊢
  intro g
  rw [NodeTraitsOf_ClearPinTraits, PinTraitsOf_ClearPinTraits]
  refine ⟨(h g).1, ?_⟩
  split
  · cases Owner_ with
    | Node OwnerNode => simp
    | Pin OwnerPin => exact TArray.nodup_map_RemoveAllSwap _ _ _ (h g).2
  · exact (h g).2

theorem UniqueTraits_storeTrait (S : UFlowGraphEditorSettings) (Owner_ : Owner)
    (T : EFlowTraitType) (F : FFlowDebugTrait → FFlowDebugTrait)
    (hF : ∀ a, TraitKey (F a) = TraitKey a) (h : UniqueTraits S) :
    UniqueTraits (storeTrait S Owner_ T F) := by
  rw [UniqueTraits_iff] at h ⊢
  intro g
  rw [NodeTraitsOf_storeTrait, PinTraitsOf_storeTrait]
  cases Owner_ with
  | Node OwnerNode =>
    refine ⟨?_, (h g).2⟩
    dsimp only
    split
    · exact TArray.nodup_map_storeFirst _ _ _ hF _ (h g).1
    · exact (h g).1
  | Pin OwnerPin =>
    refine ⟨(h g).1, ?_⟩
    dsimp only
    split
    · exact TArray.nodup_map_storeFirst _ _ _ hF _ (h g).2
    · exact (h g).2

theorem UniqueTraits_SaveFlowGraphEditorSettings (S : UFlowGraphEditorSettings) :
    UniqueTraits (SaveFlowGraphEditorSettings S) ↔ UniqueTraits S := Iff.rfl

theorem UniqueTraits_SetTraitEnabled (S : UFlowGraphEditorSettings) (Owner_ : Owner)
    (T : EFlowTraitType) (b : Bool) (h : UniqueTraits S) :
    UniqueTraits (SetTraitEnabled S Owner_ T b) := by
  simp only [SetTraitEnabled]
  split
  · exact (UniqueTraits_SaveFlowGraphEditorSettings _).mpr
      (UniqueTraits_storeTrait _ _ _ _ (fun _ => rfl) h)
  · exact h

theorem UniqueTraits_SetTraitHit (S : UFlowGraphEditorSettings) (Owner_ : Owner)
    (T : EFlowTraitType) (b : Bool) (h : UniqueTraits S) :
    UniqueTraits (SetTraitHit S Owner_ T b).1 := by
  simp only [SetTraitHit]
  split
  · exact UniqueTraits_storeTrait _ _ _ _ (fun _ => rfl) h
  · exact h

theorem UniqueTraits_SetAllTraitsHitLoop (Owner_ : Owner) (b : Bool) :
    ∀ (Types : List EFlowTraitType) (S : UFlowGraphEditorSettings) (Hit : List EFlowTraitType),
      UniqueTraits S → UniqueTraits (SetAllTraitsHitLoop Owner_ b Types (S, Hit)).1 := by
  intro Types
  induction Types with
  | nil => intro S Hit h; exact h
  | cons T Rest ih =>
    intro S Hit h
    simp only [SetAllTraitsHitLoop]
    exact ih _ _ (UniqueTraits_SetTraitHit _ _ _ _ h)

theorem UniqueTraits_CreateTrait (DO_GUARD_SLOW : Bool) (S S1 : UFlowGraphEditorSettings)
    (Owner_ : Owner) (T : EFlowTraitType) (e : Bool) (hFind : FindTrait S Owner_ T = none)
    (hC : CreateTrait DO_GUARD_SLOW S Owner_ T e = some S1) (h : UniqueTraits S) :
    UniqueTraits S1 := by
  rw [UniqueTraits_iff] at h ⊢
  intro g
  rw [NodeTraitsOf_CreateTrait _ _ _ _ _ _ g hC, PinTraitsOf_CreateTrait _ _ _ _ _ _ g hC]
  cases Owner_ with
  | Node OwnerNode =>
    refine ⟨?_, (h g).2⟩
    dsimp only
    split
    · rename_i hg
      subst hg
      rw [FindTrait_node, List.find?_eq_none] at hFind
      rw [List.map_append, List.nodup_append]
      refine ⟨(h _).1, by simp, ?_⟩
      intro k hk1 hk2
      simp only [List.map_cons, List.map_nil, List.mem_singleton] at hk2
      obtain ⟨a, ha, hka⟩ := List.mem_map.mp hk1
      have := hFind a ha
      rw [hk2] at hka
      simp [TraitKey, FFlowDebugTrait.ofType] at hka
      simp [IsNodeTrait, hka.1] at this
    · exact (h g).1
  | Pin OwnerPin =>
    refine ⟨(h g).1, ?_⟩
    dsimp only
    split
    · rename_i hg
      subst hg
      rw [FindTrait_pin, List.find?_eq_none] at hFind
      rw [List.map_append, List.nodup_append]
      refine ⟨(h _).2, by simp, ?_⟩
      intro k hk1 hk2
      simp only [List.map_cons, List.map_nil, List.mem_singleton] at hk2
      obtain ⟨a, ha, hka⟩ := List.mem_map.mp hk1
      have := hFind a ha
      rw [hk2] at hka
      simp [TraitKey, FFlowDebugTrait.ofPin] at hka
      simp [IsPinTrait, hka.1, hka.2] at this
    · exact (h g).2

/-- C3: uniqueness per (owner, type) is an invariant of the mutation API. From settings in
which no node-level or pin-level sequence holds two traits with the same (type, pin id), every
call of the API returns (`CreateTrait` being called only when `FindTrait` finds nothing) and
leaves settings with the same property. -/
theorem C3_unique_traits_invariant (DO_GUARD_SLOW : Bool) (S : UFlowGraphEditorSettings)
    (M : Mutation) (hU : UniqueTraits S) (hC : M.CallerChecked S) :
    ∃ S1, M.run DO_GUARD_SLOW S = some S1 ∧ UniqueTraits S1 := by
  cases M with
  | CreateTrait Owner_ T bEnabled =>
    obtain ⟨S1, h⟩ := CreateTrait_isSome DO_GUARD_SLOW S Owner_ T bEnabled (Or.inr hC)
    exact ⟨S1, h, UniqueTraits_CreateTrait _ _ _ _ _ _ hC h hU⟩
  | RemoveTrait Owner_ T => exact ⟨_, rfl, UniqueTraits_RemoveTrait _ _ _ hU⟩
  | RemoveNodeTraitByPredicate OwnerNode Predicate =>
    exact ⟨_, rfl, UniqueTraits_RemoveNodeTraitByPredicate _ _ _ hU⟩
  | RemovePinTraitByPredicate Owner_ Predicate =>
    exact ⟨_, rfl, UniqueTraits_RemovePinTraitByPredicate _ _ _ hU⟩
  | ClearNodeTraits OwnerNode => exact ⟨_, rfl, UniqueTraits_ClearNodeTraits _ _ hU⟩
  | ClearPinTraits Owner_ => exact ⟨_, rfl, UniqueTraits_ClearPinTraits _ _ hU⟩
  | CleanupTraits OwnerNode => exact ⟨_, rfl, UniqueTraits_RemovePinTraitByPredicate _ _ _ hU⟩
  | SetTraitEnabled Owner_ T b => exact ⟨_, rfl, UniqueTraits_SetTraitEnabled _ _ _ _ hU⟩
  | SetTraitHit Owner_ T b => exact ⟨_, rfl, UniqueTraits_SetTraitHit _ _ _ _ hU⟩
  | SetAllTraitsHit Owner_ b =>
    exact ⟨_, rfl, UniqueTraits_SetAllTraitsHitLoop _ _ _ _ _ hU⟩
  | ToggleTrait Owner_ T =>
    simp only [Mutation.run, ToggleTrait]
    cases hF : FindTrait S Owner_ T with
    | some Trait => exact ⟨_, rfl, UniqueTraits_RemoveTrait _ _ _ hU⟩
    | none =>
      obtain ⟨S1, h⟩ := CreateTrait_isSome DO_GUARD_SLOW S Owner_ T true (Or.inr hF)
      exact ⟨S1, h, UniqueTraits_CreateTrait _ _ _ _ _ _ hF h hU⟩

/-- C3 at settings that hold a node-level breakpoint and breakpoints on pins 1 and 2 of node 7
and a breakpoint on node 8, and a `CreateTrait` call for pin 3 of node 7: the sequences hold no
trait twice, `FindTrait` finds nothing for pin 3, the call returns, and the three pin-level
breakpoints of node 7 afterwards are again pairwise different. -/
theorem C3_unique_traits_invariant_witness :
    UniqueTraits
        { PerNodeTraits := fun g =>
            if g = 7 then
              some { NodeTraits := [FFlowDebugTrait.ofType .Breakpoint true],
                     PinTraits := [{ PinId := 1, Type_ := .Breakpoint, bEnabled := true,
                                     bHit := false },
                                   { PinId := 2, Type_ := .Breakpoint, bEnabled := false,
                                     bHit := true }] }
            else if g = 8 then
              some { NodeTraits := [FFlowDebugTrait.ofType .Breakpoint false], PinTraits := [] }
            else none,
          SaveConfigCalls := 0 } ∧
      (Mutation.CreateTrait
          (.Pin { PinId := 3, GetOwningNode := { NodeGuid := 7, Pins := [1, 2, 3] } })
          .Breakpoint true).CallerChecked
        { PerNodeTraits := fun g =>
            if g = 7 then
              some { NodeTraits := [FFlowDebugTrait.ofType .Breakpoint true],
                     PinTraits := [{ PinId := 1, Type_ := .Breakpoint, bEnabled := true,
                                     bHit := false },
                                   { PinId := 2, Type_ := .Breakpoint, bEnabled := false,
                                     bHit := true }] }
            else if g = 8 then
              some { NodeTraits := [FFlowDebugTrait.ofType .Breakpoint false], PinTraits := [] }
            else none,
          SaveConfigCalls := 0 } ∧
      ∃ S1, (Mutation.CreateTrait
          (.Pin { PinId := 3, GetOwningNode := { NodeGuid := 7, Pins := [1, 2, 3] } })
          .Breakpoint true).run true
          { PerNodeTraits := fun g =>
              if g = 7 then
                some { NodeTraits := [FFlowDebugTrait.ofType .Breakpoint true],
                       PinTraits := [{ PinId := 1, Type_ := .Breakpoint, bEnabled := true,
                                       bHit := false },
                                     { PinId := 2, Type_ := .Breakpoint, bEnabled := false,
                                       bHit := true }] }
              else if g = 8 then
                some { NodeTraits := [FFlowDebugTrait.ofType .Breakpoint false],
                       PinTraits := [] }
              else none,
            SaveConfigCalls := 0 } = some S1 ∧
        UniqueTraits S1 := by
  have hU : UniqueTraits
      { PerNodeTraits := fun g =>
          if g = 7 then
            some { NodeTraits := [FFlowDebugTrait.ofType .Breakpoint true],
                   PinTraits := [{ PinId := 1, Type_ := .Breakpoint, bEnabled := true,
                                   bHit := false },
                                 { PinId := 2, Type_ := .Breakpoint, bEnabled := false,
                                   bHit := true }] }
          else if g = 8 then
            some { NodeTraits := [FFlowDebugTrait.ofType .Breakpoint false], PinTraits := [] }
          else none,
        SaveConfigCalls := 0 } := by
    intro g R hR
    simp only at hR
    split_ifs at hR with h7 h8
    · simp only [Option.some.injEq] at hR
      subst hR
      exact ⟨by decide, by decide⟩
    · simp only [Option.some.injEq] at hR
      subst hR
      exact ⟨by decide, by decide⟩
  exact ⟨hU, rfl, C3_unique_traits_invariant true _ _ hU rfl⟩

/-! ## Removing and toggling a trait -/

theorem TArray.find?_RemoveAllSwap_self {α : Type} (p : α → Bool) (l : List α) :
    (TArray.RemoveAllSwap p l).1.find? p = none := by
  rw [List.find?_eq_none]
  intro x hx
  have := ((TArray.mem_RemoveAllSwap p l x).mp hx).2
  simp [this]

theorem FindTrait_RemoveTrait (S : UFlowGraphEditorSettings) (Owner_ : Owner)
    (T : EFlowTraitType) : FindTrait (RemoveTrait S Owner_ T) Owner_ T = none := by
  cases Owner_ with
  | Node OwnerNode =>
    rw [FindTrait_node, RemoveTrait, NodeTraitsOf_RemoveNodeTraitByPredicate]
    simp [TArray.find?_RemoveAllSwap_self]
  | Pin OwnerPin =>
    rw [FindTrait_pin, RemoveTrait, PinTraitsOf_RemovePinTraitByPredicate]
    simp [Owner.node, TArray.find?_RemoveAllSwap_self]

/-- What `ToggleTrait` does, by the result of its `FindTrait` test: it always returns; a found
trait is removed, a missing one is created enabled and not hit. -/
theorem ToggleTrait_spec (DO_GUARD_SLOW : Bool) (S : UFlowGraphEditorSettings) (Owner_ : Owner)
    (T : EFlowTraitType) :
    ∃ S1, ToggleTrait DO_GUARD_SLOW S Owner_ T = some S1 ∧
      ((FindTrait S Owner_ T).isSome = true →
        S1 = RemoveTrait S Owner_ T ∧ FindTrait S1 Owner_ T = none) ∧
      (FindTrait S Owner_ T = none →
        CreateTrait DO_GUARD_SLOW S Owner_ T true = some S1 ∧
        ∃ Trait, FindTrait S1 Owner_ T = some Trait ∧
          Trait.bEnabled = true ∧ Trait.bHit = false) := by
  cases hF : FindTrait S Owner_ T with
  | some Trait =>
    refine ⟨RemoveTrait S Owner_ T, by simp [ToggleTrait, hF], ?_, by simp⟩
    intro _
    exact ⟨rfl, FindTrait_RemoveTrait S Owner_ T⟩
  | none =>
    obtain ⟨S1, h⟩ := CreateTrait_isSome DO_GUARD_SLOW S Owner_ T true (Or.inr hF)
    refine ⟨S1, by simp [ToggleTrait, hF, h], by simp, ?_⟩
    intro _
    exact ⟨h, _, FindTrait_CreateTrait _ _ _ _ _ _ hF h, rfl, rfl⟩

/-- C4: `ToggleTrait` applied twice in a row returns both times, and afterwards `FindTrait`
returns a trait if and only if it returned one before the two calls. -/
theorem C4_toggle_twice_existence (DO_GUARD_SLOW : Bool) (S : UFlowGraphEditorSettings)
    (Owner_ : Owner) (T : EFlowTraitType) :
    ∃ S1 S2, ToggleTrait DO_GUARD_SLOW S Owner_ T = some S1 ∧
      ToggleTrait DO_GUARD_SLOW S1 Owner_ T = some S2 ∧
      ((FindTrait S2 Owner_ T).isSome = true ↔ (FindTrait S Owner_ T).isSome = true) := by
  obtain ⟨S1, h1, hA1, hB1⟩ := ToggleTrait_spec DO_GUARD_SLOW S Owner_ T
  obtain ⟨S2, h2, hA2, hB2⟩ := ToggleTrait_spec DO_GUARD_SLOW S1 Owner_ T
  refine ⟨S1, S2, h1, h2, ?_⟩
  cases hF : FindTrait S Owner_ T with
  | some Trait =>
    have hN1 := (hA1 (by simp [hF])).2
    obtain ⟨_, Trait2, hT2, _⟩ := hB2 hN1
    simp [hT2]
  | none =>
    obtain ⟨_, Trait1, hT1, _⟩ := hB1 hF
    have hN2 := (hA2 (by simp [hT1])).2
    simp [hN2]

/-- C10: `ToggleTrait` returns; a trait that `FindTrait` found is removed (`FindTrait` then
returns nothing), a trait that was missing is created with enabled = true and hit = false; so
right after the call the trait is absent or enabled. -/
theorem C10_toggle_removes_or_creates_enabled (DO_GUARD_SLOW : Bool)
    (S : UFlowGraphEditorSettings) (Owner_ : Owner) (T : EFlowTraitType) :
    ∃ S1, ToggleTrait DO_GUARD_SLOW S Owner_ T = some S1 ∧
      ((FindTrait S Owner_ T).isSome = true → FindTrait S1 Owner_ T = none) ∧
      (FindTrait S Owner_ T = none →
        ∃ Trait, FindTrait S1 Owner_ T = some Trait ∧
          Trait.IsEnabled = true ∧ Trait.IsHit = false) ∧
      (FindTrait S1 Owner_ T = none ∨ IsTraitEnabled S1 Owner_ T = true) := by
  obtain ⟨S1, h1, hA1, hB1⟩ := ToggleTrait_spec DO_GUARD_SLOW S Owner_ T
  refine ⟨S1, h1, fun h => (hA1 h).2, fun h => (hB1 h).2, ?_⟩
  cases hF : FindTrait S Owner_ T with
  | some Trait => exact Or.inl (hA1 (by simp [hF])).2
  | none =>
    obtain ⟨_, Trait1, hT1, hE, _⟩ := hB1 hF
    exact Or.inr (by simp [IsTraitEnabled, hT1, FFlowDebugTrait.IsEnabled, hE])

/-- C9: after `RemoveTrait(owner, type)`, `FindTrait(owner, type)` returns nothing; the
sequence the owner lives in holds, up to order, exactly the traits it held before that are not
the removed (owner, type) ones, flags included; the other sequence of the node is as before. -/
theorem C9_remove_trait_keeps_others (S : UFlowGraphEditorSettings) (Owner_ : Owner)
    (T : EFlowTraitType) :
    FindTrait (RemoveTrait S Owner_ T) Owner_ T = none ∧
      match Owner_ with
      | .Node OwnerNode =>
        (NodeTraitsOf (RemoveTrait S Owner_ T) OwnerNode.NodeGuid).Perm
            ((NodeTraitsOf S OwnerNode.NodeGuid).filter (fun Trait => !IsNodeTrait T Trait)) ∧
          PinTraitsOf (RemoveTrait S Owner_ T) OwnerNode.NodeGuid =
            PinTraitsOf S OwnerNode.NodeGuid
      | .Pin OwnerPin =>
        (PinTraitsOf (RemoveTrait S Owner_ T) OwnerPin.GetOwningNode.NodeGuid).Perm
            ((PinTraitsOf S OwnerPin.GetOwningNode.NodeGuid).filter
              (fun Trait => !IsPinTrait OwnerPin T Trait)) ∧
          NodeTraitsOf (RemoveTrait S Owner_ T) OwnerPin.GetOwningNode.NodeGuid =
            NodeTraitsOf S OwnerPin.GetOwningNode.NodeGuid := by
  refine ⟨FindTrait_RemoveTrait S Owner_ T, ?_⟩
  cases Owner_ with
  | Node OwnerNode =>
    refine ⟨?_, PinTraitsOf_RemoveNodeTraitByPredicate _ _ _ _⟩
    rw [RemoveTrait, NodeTraitsOf_RemoveNodeTraitByPredicate, if_pos rfl]
    exact TArray.RemoveAllSwap_perm _ _
  | Pin OwnerPin =>
    refine ⟨?_, NodeTraitsOf_RemovePinTraitByPredicate _ _ _ _⟩
    rw [RemoveTrait, PinTraitsOf_RemovePinTraitByPredicate,
      if_pos (show OwnerPin.GetOwningNode.NodeGuid = (Owner.Pin OwnerPin).node.NodeGuid from rfl)]
    exact TArray.RemoveAllSwap_perm _ _

/-! ## Pruning of emptied records -/

/-- Settings outside `NoEmptyRecord`: a record of node 7 with both sequences empty, which no
call of the API leaves behind. `RemoveTrait` on the node finds nothing to remove, requests no
save, and `GetPerNodeSettings` still returns the record. -/
theorem RemoveTrait_of_empty_record :
    (GetPerNodeSettings
        (RemoveTrait
          { PerNodeTraits := fun g => if g = 7 then some { NodeTraits := [], PinTraits := [] }
              else none,
            SaveConfigCalls := 0 }
          (.Node { NodeGuid := 7, Pins := [] }) .Breakpoint)
        { NodeGuid := 7, Pins := [] } = some { NodeTraits := [], PinTraits := [] }) ∧
      (RemoveTrait
          { PerNodeTraits := fun g => if g = 7 then some { NodeTraits := [], PinTraits := [] }
              else none,
            SaveConfigCalls := 0 }
          (.Node { NodeGuid := 7, Pins := [] }) .Breakpoint).SaveConfigCalls = 0 := by
  decide

theorem RemoveTrait_prunes_emptied_record (S : UFlowGraphEditorSettings) (Owner_ : Owner)
    (T : EFlowTraitType)
    (hBefore : ∀ R, GetPerNodeSettings S Owner_.node = some R →
      R.NodeTraits ≠ [] ∨ R.PinTraits ≠ [])
    (hNode : NodeTraitsOf (RemoveTrait S Owner_ T) Owner_.node.NodeGuid = [])
    (hPin : PinTraitsOf (RemoveTrait S Owner_ T) Owner_.node.NodeGuid = []) :
    GetPerNodeSettings (RemoveTrait S Owner_ T) Owner_.node = none := by
  cases Owner_ with
  | Node OwnerNode =>
    simp only [Owner.node] at hBefore hNode hPin ⊢
    simp only [RemoveTrait, NodeTraitsOf, PinTraitsOf, GetPerNodeSettings,
      RemoveNodeTraitByPredicate_apply, if_true] at hBefore hNode hPin ⊢
    cases hR : S.PerNodeTraits OwnerNode.NodeGuid with
    | none => rfl
    | some R =>
      have hB := hBefore R hR
      simp only [hR] at hNode hPin ⊢
      split_ifs at hNode hPin ⊢ with hc
      · rfl
      · simp only at hNode hPin
        exfalso
        rcases hB with hB | hB
        · exact hc ⟨hB, hNode, hPin⟩
        · exact hB hPin
  | Pin OwnerPin =>
    simp only [Owner.node] at hBefore hNode hPin ⊢
    simp only [RemoveTrait, NodeTraitsOf, PinTraitsOf, GetPerNodeSettings,
      RemovePinTraitByPredicate_apply, Owner.node, if_true] at hBefore hNode hPin ⊢
    cases hR : S.PerNodeTraits OwnerPin.GetOwningNode.NodeGuid with
    | none => rfl
    | some R =>
      have hB := hBefore R hR
      simp only [hR] at hNode hPin ⊢
      split_ifs at hNode hPin ⊢ with hc
      · rfl
      · simp only at hNode hPin
        exfalso
        rcases hB with hB | hB
        · exact hB hNode
        · exact hc ⟨hB, hPin, hNode⟩

/-- C5: in settings whose records all hold at least one trait (the state every call of the API
keeps, see `NoEmptyRecord`), and also whenever `FindTrait` finds the trait that the call is to
remove: if `RemoveTrait` (node or pin overload) leaves both the node-level and the pin-level
sequence of the owner's node empty, then `GetPerNodeSettings` returns nothing for that node
afterwards, that is, the record has been removed from the map. -/
theorem C5_emptied_record_is_pruned (S : UFlowGraphEditorSettings) (Owner_ : Owner)
    (T : EFlowTraitType)
    (hState : NoEmptyRecord S ∨ (FindTrait S Owner_ T).isSome = true)
    (hNode : NodeTraitsOf (RemoveTrait S Owner_ T) Owner_.node.NodeGuid = [])
    (hPin : PinTraitsOf (RemoveTrait S Owner_ T) Owner_.node.NodeGuid = []) :
    GetPerNodeSettings (RemoveTrait S Owner_ T) Owner_.node = none := by
  refine RemoveTrait_prunes_emptied_record S Owner_ T ?_ hNode hPin
  intro R hR
  rcases hState with h | h
  · exact h _ R hR
  · cases Owner_ with
    | Node OwnerNode =>
      left
      rw [FindTrait_node] at h
      simp only [GetPerNodeSettings, Owner.node] at hR
      simp only [NodeTraitsOf, hR] at h
      intro hN
      rw [hN] at h
      simp at h
    | Pin OwnerPin =>
      right
      rw [FindTrait_pin] at h
      simp only [GetPerNodeSettings, Owner.node] at hR
      simp only [PinTraitsOf, hR] at h
      intro hN
      rw [hN] at h
      simp at h

/-- C5 at settings with a record of node 7 that holds one breakpoint on pin 1 and a record of
node 8 that holds a node-level breakpoint: no record is empty, `RemoveTrait` for pin 1 leaves
both sequences of node 7 empty, and the record of node 7 is gone afterwards. -/
theorem C5_emptied_record_is_pruned_witness :
    NoEmptyRecord
        { PerNodeTraits := fun g =>
            if g = 7 then
              some { NodeTraits := [],
                     PinTraits := [{ PinId := 1, Type_ := .Breakpoint, bEnabled := true,
                                     bHit := false }] }
            else if g = 8 then
              some { NodeTraits := [FFlowDebugTrait.ofType .Breakpoint true], PinTraits := [] }
            else none,
          SaveConfigCalls := 0 } ∧
      (NodeTraitsOf
          (RemoveTrait
            { PerNodeTraits := fun g =>
                if g = 7 then
                  some { NodeTraits := [],
                         PinTraits := [{ PinId := 1, Type_ := .Breakpoint, bEnabled := true,
                                         bHit := false }] }
                else if g = 8 then
                  some { NodeTraits := [FFlowDebugTrait.ofType .Breakpoint true],
                         PinTraits := [] }
                else none,
              SaveConfigCalls := 0 }
            (.Pin { PinId := 1, GetOwningNode := { NodeGuid := 7, Pins := [1] } })
            .Breakpoint) 7 = [] ∧
        PinTraitsOf
          (RemoveTrait
            { PerNodeTraits := fun g =>
                if g = 7 then
                  some { NodeTraits := [],
                         PinTraits := [{ PinId := 1, Type_ := .Breakpoint, bEnabled := true,
                                         bHit := false }] }
                else if g = 8 then
                  some { NodeTraits := [FFlowDebugTrait.ofType .Breakpoint true],
                         PinTraits := [] }
                else none,
              SaveConfigCalls := 0 }
            (.Pin { PinId := 1, GetOwningNode := { NodeGuid := 7, Pins := [1] } })
            .Breakpoint) 7 = []) ∧
      GetPerNodeSettings
        (RemoveTrait
          { PerNodeTraits := fun g =>
              if g = 7 then
                some { NodeTraits := [],
                       PinTraits := [{ PinId := 1, Type_ := .Breakpoint, bEnabled := true,
                                       bHit := false }] }
              else if g = 8 then
                some { NodeTraits := [FFlowDebugTrait.ofType .Breakpoint true],
                       PinTraits := [] }
              else none,
            SaveConfigCalls := 0 }
          (.Pin { PinId := 1, GetOwningNode := { NodeGuid := 7, Pins := [1] } }) .Breakpoint)
        (Owner.Pin { PinId := 1, GetOwningNode := { NodeGuid := 7, Pins := [1] } }).node =
        none := by
  have hE : NoEmptyRecord
      { PerNodeTraits := fun g =>
          if g = 7 then
            some { NodeTraits := [],
                   PinTraits := [{ PinId := 1, Type_ := .Breakpoint, bEnabled := true,
                                   bHit := false }] }
          else if g = 8 then
            some { NodeTraits := [FFlowDebugTrait.ofType .Breakpoint true], PinTraits := [] }
          else none,
        SaveConfigCalls := 0 } := by
    intro g R hR
    simp only at hR
    split_ifs at hR with h7 h8
    · simp only [Option.some.injEq] at hR
      subst hR
      exact Or.inr (by simp)
    · simp only [Option.some.injEq] at hR
      subst hR
      exact Or.inl (by simp)
  exact ⟨hE, by decide,
    C5_emptied_record_is_pruned _
      (.Pin { PinId := 1, GetOwningNode := { NodeGuid := 7, Pins := [1] } }) .Breakpoint
      (Or.inl hE) (by decide) (by decide)⟩

/-! ## Hit and enabled flags -/

theorem FindTrait_storeTrait (S : UFlowGraphEditorSettings) (Owner_ : Owner)
    (T : EFlowTraitType) (F : FFlowDebugTrait → FFlowDebugTrait)
    (hF : ∀ a, (F a).PinId = a.PinId ∧ (F a).Type_ = a.Type_) (T1 : EFlowTraitType)
    (hT : T1 = T) :
    FindTrait (storeTrait S Owner_ T F) Owner_ T1 = (FindTrait S Owner_ T1).map F := by
  subst hT
  cases Owner_ with
  | Node OwnerNode =>
    rw [FindTrait_node, FindTrait_node, NodeTraitsOf_storeTrait]
    simp only [if_true]
    exact TArray.find?_storeFirst _ _ (fun a => by simp [IsNodeTrait, (hF a).2]) _
  | Pin OwnerPin =>
    rw [FindTrait_pin, FindTrait_pin, PinTraitsOf_storeTrait]
    simp only [if_true]
    exact TArray.find?_storeFirst _ _
      (fun a => by simp [IsPinTrait, (hF a).1, (hF a).2]) _

/-- C6: `SetTraitHit(owner, type, v)` returns false and leaves the settings (map and save
count) unchanged when `FindTrait(owner, type)` is nothing; otherwise it returns true, the trait
`FindTrait` returns afterwards is the one it returned before with its hit flag set to `v`, so
`IsTraitHit` equals `v` and `IsTraitEnabled` is unchanged, and no save is made. -/
theorem C6_set_trait_hit (S : UFlowGraphEditorSettings) (Owner_ : Owner) (T : EFlowTraitType)
    (v : Bool) :
    (FindTrait S Owner_ T = none → SetTraitHit S Owner_ T v = (S, false)) ∧
      ((FindTrait S Owner_ T).isSome = true →
        (SetTraitHit S Owner_ T v).2 = true ∧
        FindTrait (SetTraitHit S Owner_ T v).1 Owner_ T =
          (FindTrait S Owner_ T).map (fun Trait => { Trait with bHit := v }) ∧
        IsTraitHit (SetTraitHit S Owner_ T v).1 Owner_ T = v ∧
        IsTraitEnabled (SetTraitHit S Owner_ T v).1 Owner_ T = IsTraitEnabled S Owner_ T ∧
        (SetTraitHit S Owner_ T v).1.SaveConfigCalls = S.SaveConfigCalls) := by
  constructor
  · intro h
    simp [SetTraitHit, h]
  · intro h
    obtain ⟨Trait, hT⟩ := Option.isSome_iff_exists.mp h
    have hS : SetTraitHit S Owner_ T v =
        (storeTrait S Owner_ T (fun Trait => { Trait with bHit := v }), true) := by
      simp [SetTraitHit, hT]
    have hFind := FindTrait_storeTrait S Owner_ T (fun Trait => { Trait with bHit := v })
      (fun _ => ⟨rfl, rfl⟩) T rfl
    rw [hS]
    refine ⟨rfl, hFind, ?_, ?_, storeTrait_SaveConfigCalls _ _ _ _⟩
    · simp [IsTraitHit, hFind, hT, FFlowDebugTrait.IsHit]
    · simp [IsTraitEnabled, hFind, hT, FFlowDebugTrait.IsEnabled]

/-! ## Cleaning up traits of pins that are gone -/

theorem any_beq_eq_decide_mem (Pins : List FGuid) (PinId : FGuid) :
    Pins.any (fun P => P == PinId) = decide (PinId ∈ Pins) := by
  induction Pins with
  | nil => simp
  | cons a as ih =>
    by_cases h : a = PinId
    · simp [h]
    · have h2 : ¬ PinId = a := fun e => h e.symm
      simp [h, h2, ih]

/-- C7: after `CleanupTraits(N)` the pin-level traits stored for `N` are, up to order and with
their flags, exactly the pin-level traits stored before whose pin id is the id of a pin of `N`;
the node-level traits of `N` are unchanged. Scenario: breakpoints created on pins 1 and 2 of
node 7, pin 2 deleted, `CleanupTraits` leaves only the trait of pin 1. -/
theorem C7_cleanup_removes_stale_pin_traits :
    (∀ (S : UFlowGraphEditorSettings) (OwnerNode : UFlowGraphNode),
      (PinTraitsOf (CleanupTraits S OwnerNode) OwnerNode.NodeGuid).Perm
          ((PinTraitsOf S OwnerNode.NodeGuid).filter
            (fun Trait => decide (Trait.PinId ∈ OwnerNode.Pins))) ∧
        NodeTraitsOf (CleanupTraits S OwnerNode) OwnerNode.NodeGuid =
          NodeTraitsOf S OwnerNode.NodeGuid) ∧
    (((CreateTrait true UFlowGraphEditorSettings.empty
          (.Pin { PinId := 1, GetOwningNode := { NodeGuid := 7, Pins := [1, 2] } })
          .Breakpoint true).bind
        (fun S1 => CreateTrait true S1
          (.Pin { PinId := 2, GetOwningNode := { NodeGuid := 7, Pins := [1, 2] } })
          .Breakpoint true)).map
        (fun S2 => (CleanupTraits S2 { NodeGuid := 7, Pins := [1] }).PerNodeTraits 7) =
      some (some { NodeTraits := [],
                   PinTraits := [FFlowDebugTrait.ofPin .Breakpoint 1 true] })) := by
  refine ⟨fun S OwnerNode => ⟨?_, NodeTraitsOf_RemovePinTraitByPredicate _ _ _ _⟩, by decide⟩
  rw [CleanupTraits, PinTraitsOf_RemovePinTraitByPredicate,
    if_pos (show OwnerNode.NodeGuid = (Owner.Node OwnerNode).node.NodeGuid from rfl)]
  have h := TArray.RemoveAllSwap_perm
    (fun Trait => (OwnerNode.Pins.any (fun PinId => PinId == Trait.PinId)) == false)
    (PinTraitsOf S OwnerNode.NodeGuid)
  have hEq : (fun Trait : FFlowDebugTrait =>
      !((OwnerNode.Pins.any (fun PinId => PinId == Trait.PinId)) == false)) =
      (fun Trait => decide (Trait.PinId ∈ OwnerNode.Pins)) := by
    funext Trait
    rw [any_beq_eq_decide_mem]
    cases decide (Trait.PinId ∈ OwnerNode.Pins) <;> rfl
  rw [hEq] at h
  exact h

/-! ## Setting the hit flag for all declared types -/

theorem TEnumRange_eq : TEnumRange = [EFlowTraitType.Breakpoint] := rfl

theorem storeTrait_of_FindTrait_none (S : UFlowGraphEditorSettings) (Owner_ : Owner)
    (T : EFlowTraitType) (F : FFlowDebugTrait → FFlowDebugTrait)
    (h : FindTrait S Owner_ T = none) : storeTrait S Owner_ T F = S := by
  apply UFlowGraphEditorSettings.ext
  · intro g
    rw [storeTrait_apply]
    by_cases hg : g = Owner_.node.NodeGuid
    · subst hg
      simp only [if_true]
      cases Owner_ with
      | Node OwnerNode =>
        rw [FindTrait_node] at h
        simp only [Owner.node, NodeTraitsOf] at h ⊢
        cases hR : S.PerNodeTraits OwnerNode.NodeGuid with
        | none => rfl
        | some R =>
          simp only [hR] at h
          simp [TArray.storeFirst_of_find?_none _ _ _ h]
      | Pin OwnerPin =>
        rw [FindTrait_pin] at h
        simp only [Owner.node, PinTraitsOf] at h ⊢
        cases hR : S.PerNodeTraits OwnerPin.GetOwningNode.NodeGuid with
        | none => rfl
        | some R =>
          simp only [hR] at h
          simp [TArray.storeFirst_of_find?_none _ _ _ h]
    · simp [hg]
  · exact storeTrait_SaveConfigCalls _ _ _ _

theorem SetTraitHit_fst (S : UFlowGraphEditorSettings) (Owner_ : Owner) (T : EFlowTraitType)
    (v : Bool) :
    (SetTraitHit S Owner_ T v).1 = storeTrait S Owner_ T (fun Trait => { Trait with bHit := v }) := by
  cases h : FindTrait S Owner_ T with
  | none => simp [SetTraitHit, h, storeTrait_of_FindTrait_none _ _ _ _ h]
  | some Trait => simp [SetTraitHit, h]

theorem SetTraitHit_snd (S : UFlowGraphEditorSettings) (Owner_ : Owner) (T : EFlowTraitType)
    (v : Bool) : (SetTraitHit S Owner_ T v).2 = (FindTrait S Owner_ T).isSome := by
  cases h : FindTrait S Owner_ T <;> simp [SetTraitHit, h]

/-- With at most one element selected by `G`, and `Test` agreeing with `G` on the list, a store
to the first element passing `Test` is a store to every element selected by `G`. -/
theorem TArray.storeFirst_eq_map {α : Type} (Test G : α → Bool) (F : α → α) :
    ∀ (l : List α), (∀ a ∈ l, Test a = G a) → (l.filter G).length ≤ 1 →
      TArray.storeFirst Test F l = l.map (fun a => if G a then F a else a) := by
  intro l
  induction l with
  | nil => intro _ _; rfl
  | cons a as ih =>
    intro hT hLen
    have hTa := hT a (List.mem_cons_self _ _)
    have hTas : ∀ b ∈ as, Test b = G b := fun b hb => hT b (List.mem_cons_of_mem _ hb)
    by_cases hG : G a = true
    · have hNone : as.filter G = [] := by
        simp only [List.filter_cons, hG, if_true, List.length_cons] at hLen
        exact List.length_eq_zero.mp (by omega)
      have hId : as.map (fun a => if G a then F a else a) = as := by
        rw [List.filter_eq_nil_iff] at hNone
        conv_rhs => rw [← List.map_id as]
        apply List.map_congr_left
        intro b hb
        simp [hNone b hb]
      simp [TArray.storeFirst, hTa, hG, hId]
    · have hLen2 : (as.filter G).length ≤ 1 := by
        simpa [List.filter_cons, hG] using hLen
      simp [TArray.storeFirst, hTa, hG, ih hTas hLen2]

theorem length_le_one_of_types {l : List FFlowDebugTrait}
    (hNodup : (l.map (fun Trait => Trait.Type_)).Nodup)
    (hMax : EFlowTraitType.Max ∉ l.map (fun Trait => Trait.Type_)) : l.length ≤ 1 := by
  have hAll : ∀ a ∈ l, a.Type_ = EFlowTraitType.Breakpoint := by
    intro a ha
    cases hT : a.Type_ with
    | Breakpoint => rfl
    | Max => exact absurd (List.mem_map.mpr ⟨a, ha, hT⟩) hMax
  match l, hNodup, hAll with
  | [], _, _ => simp
  | [_], _, _ => simp
  | a :: b :: _, hNodup, hAll =>
    have ha := hAll a (by simp)
    have hb := hAll b (by simp)
    simp [ha, hb] at hNodup

theorem SetAllTraitsHit_eq (S : UFlowGraphEditorSettings) (Owner_ : Owner) (v : Bool) :
    SetAllTraitsHit S Owner_ v =
      (storeTrait S Owner_ .Breakpoint (fun Trait => { Trait with bHit := v }),
        if (FindTrait S Owner_ .Breakpoint).isSome then [EFlowTraitType.Breakpoint] else []) := by
  simp only [SetAllTraitsHit, TEnumRange_eq, SetAllTraitsHitLoop, SetTraitHit_fst,
    SetTraitHit_snd, List.nil_append]

theorem types_of_no_max {l : List FFlowDebugTrait}
    (hMax : EFlowTraitType.Max ∉ l.map (fun Trait => Trait.Type_)) :
    ∀ a ∈ l, a.Type_ = EFlowTraitType.Breakpoint := by
  intro a ha
  cases hT : a.Type_ with
  | Breakpoint => rfl
  | Max => exact absurd (List.mem_map.mpr ⟨a, ha, hT⟩) hMax

theorem storeTrait_eq_SetHitOnEachTraitOf (S : UFlowGraphEditorSettings) (Owner_ : Owner)
    (v : Bool)
    (hNodup : ((OwnerTraits S Owner_).map (fun Trait => Trait.Type_)).Nodup)
    (hMax : EFlowTraitType.Max ∉ (OwnerTraits S Owner_).map (fun Trait => Trait.Type_)) :
    storeTrait S Owner_ .Breakpoint (fun Trait => { Trait with bHit := v }) =
      SetHitOnEachTraitOf S Owner_ v := by
  have hLen := length_le_one_of_types hNodup hMax
  have hBP := types_of_no_max hMax
  apply UFlowGraphEditorSettings.ext
  · intro g
    rw [storeTrait_apply]
    cases Owner_ with
    | Node OwnerNode =>
      simp only [OwnerTraits, NodeTraitsOf] at hLen hBP
      simp only [Owner.node, SetHitOnEachTraitOf]
      cases hR : S.PerNodeTraits OwnerNode.NodeGuid with
      | none =>
        by_cases hg : g = OwnerNode.NodeGuid
        · subst hg; simp [hR]
        · simp [hg]
      | some R =>
        simp only [hR] at hLen hBP
        have hStore := TArray.storeFirst_eq_map (IsNodeTrait .Breakpoint) (fun _ => true)
          (fun Trait => { Trait with bHit := v }) R.NodeTraits
          (fun a ha => by simp [IsNodeTrait, hBP a ha]) (by simpa using hLen)
        simp only [if_true] at hStore
        by_cases hg : g = OwnerNode.NodeGuid
        · subst hg; simp [hR, hStore]
        · simp [hg]
    | Pin OwnerPin =>
      simp only [OwnerTraits, PinTraitsOf] at hLen hBP
      simp only [Owner.node, SetHitOnEachTraitOf]
      cases hR : S.PerNodeTraits OwnerPin.GetOwningNode.NodeGuid with
      | none =>
        by_cases hg : g = OwnerPin.GetOwningNode.NodeGuid
        · subst hg; simp [hR]
        · simp [hg]
      | some R =>
        simp only [hR] at hLen hBP
        have hStore := TArray.storeFirst_eq_map (IsPinTrait OwnerPin .Breakpoint)
          (fun Trait => Trait.PinId == OwnerPin.PinId)
          (fun Trait => { Trait with bHit := v }) R.PinTraits
          (fun a ha => by
            by_cases hP : a.PinId = OwnerPin.PinId
            · have := hBP a (List.mem_filter.mpr ⟨ha, by simp [hP]⟩)
              simp [IsPinTrait, hP, this]
            · simp [IsPinTrait, hP])
          hLen
        by_cases hg : g = OwnerPin.GetOwningNode.NodeGuid
        · subst hg; simp [hR, hStore]
        · simp [hg]
  · rw [storeTrait_SaveConfigCalls]
    cases Owner_ with
    | Node OwnerNode =>
      simp only [SetHitOnEachTraitOf]
      cases S.PerNodeTraits OwnerNode.NodeGuid <;> rfl
    | Pin OwnerPin =>
      simp only [SetHitOnEachTraitOf]
      cases S.PerNodeTraits OwnerPin.GetOwningNode.NodeGuid <;> rfl

/-- C8 (as amended): `SetAllTraitsHit(owner, v)` returns exactly the declared types (the enum
range, which is Breakpoint alone, Max excluded) for which `FindTrait` returned a trait before
the call, and afterwards `IsTraitHit` equals `v` for every returned type. When the owner holds
at most one trait per type and none of type Max, the resulting settings equal the ones obtained
by setting hit to `v` on each stored trait of that owner and on nothing else. -/
theorem C8_set_all_traits_hit (S : UFlowGraphEditorSettings) (Owner_ : Owner) (v : Bool) :
    (SetAllTraitsHit S Owner_ v).2 =
        TEnumRange.filter (fun T => (FindTrait S Owner_ T).isSome) ∧
      TEnumRange = [EFlowTraitType.Breakpoint] ∧
      (∀ T ∈ (SetAllTraitsHit S Owner_ v).2,
        IsTraitHit (SetAllTraitsHit S Owner_ v).1 Owner_ T = v) ∧
      (((OwnerTraits S Owner_).map (fun Trait => Trait.Type_)).Nodup →
        EFlowTraitType.Max ∉ (OwnerTraits S Owner_).map (fun Trait => Trait.Type_) →
        (SetAllTraitsHit S Owner_ v).1 = SetHitOnEachTraitOf S Owner_ v) := by
  rw [SetAllTraitsHit_eq]
  refine ⟨?_, rfl, ?_, fun h1 h2 => storeTrait_eq_SetHitOnEachTraitOf S Owner_ v h1 h2⟩
  · cases h : (FindTrait S Owner_ .Breakpoint).isSome <;> simp [TEnumRange_eq, h]
  · intro T hT
    cases h : FindTrait S Owner_ .Breakpoint with
    | none => simp [h] at hT
    | some Trait =>
      simp only [h, Option.isSome_some, if_true, List.mem_singleton] at hT
      subst hT
      simp only [IsTraitHit]
      rw [FindTrait_storeTrait S Owner_ .Breakpoint
        (fun Trait => { Trait with bHit := v }) (fun _ => ⟨rfl, rfl⟩) _ rfl, h]
      rfl

/-- C8 (as amended) at the settings holding one node-level breakpoint of node 7 and a
breakpoint on its pin 1: the node's trait is returned and hit, the pin's trait is untouched. -/
theorem C8_set_all_traits_hit_witness :
    (SetAllTraitsHit
        { PerNodeTraits := fun g =>
            if g = 7 then some { NodeTraits := [FFlowDebugTrait.ofType .Breakpoint true],
                                 PinTraits := [FFlowDebugTrait.ofPin .Breakpoint 1 true] }
            else none,
          SaveConfigCalls := 2 }
        (.Node { NodeGuid := 7, Pins := [1] }) true).2 = [EFlowTraitType.Breakpoint] ∧
      (SetAllTraitsHit
        { PerNodeTraits := fun g =>
            if g = 7 then some { NodeTraits := [FFlowDebugTrait.ofType .Breakpoint true],
                                 PinTraits := [FFlowDebugTrait.ofPin .Breakpoint 1 true] }
            else none,
          SaveConfigCalls := 2 }
        (.Node { NodeGuid := 7, Pins := [1] }) true).1 =
      SetHitOnEachTraitOf
        { PerNodeTraits := fun g =>
            if g = 7 then some { NodeTraits := [FFlowDebugTrait.ofType .Breakpoint true],
                                 PinTraits := [FFlowDebugTrait.ofPin .Breakpoint 1 true] }
            else none,
          SaveConfigCalls := 2 }
        (.Node { NodeGuid := 7, Pins := [1] }) true :=
  ⟨by decide, (C8_set_all_traits_hit _ (.Node { NodeGuid := 7, Pins := [1] }) true).2.2.2
    (by decide) (by decide)⟩

/-- C8, counterexample. First input: a trait of type Max created on node 7 through
`CreateTrait`; `SetAllTraitsHit(node, true)` returns no type and leaves the trait's hit flag
false, whereas setting hit on each stored trait of the node sets it to true. Second input: two
breakpoints on node 7 (two `CreateTrait` calls with slow checks compiled out);
`SetAllTraitsHit(node, true)` sets the hit flag of the first one only. -/
theorem C8_counterexample :
    ((CreateTrait true UFlowGraphEditorSettings.empty
        (.Node { NodeGuid := 7, Pins := [] }) .Max true).map
      (fun S0 =>
        ((SetAllTraitsHit S0 (.Node { NodeGuid := 7, Pins := [] }) true).2,
          NodeTraitsOf (SetAllTraitsHit S0 (.Node { NodeGuid := 7, Pins := [] }) true).1 7,
          NodeTraitsOf (SetHitOnEachTraitOf S0 (.Node { NodeGuid := 7, Pins := [] }) true) 7)) =
    some ([],
      [{ PinId := 0, Type_ := .Max, bEnabled := true, bHit := false }],
      [{ PinId := 0, Type_ := .Max, bEnabled := true, bHit := true }])) ∧
    (((CreateTrait false UFlowGraphEditorSettings.empty
        (.Node { NodeGuid := 7, Pins := [] }) .Breakpoint true).bind
      (fun S0 => CreateTrait false S0 (.Node { NodeGuid := 7, Pins := [] }) .Breakpoint true)).map
      (fun S1 =>
        ((SetAllTraitsHit S1 (.Node { NodeGuid := 7, Pins := [] }) true).2,
          NodeTraitsOf (SetAllTraitsHit S1 (.Node { NodeGuid := 7, Pins := [] }) true).1 7,
          NodeTraitsOf (SetHitOnEachTraitOf S1 (.Node { NodeGuid := 7, Pins := [] }) true) 7)) =
    some ([EFlowTraitType.Breakpoint],
      [{ PinId := 0, Type_ := .Breakpoint, bEnabled := true, bHit := true },
       { PinId := 0, Type_ := .Breakpoint, bEnabled := true, bHit := false }],
      [{ PinId := 0, Type_ := .Breakpoint, bEnabled := true, bHit := true },
       { PinId := 0, Type_ := .Breakpoint, bEnabled := true, bHit := true }])) := by
  decide

/-! ## Enabled flag and the lookups -/

/-- C11: `SetTraitEnabled(owner, type, v)` leaves the settings unchanged, save count included,
when `FindTrait(owner, type)` is nothing; otherwise afterwards `IsTraitEnabled` equals `v`, the
trait found is the one found before with only its enabled flag set (so `IsTraitHit` is as
before), and exactly one save is made. `IsTraitEnabled` and `IsTraitHit` are false whenever
`FindTrait` is nothing. -/
theorem C11_set_trait_enabled (S : UFlowGraphEditorSettings) (Owner_ : Owner)
    (T : EFlowTraitType) (v : Bool) :
    (FindTrait S Owner_ T = none →
        SetTraitEnabled S Owner_ T v = S ∧
        IsTraitEnabled S Owner_ T = false ∧ IsTraitHit S Owner_ T = false) ∧
      ((FindTrait S Owner_ T).isSome = true →
        FindTrait (SetTraitEnabled S Owner_ T v) Owner_ T =
          (FindTrait S Owner_ T).map (fun Trait => { Trait with bEnabled := v }) ∧
        IsTraitEnabled (SetTraitEnabled S Owner_ T v) Owner_ T = v ∧
        IsTraitHit (SetTraitEnabled S Owner_ T v) Owner_ T = IsTraitHit S Owner_ T ∧
        (SetTraitEnabled S Owner_ T v).SaveConfigCalls = S.SaveConfigCalls + 1) := by
  constructor
  · intro h
    simp [SetTraitEnabled, IsTraitEnabled, IsTraitHit, h]
  · intro h
    obtain ⟨Trait, hT⟩ := Option.isSome_iff_exists.mp h
    have hS : SetTraitEnabled S Owner_ T v =
        SaveFlowGraphEditorSettings
          (storeTrait S Owner_ T (fun Trait => { Trait with bEnabled := v })) := by
      simp [SetTraitEnabled, hT]
    have hFind : FindTrait (SetTraitEnabled S Owner_ T v) Owner_ T =
        (FindTrait S Owner_ T).map (fun Trait => { Trait with bEnabled := v }) := by
      rw [hS]
      cases Owner_ with
      | Node OwnerNode =>
        have := FindTrait_storeTrait S (.Node OwnerNode) T
          (fun Trait => { Trait with bEnabled := v }) (fun _ => ⟨rfl, rfl⟩) T rfl
        rw [FindTrait_node] at this ⊢
        exact this
      | Pin OwnerPin =>
        have := FindTrait_storeTrait S (.Pin OwnerPin) T
          (fun Trait => { Trait with bEnabled := v }) (fun _ => ⟨rfl, rfl⟩) T rfl
        rw [FindTrait_pin] at this ⊢
        exact this
    refine ⟨hFind, ?_, ?_, ?_⟩
    · simp [IsTraitEnabled, hFind, hT, FFlowDebugTrait.IsEnabled]
    · simp [IsTraitHit, hFind, hT, FFlowDebugTrait.IsHit]
    · rw [hS]
      simp [SaveFlowGraphEditorSettings, storeTrait_SaveConfigCalls]

/-- C12: `GetNodeTraits(N)` returns nothing exactly when `N` has no record or the record's
node-level sequence is empty, and otherwise returns that sequence; `GetPinTraits(N)` does the
same for the pin-level sequence; `GetPerNodeSettings(N)` returns what the map holds under the
node's guid, nothing when there is no record. The three lookups only call `TMap::Find`: they
take the settings and return the looked-up value, no settings. -/
theorem C12_lookups (S : UFlowGraphEditorSettings) (OwnerNode : UFlowGraphNode) :
    (GetNodeTraits S OwnerNode = none ↔
        (S.PerNodeTraits OwnerNode.NodeGuid = none ∨
          ∃ R, S.PerNodeTraits OwnerNode.NodeGuid = some R ∧ R.NodeTraits = [])) ∧
      (∀ R, S.PerNodeTraits OwnerNode.NodeGuid = some R → R.NodeTraits ≠ [] →
        GetNodeTraits S OwnerNode = some R.NodeTraits) ∧
      (GetPinTraits S OwnerNode = none ↔
        (S.PerNodeTraits OwnerNode.NodeGuid = none ∨
          ∃ R, S.PerNodeTraits OwnerNode.NodeGuid = some R ∧ R.PinTraits = [])) ∧
      (∀ R, S.PerNodeTraits OwnerNode.NodeGuid = some R → R.PinTraits ≠ [] →
        GetPinTraits S OwnerNode = some R.PinTraits) ∧
      GetPerNodeSettings S OwnerNode = S.PerNodeTraits OwnerNode.NodeGuid ∧
      (S.PerNodeTraits OwnerNode.NodeGuid = none → GetPerNodeSettings S OwnerNode = none) := by
  simp only [GetNodeTraits, GetPinTraits, GetPerNodeSettings]
  cases hR : S.PerNodeTraits OwnerNode.NodeGuid with
  | none => simp
  | some R =>
    refine ⟨?_, ?_, ?_, ?_, trivial, by simp⟩
    · by_cases hN : R.NodeTraits = [] <;> simp [hN]
    · intro R1 h1 hN
      simp only [Option.some.injEq] at h1
      subst h1
      simp [hN]
    · by_cases hN : R.PinTraits = [] <;> simp [hN]
    · intro R1 h1 hN
      simp only [Option.some.injEq] at h1
      subst h1
      simp [hN]

/-! ## Empty records are pruned -/

theorem NoEmptyRecord_RemoveNodeTraitByPredicate (S : UFlowGraphEditorSettings)
    (OwnerNode : UFlowGraphNode) (Predicate : FFlowDebugTrait → Bool) (h : NoEmptyRecord S) :
    NoEmptyRecord (RemoveNodeTraitByPredicate S OwnerNode Predicate) := by
  intro g R1 hR1
  rw [RemoveNodeTraitByPredicate_apply] at hR1
  by_cases hg : g = OwnerNode.NodeGuid
  · simp only [hg, if_true] at hR1
    cases hR : S.PerNodeTraits OwnerNode.NodeGuid with
    | none => simp [hR] at hR1
    | some R =>
      have hB := h _ R hR
      simp only [hR] at hR1
      split_ifs at hR1 with hc
      simp only [Option.some.injEq] at hR1
      subst hR1
      simp only
      by_contra hcon
      simp only [not_or, not_not] at hcon
      rcases hB with hB | hB
      · exact hc ⟨hB, hcon.1, hcon.2⟩
      · exact hB hcon.2
  · simp only [hg, if_false] at hR1
    exact h g R1 hR1

theorem NoEmptyRecord_RemovePinTraitByPredicate (S : UFlowGraphEditorSettings)
    (Owner_ : Owner) (Predicate : FFlowDebugTrait → Bool) (h : NoEmptyRecord S) :
    NoEmptyRecord (RemovePinTraitByPredicate S Owner_ Predicate) := by
  intro g R1 hR1
  rw [RemovePinTraitByPredicate_apply] at hR1
  by_cases hg : g = Owner_.node.NodeGuid
  · simp only [hg, if_true] at hR1
    cases hR : S.PerNodeTraits Owner_.node.NodeGuid with
    | none => simp [hR] at hR1
    | some R =>
      have hB := h _ R hR
      simp only [hR] at hR1
      split_ifs at hR1 with hc
      simp only [Option.some.injEq] at hR1
      subst hR1
      simp only
      by_contra hcon
      simp only [not_or, not_not] at hcon
      rcases hB with hB | hB
      · exact hB hcon.1
      · exact hc ⟨hB, hcon.2, hcon.1⟩
  · simp only [hg, if_false] at hR1
    exact h g R1 hR1

theorem NoEmptyRecord_ClearNodeTraits (S : UFlowGraphEditorSettings)
    (OwnerNode : UFlowGraphNode) (h : NoEmptyRecord S) :
    NoEmptyRecord (ClearNodeTraits S OwnerNode) := by
  intro g R1 hR1
  rw [ClearNodeTraits_apply] at hR1
  by_cases hg : g = OwnerNode.NodeGuid
  · simp only [hg, if_true] at hR1
    cases hR : S.PerNodeTraits OwnerNode.NodeGuid with
    | none => simp [hR] at hR1
    | some R =>
      simp only [hR] at hR1
      split_ifs at hR1 with hc
      simp only [Option.some.injEq] at hR1
      subst hR1
      exact Or.inr hc
  · simp only [hg, if_false] at hR1
    exact h g R1 hR1

theorem NoEmptyRecord_ClearPinTraits (S : UFlowGraphEditorSettings) (Owner_ : Owner)
    (h : NoEmptyRecord S) : NoEmptyRecord (ClearPinTraits S Owner_) := by
  intro g R1 hR1
  rw [ClearPinTraits_apply] at hR1
  by_cases hg : g = Owner_.node.NodeGuid
  · simp only [hg, if_true] at hR1
    cases hR : S.PerNodeTraits Owner_.node.NodeGuid with
    | none => simp [hR] at hR1
    | some R =>
      simp only [hR] at hR1
      split_ifs at hR1 with hc
      simp only [Option.some.injEq] at hR1
      subst hR1
      simp only
      by_contra hcon
      simp only [not_or, not_not] at hcon
      exact hc ⟨hcon.1, hcon.2⟩
  · simp only [hg, if_false] at hR1
    exact h g R1 hR1

theorem NoEmptyRecord_storeTrait (S : UFlowGraphEditorSettings) (Owner_ : Owner)
    (T : EFlowTraitType) (F : FFlowDebugTrait → FFlowDebugTrait) (h : NoEmptyRecord S) :
    NoEmptyRecord (storeTrait S Owner_ T F) := by
  intro g R1 hR1
  rw [storeTrait_apply] at hR1
  by_cases hg : g = Owner_.node.NodeGuid
  · simp only [hg, if_true] at hR1
    cases hR : S.PerNodeTraits Owner_.node.NodeGuid with
    | none => simp [hR] at hR1
    | some R =>
      have hB := h _ R hR
      simp only [hR, Option.map_some', Option.some.injEq] at hR1
      subst hR1
      cases Owner_ with
      | Node OwnerNode => simpa [TArray.storeFirst_eq_nil] using hB
      | Pin OwnerPin => simpa [TArray.storeFirst_eq_nil] using hB
  · simp only [hg, if_false] at hR1
    exact h g R1 hR1

theorem NoEmptyRecord_CreateTrait (DO_GUARD_SLOW : Bool) (S S1 : UFlowGraphEditorSettings)
    (Owner_ : Owner) (T : EFlowTraitType) (e : Bool)
    (hC : CreateTrait DO_GUARD_SLOW S Owner_ T e = some S1) (h : NoEmptyRecord S) :
    NoEmptyRecord S1 := by
  intro g R1 hR1
  rw [(CreateTrait_apply _ _ _ _ _ _ hC).1 g] at hR1
  by_cases hg : g = Owner_.node.NodeGuid
  · simp only [hg, if_true, Option.some.injEq] at hR1
    subst hR1
    cases Owner_ with
    | Node OwnerNode => exact Or.inl (by simp)
    | Pin OwnerPin => exact Or.inr (by simp)
  · simp only [hg, if_false] at hR1
    exact h g R1 hR1

theorem NoEmptyRecord_SetTraitHit (S : UFlowGraphEditorSettings) (Owner_ : Owner)
    (T : EFlowTraitType) (b : Bool) (h : NoEmptyRecord S) :
    NoEmptyRecord (SetTraitHit S Owner_ T b).1 := by
  rw [SetTraitHit_fst]
  exact NoEmptyRecord_storeTrait _ _ _ _ h

theorem NoEmptyRecord_SetTraitEnabled (S : UFlowGraphEditorSettings) (Owner_ : Owner)
    (T : EFlowTraitType) (b : Bool) (h : NoEmptyRecord S) :
    NoEmptyRecord (SetTraitEnabled S Owner_ T b) := by
  simp only [SetTraitEnabled]
  split
  · exact NoEmptyRecord_storeTrait _ _ _ _ h
  · exact h

theorem NoEmptyRecord_SetAllTraitsHitLoop (Owner_ : Owner) (b : Bool) :
    ∀ (Types : List EFlowTraitType) (S : UFlowGraphEditorSettings) (Hit : List EFlowTraitType),
      NoEmptyRecord S → NoEmptyRecord (SetAllTraitsHitLoop Owner_ b Types (S, Hit)).1 := by
  intro Types
  induction Types with
  | nil => intro S Hit h; exact h
  | cons T Rest ih =>
    intro S Hit h
    simp only [SetAllTraitsHitLoop]
    exact ih _ _ (NoEmptyRecord_SetTraitHit _ _ _ _ h)

theorem NoEmptyRecord_RemoveTrait (S : UFlowGraphEditorSettings) (Owner_ : Owner)
    (T : EFlowTraitType) (h : NoEmptyRecord S) : NoEmptyRecord (RemoveTrait S Owner_ T) := by
  cases Owner_ with
  | Node OwnerNode => exact NoEmptyRecord_RemoveNodeTraitByPredicate _ _ _ h
  | Pin OwnerPin => exact NoEmptyRecord_RemovePinTraitByPredicate _ _ _ h

/-- C13: empty records never persist. From settings in which no record has both sequences
empty, every call of the mutation API that returns leaves settings with the same property; the
only call that does not return is a `CreateTrait` rejected by its assertion (slow checks
compiled in, trait already there). -/
theorem C13_no_empty_record_invariant (DO_GUARD_SLOW : Bool) (S : UFlowGraphEditorSettings)
    (M : Mutation) (hInv : NoEmptyRecord S) :
    (∀ S1, M.run DO_GUARD_SLOW S = some S1 → NoEmptyRecord S1) ∧
      (M.run DO_GUARD_SLOW S = none →
        DO_GUARD_SLOW = true ∧
        ∃ Owner_ T bEnabled, M = Mutation.CreateTrait Owner_ T bEnabled ∧
          (FindTrait S Owner_ T).isSome = true) := by
  cases M with
  | CreateTrait Owner_ T bEnabled =>
    refine ⟨fun S1 h => NoEmptyRecord_CreateTrait _ _ _ _ _ _ h hInv, fun h => ?_⟩
    have := (CreateTrait_eq_none_iff _ _ _ _ _).mp h
    exact ⟨this.1, Owner_, T, bEnabled, rfl, this.2⟩
  | RemoveTrait Owner_ T =>
    refine ⟨fun S1 h => ?_, fun h => by simp [Mutation.run] at h⟩
    simp only [Mutation.run, Option.some.injEq] at h
    subst h
    exact NoEmptyRecord_RemoveTrait _ _ _ hInv
  | RemoveNodeTraitByPredicate OwnerNode Predicate =>
    refine ⟨fun S1 h => ?_, fun h => by simp [Mutation.run] at h⟩
    simp only [Mutation.run, Option.some.injEq] at h
    subst h
    exact NoEmptyRecord_RemoveNodeTraitByPredicate _ _ _ hInv
  | RemovePinTraitByPredicate Owner_ Predicate =>
    refine ⟨fun S1 h => ?_, fun h => by simp [Mutation.run] at h⟩
    simp only [Mutation.run, Option.some.injEq] at h
    subst h
    exact NoEmptyRecord_RemovePinTraitByPredicate _ _ _ hInv
  | ClearNodeTraits OwnerNode =>
    refine ⟨fun S1 h => ?_, fun h => by simp [Mutation.run] at h⟩
    simp only [Mutation.run, Option.some.injEq] at h
    subst h
    exact NoEmptyRecord_ClearNodeTraits _ _ hInv
  | ClearPinTraits Owner_ =>
    refine ⟨fun S1 h => ?_, fun h => by simp [Mutation.run] at h⟩
    simp only [Mutation.run, Option.some.injEq] at h
    subst h
    exact NoEmptyRecord_ClearPinTraits _ _ hInv
  | CleanupTraits OwnerNode =>
    refine ⟨fun S1 h => ?_, fun h => by simp [Mutation.run] at h⟩
    simp only [Mutation.run, Option.some.injEq] at h
    subst h
    exact NoEmptyRecord_RemovePinTraitByPredicate _ _ _ hInv
  | SetTraitEnabled Owner_ T b =>
    refine ⟨fun S1 h => ?_, fun h => by simp [Mutation.run] at h⟩
    simp only [Mutation.run, Option.some.injEq] at h
    subst h
    exact NoEmptyRecord_SetTraitEnabled _ _ _ _ hInv
  | SetTraitHit Owner_ T b =>
    refine ⟨fun S1 h => ?_, fun h => by simp [Mutation.run] at h⟩
    simp only [Mutation.run, Option.some.injEq] at h
    subst h
    exact NoEmptyRecord_SetTraitHit _ _ _ _ hInv
  | SetAllTraitsHit Owner_ b =>
    refine ⟨fun S1 h => ?_, fun h => by simp [Mutation.run] at h⟩
    simp only [Mutation.run, Option.some.injEq] at h
    subst h
    exact NoEmptyRecord_SetAllTraitsHitLoop _ _ _ _ _ hInv
  | ToggleTrait Owner_ T =>
    obtain ⟨S2, h2, hA, hB⟩ := ToggleTrait_spec DO_GUARD_SLOW S Owner_ T
    refine ⟨fun S1 h => ?_, fun h => by simp [Mutation.run, h2] at h⟩
    simp only [Mutation.run, h2, Option.some.injEq] at h
    subst h
    cases hF : FindTrait S Owner_ T with
    | some Trait =>
      rw [(hA (by simp [hF])).1]
      exact NoEmptyRecord_RemoveTrait _ _ _ hInv
    | none => exact NoEmptyRecord_CreateTrait _ _ _ _ _ _ (hB hF).1 hInv

/-- C13 at the settings holding one node-level breakpoint of node 7 and the call that removes
it: no record is empty before, and none is after (the record of node 7 is pruned). -/
theorem C13_no_empty_record_invariant_witness :
    NoEmptyRecord
        { PerNodeTraits := fun g =>
            if g = 7 then some { NodeTraits := [FFlowDebugTrait.ofType .Breakpoint true],
                                 PinTraits := [] }
            else none,
          SaveConfigCalls := 1 } ∧
      NoEmptyRecord
        (RemoveTrait
          { PerNodeTraits := fun g =>
              if g = 7 then some { NodeTraits := [FFlowDebugTrait.ofType .Breakpoint true],
                                   PinTraits := [] }
              else none,
            SaveConfigCalls := 1 }
          (.Node { NodeGuid := 7, Pins := [] }) .Breakpoint) :=
  have hInv : NoEmptyRecord
      { PerNodeTraits := fun g =>
          if g = 7 then some { NodeTraits := [FFlowDebugTrait.ofType .Breakpoint true],
                               PinTraits := [] }
          else none,
        SaveConfigCalls := 1 } := fun g R hR => by
    by_cases hg : g = 7
    · simp only [hg, if_true, Option.some.injEq] at hR
      subst hR
      exact Or.inl (by simp)
    · simp [hg] at hR
  ⟨hInv, (C13_no_empty_record_invariant true _
    (Mutation.RemoveTrait (.Node { NodeGuid := 7, Pins := [] }) .Breakpoint) hInv).1 _ rfl⟩

/-! ## Saves requested by removing and clearing -/

theorem ClearNodeTraits_SaveConfigCalls (S : UFlowGraphEditorSettings)
    (OwnerNode : UFlowGraphNode) :
    (ClearNodeTraits S OwnerNode).SaveConfigCalls =
      S.SaveConfigCalls + (if (S.PerNodeTraits OwnerNode.NodeGuid).isSome then 1 else 0) := by
  simp only [ClearNodeTraits, GetPerNodeSettings]
  cases hR : S.PerNodeTraits OwnerNode.NodeGuid with
  | none => simp
  | some R =>
    simp only [Option.isSome_some, if_true]
    split <;> rfl

theorem ClearPinTraits_SaveConfigCalls (S : UFlowGraphEditorSettings) (Owner_ : Owner) :
    (ClearPinTraits S Owner_).SaveConfigCalls =
      S.SaveConfigCalls + (if (S.PerNodeTraits Owner_.node.NodeGuid).isSome then 1 else 0) := by
  cases Owner_ with
  | Node OwnerNode =>
    simp only [ClearPinTraits, GetPerNodeSettings, Owner.node]
    have hcases : S.PerNodeTraits OwnerNode.NodeGuid = none ∨
        ∃ R, S.PerNodeTraits OwnerNode.NodeGuid = some R := by
      cases S.PerNodeTraits OwnerNode.NodeGuid <;> simp
    rcases hcases with hR | ⟨R, hR⟩
    · simp [hR]
    · simp only [hR, Option.isSome_some, if_true]
      split <;> rfl
  | Pin OwnerPin =>
    simp only [ClearPinTraits, GetPerNodeSettings, Owner.node]
    have hcases : S.PerNodeTraits OwnerPin.GetOwningNode.NodeGuid = none ∨
        ∃ R, S.PerNodeTraits OwnerPin.GetOwningNode.NodeGuid = some R := by
      cases S.PerNodeTraits OwnerPin.GetOwningNode.NodeGuid <;> simp
    rcases hcases with hR | ⟨R, hR⟩
    · simp [hR]
    · simp only [hR, Option.isSome_some, if_true]
      split <;> rfl

theorem storeNodeTraits_SaveConfigCalls (S : UFlowGraphEditorSettings)
    (OwnerNode : UFlowGraphNode) (l : List FFlowDebugTrait) :
    (storeNodeTraits S OwnerNode l).SaveConfigCalls = S.SaveConfigCalls := by
  simp only [storeNodeTraits]
  split <;> rfl

theorem storePinTraits_SaveConfigCalls (S : UFlowGraphEditorSettings)
    (OwnerNode : UFlowGraphNode) (l : List FFlowDebugTrait) :
    (storePinTraits S OwnerNode l).SaveConfigCalls = S.SaveConfigCalls := by
  simp only [storePinTraits]
  split <;> rfl

theorem storeNodeTraits_isSome (S : UFlowGraphEditorSettings)
    (OwnerNode : UFlowGraphNode) (l : List FFlowDebugTrait) (R : FFlowTraitSettings)
    (h : S.PerNodeTraits OwnerNode.NodeGuid = some R) :
    ((storeNodeTraits S OwnerNode l).PerNodeTraits OwnerNode.NodeGuid).isSome = true := by
  simp [storeNodeTraits, GetPerNodeSettings, h]

theorem storePinTraits_isSome (S : UFlowGraphEditorSettings)
    (OwnerNode : UFlowGraphNode) (l : List FFlowDebugTrait) (R : FFlowTraitSettings)
    (h : S.PerNodeTraits OwnerNode.NodeGuid = some R) :
    ((storePinTraits S OwnerNode l).PerNodeTraits OwnerNode.NodeGuid).isSome = true := by
  simp [storePinTraits, GetPerNodeSettings, h]

/-- The saves made by `RemoveNodeTraitByPredicate`: none when nothing was removed, two when the
sequence was emptied (one inside `ClearNodeTraits`), one otherwise. -/
theorem RemoveNodeTraitByPredicate_SaveConfigCalls (S : UFlowGraphEditorSettings)
    (OwnerNode : UFlowGraphNode) (Predicate : FFlowDebugTrait → Bool) :
    (RemoveNodeTraitByPredicate S OwnerNode Predicate).SaveConfigCalls =
      S.SaveConfigCalls +
        (if (TArray.RemoveAllSwap Predicate (NodeTraitsOf S OwnerNode.NodeGuid)).2 = 0 then 0
          else if (TArray.RemoveAllSwap Predicate (NodeTraitsOf S OwnerNode.NodeGuid)).1 = []
            then 2 else 1) := by
  simp only [RemoveNodeTraitByPredicate, GetNodeTraits, GetPerNodeSettings, NodeTraitsOf]
  have hcases : S.PerNodeTraits OwnerNode.NodeGuid = none ∨
      ∃ R, S.PerNodeTraits OwnerNode.NodeGuid = some R := by
    cases S.PerNodeTraits OwnerNode.NodeGuid <;> simp
  rcases hcases with hR | ⟨R, hR⟩
  · simp [hR, TArray.RemoveAllSwap_nil]
  · simp only [hR]
    by_cases hN : R.NodeTraits = []
    · simp [hN, TArray.RemoveAllSwap_nil]
    · simp only [List.isEmpty_eq_true, hN, if_false]
      by_cases hc : (TArray.RemoveAllSwap Predicate R.NodeTraits).2 = 0
      · simp [hc, storeNodeTraits_SaveConfigCalls]
      · by_cases hE : (TArray.RemoveAllSwap Predicate R.NodeTraits).1 = []
        · simp only [ne_eq, hc, not_false_eq_true, if_true, hE, List.isEmpty_nil, if_false]
          simp only [SaveFlowGraphEditorSettings, ClearNodeTraits_SaveConfigCalls,
            storeNodeTraits_isSome S OwnerNode [] R hR, storeNodeTraits_SaveConfigCalls, if_true]
        · simp only [ne_eq, hc, not_false_eq_true, if_true, hE, List.isEmpty_eq_true, if_false]
          simp only [SaveFlowGraphEditorSettings, storeNodeTraits_SaveConfigCalls]

/-- The saves made by `RemovePinTraitByPredicate`: none when nothing was removed, two when the
sequence was emptied (one inside `ClearPinTraits`), one otherwise. -/
theorem RemovePinTraitByPredicate_SaveConfigCalls (S : UFlowGraphEditorSettings)
    (Owner_ : Owner) (Predicate : FFlowDebugTrait → Bool) :
    (RemovePinTraitByPredicate S Owner_ Predicate).SaveConfigCalls =
      S.SaveConfigCalls +
        (if (TArray.RemoveAllSwap Predicate (PinTraitsOf S Owner_.node.NodeGuid)).2 = 0 then 0
          else if (TArray.RemoveAllSwap Predicate (PinTraitsOf S Owner_.node.NodeGuid)).1 = []
            then 2 else 1) := by
  simp only [RemovePinTraitByPredicate, GetPinTraits, GetPerNodeSettings, PinTraitsOf]
  have hcases : S.PerNodeTraits Owner_.node.NodeGuid = none ∨
      ∃ R, S.PerNodeTraits Owner_.node.NodeGuid = some R := by
    cases S.PerNodeTraits Owner_.node.NodeGuid <;> simp
  rcases hcases with hR | ⟨R, hR⟩
  · simp [hR, TArray.RemoveAllSwap_nil]
  · simp only [hR]
    by_cases hN : R.PinTraits = []
    · simp [hN, TArray.RemoveAllSwap_nil]
    · simp only [List.isEmpty_eq_true, hN, if_false]
      by_cases hc : (TArray.RemoveAllSwap Predicate R.PinTraits).2 = 0
      · simp [hc, storePinTraits_SaveConfigCalls]
      · by_cases hE : (TArray.RemoveAllSwap Predicate R.PinTraits).1 = []
        · simp only [ne_eq, hc, not_false_eq_true, if_true, hE, List.isEmpty_nil, if_false]
          simp only [SaveFlowGraphEditorSettings, ClearPinTraits_SaveConfigCalls,
            storePinTraits_isSome S Owner_.node [] R hR, storePinTraits_SaveConfigCalls, if_true]
        · simp only [ne_eq, hc, not_false_eq_true, if_true, hE, List.isEmpty_eq_true, if_false]
          simp only [SaveFlowGraphEditorSettings, storePinTraits_SaveConfigCalls]

theorem TArray.RemoveAllSwap_length_lt_iff {α : Type} (p : α → Bool) (l : List α) :
    (TArray.RemoveAllSwap p l).1.length < l.length ↔ (TArray.RemoveAllSwap p l).2 ≠ 0 := by
  have hle : (TArray.RemoveAllSwap p l).1.length ≤ l.length := by
    rw [(TArray.RemoveAllSwap_perm p l).length_eq]
    exact List.length_filter_le _ _
  have h2 : (TArray.RemoveAllSwap p l).2 = l.length - (TArray.RemoveAllSwap p l).1.length := rfl
  omega

theorem RemoveNodeTraitByPredicate_of_none (S : UFlowGraphEditorSettings)
    (OwnerNode : UFlowGraphNode) (Predicate : FFlowDebugTrait → Bool)
    (h : ∀ Trait ∈ NodeTraitsOf S OwnerNode.NodeGuid, Predicate Trait = false) :
    RemoveNodeTraitByPredicate S OwnerNode Predicate = S := by
  have hc := (TArray.RemoveAllSwap_snd_eq_zero Predicate _).mpr h
  have hsame := TArray.RemoveAllSwap_fst_of_none Predicate _ h
  apply UFlowGraphEditorSettings.ext
  · intro g
    rw [RemoveNodeTraitByPredicate_apply]
    by_cases hg : g = OwnerNode.NodeGuid
    · subst hg
      simp only [if_true]
      simp only [NodeTraitsOf] at hsame
      cases hR : S.PerNodeTraits OwnerNode.NodeGuid with
      | none => rfl
      | some R =>
        simp only [hR] at hsame
        simp only [hsame]
        by_cases hN : R.NodeTraits = []
        · simp only [hN, ne_eq, not_true_eq_false, false_and, if_false]
          rw [← hN, FFlowTraitSettings.with_NodeTraits_self]
        · simp [hN, FFlowTraitSettings.with_NodeTraits_self]
    · simp [hg]
  · rw [RemoveNodeTraitByPredicate_SaveConfigCalls, hc]
    simp

theorem RemovePinTraitByPredicate_of_none (S : UFlowGraphEditorSettings)
    (Owner_ : Owner) (Predicate : FFlowDebugTrait → Bool)
    (h : ∀ Trait ∈ PinTraitsOf S Owner_.node.NodeGuid, Predicate Trait = false) :
    RemovePinTraitByPredicate S Owner_ Predicate = S := by
  have hc := (TArray.RemoveAllSwap_snd_eq_zero Predicate _).mpr h
  have hsame := TArray.RemoveAllSwap_fst_of_none Predicate _ h
  apply UFlowGraphEditorSettings.ext
  · intro g
    rw [RemovePinTraitByPredicate_apply]
    by_cases hg : g = Owner_.node.NodeGuid
    · subst hg
      simp only [if_true]
      simp only [PinTraitsOf] at hsame
      cases hR : S.PerNodeTraits Owner_.node.NodeGuid with
      | none => rfl
      | some R =>
        simp only [hR] at hsame
        simp only [hsame]
        by_cases hN : R.PinTraits = []
        · simp only [hN, ne_eq, not_true_eq_false, false_and, if_false]
          rw [← hN, FFlowTraitSettings.with_PinTraits_self]
        · simp [hN, FFlowTraitSettings.with_PinTraits_self]
    · simp [hg]
  · rw [RemovePinTraitByPredicate_SaveConfigCalls, hc]
    simp

/-- C18: `RemoveNodeTraitByPredicate`, `RemovePinTraitByPredicate` (both overloads) and
`RemoveTrait` (both overloads) request a save exactly when at least one trait was removed, that
is, when the addressed sequence is shorter after the call than before it; the save count is
unchanged exactly when no stored trait passes the predicate (for `RemoveTrait`, when `FindTrait`
finds no trait), and then the settings, save count included, are unchanged. -/
theorem C18_remove_saves_iff_removed :
    (∀ (S : UFlowGraphEditorSettings) (OwnerNode : UFlowGraphNode)
        (Predicate : FFlowDebugTrait → Bool),
      (S.SaveConfigCalls < (RemoveNodeTraitByPredicate S OwnerNode Predicate).SaveConfigCalls ↔
        (NodeTraitsOf (RemoveNodeTraitByPredicate S OwnerNode Predicate)
            OwnerNode.NodeGuid).length < (NodeTraitsOf S OwnerNode.NodeGuid).length) ∧
      (S.SaveConfigCalls = (RemoveNodeTraitByPredicate S OwnerNode Predicate).SaveConfigCalls ↔
        ∀ Trait ∈ NodeTraitsOf S OwnerNode.NodeGuid, Predicate Trait = false) ∧
      ((∀ Trait ∈ NodeTraitsOf S OwnerNode.NodeGuid, Predicate Trait = false) →
        RemoveNodeTraitByPredicate S OwnerNode Predicate = S)) ∧
    (∀ (S : UFlowGraphEditorSettings) (Owner_ : Owner) (Predicate : FFlowDebugTrait → Bool),
      (S.SaveConfigCalls < (RemovePinTraitByPredicate S Owner_ Predicate).SaveConfigCalls ↔
        (PinTraitsOf (RemovePinTraitByPredicate S Owner_ Predicate)
            Owner_.node.NodeGuid).length < (PinTraitsOf S Owner_.node.NodeGuid).length) ∧
      (S.SaveConfigCalls = (RemovePinTraitByPredicate S Owner_ Predicate).SaveConfigCalls ↔
        ∀ Trait ∈ PinTraitsOf S Owner_.node.NodeGuid, Predicate Trait = false) ∧
      ((∀ Trait ∈ PinTraitsOf S Owner_.node.NodeGuid, Predicate Trait = false) →
        RemovePinTraitByPredicate S Owner_ Predicate = S)) ∧
    (∀ (S : UFlowGraphEditorSettings) (OwnerNode : UFlowGraphNode) (T : EFlowTraitType),
      (S.SaveConfigCalls < (RemoveTrait S (.Node OwnerNode) T).SaveConfigCalls ↔
        (NodeTraitsOf (RemoveTrait S (.Node OwnerNode) T) OwnerNode.NodeGuid).length <
          (NodeTraitsOf S OwnerNode.NodeGuid).length) ∧
      (S.SaveConfigCalls = (RemoveTrait S (.Node OwnerNode) T).SaveConfigCalls ↔
        (NodeTraitsOf (RemoveTrait S (.Node OwnerNode) T) OwnerNode.NodeGuid).length =
          (NodeTraitsOf S OwnerNode.NodeGuid).length)) ∧
    (∀ (S : UFlowGraphEditorSettings) (OwnerPin : UEdGraphPin) (T : EFlowTraitType),
      (S.SaveConfigCalls < (RemoveTrait S (.Pin OwnerPin) T).SaveConfigCalls ↔
        (PinTraitsOf (RemoveTrait S (.Pin OwnerPin) T) OwnerPin.GetOwningNode.NodeGuid).length <
          (PinTraitsOf S OwnerPin.GetOwningNode.NodeGuid).length) ∧
      (S.SaveConfigCalls = (RemoveTrait S (.Pin OwnerPin) T).SaveConfigCalls ↔
        (PinTraitsOf (RemoveTrait S (.Pin OwnerPin) T) OwnerPin.GetOwningNode.NodeGuid).length =
          (PinTraitsOf S OwnerPin.GetOwningNode.NodeGuid).length)) ∧
    (∀ (S : UFlowGraphEditorSettings) (Owner_ : Owner) (T : EFlowTraitType),
      (S.SaveConfigCalls < (RemoveTrait S Owner_ T).SaveConfigCalls ↔
        (FindTrait S Owner_ T).isSome = true) ∧
      (FindTrait S Owner_ T = none → RemoveTrait S Owner_ T = S)) := by
  have hNode : ∀ (S : UFlowGraphEditorSettings) (OwnerNode : UFlowGraphNode)
      (Predicate : FFlowDebugTrait → Bool),
      (S.SaveConfigCalls < (RemoveNodeTraitByPredicate S OwnerNode Predicate).SaveConfigCalls ↔
        (TArray.RemoveAllSwap Predicate (NodeTraitsOf S OwnerNode.NodeGuid)).2 ≠ 0) ∧
      (S.SaveConfigCalls = (RemoveNodeTraitByPredicate S OwnerNode Predicate).SaveConfigCalls ↔
        (TArray.RemoveAllSwap Predicate (NodeTraitsOf S OwnerNode.NodeGuid)).2 = 0) := by
    intro S OwnerNode Predicate
    rw [RemoveNodeTraitByPredicate_SaveConfigCalls]
    constructor <;> split_ifs <;> simp_all
  have hPin : ∀ (S : UFlowGraphEditorSettings) (Owner_ : Owner)
      (Predicate : FFlowDebugTrait → Bool),
      (S.SaveConfigCalls < (RemovePinTraitByPredicate S Owner_ Predicate).SaveConfigCalls ↔
        (TArray.RemoveAllSwap Predicate (PinTraitsOf S Owner_.node.NodeGuid)).2 ≠ 0) ∧
      (S.SaveConfigCalls = (RemovePinTraitByPredicate S Owner_ Predicate).SaveConfigCalls ↔
        (TArray.RemoveAllSwap Predicate (PinTraitsOf S Owner_.node.NodeGuid)).2 = 0) := by
    intro S Owner_ Predicate
    rw [RemovePinTraitByPredicate_SaveConfigCalls]
    constructor <;> split_ifs <;> simp_all
  have hNodeLt : ∀ (S : UFlowGraphEditorSettings) (OwnerNode : UFlowGraphNode)
      (Predicate : FFlowDebugTrait → Bool),
      (S.SaveConfigCalls < (RemoveNodeTraitByPredicate S OwnerNode Predicate).SaveConfigCalls ↔
        (NodeTraitsOf (RemoveNodeTraitByPredicate S OwnerNode Predicate)
            OwnerNode.NodeGuid).length < (NodeTraitsOf S OwnerNode.NodeGuid).length) := by
    intro S OwnerNode Predicate
    rw [(hNode S OwnerNode Predicate).1, NodeTraitsOf_RemoveNodeTraitByPredicate, if_pos rfl,
      TArray.RemoveAllSwap_length_lt_iff]
  have hPinLt : ∀ (S : UFlowGraphEditorSettings) (Owner_ : Owner)
      (Predicate : FFlowDebugTrait → Bool),
      (S.SaveConfigCalls < (RemovePinTraitByPredicate S Owner_ Predicate).SaveConfigCalls ↔
        (PinTraitsOf (RemovePinTraitByPredicate S Owner_ Predicate)
            Owner_.node.NodeGuid).length < (PinTraitsOf S Owner_.node.NodeGuid).length) := by
    intro S Owner_ Predicate
    rw [(hPin S Owner_ Predicate).1, PinTraitsOf_RemovePinTraitByPredicate, if_pos rfl,
      TArray.RemoveAllSwap_length_lt_iff]
  have hNodeEq : ∀ (S : UFlowGraphEditorSettings) (OwnerNode : UFlowGraphNode)
      (Predicate : FFlowDebugTrait → Bool),
      (S.SaveConfigCalls = (RemoveNodeTraitByPredicate S OwnerNode Predicate).SaveConfigCalls ↔
        (NodeTraitsOf (RemoveNodeTraitByPredicate S OwnerNode Predicate)
            OwnerNode.NodeGuid).length = (NodeTraitsOf S OwnerNode.NodeGuid).length) := by
    intro S OwnerNode Predicate
    have hle := RemoveNodeTraitByPredicate_SaveConfigCalls S OwnerNode Predicate
    have hlen : (NodeTraitsOf (RemoveNodeTraitByPredicate S OwnerNode Predicate)
        OwnerNode.NodeGuid).length ≤ (NodeTraitsOf S OwnerNode.NodeGuid).length := by
      rw [NodeTraitsOf_RemoveNodeTraitByPredicate, if_pos rfl]
      exact (TArray.RemoveAllSwap_perm _ _).length_eq ▸ List.length_filter_le _ _
    have hlt := hNodeLt S OwnerNode Predicate
    have hge : S.SaveConfigCalls ≤
        (RemoveNodeTraitByPredicate S OwnerNode Predicate).SaveConfigCalls := by
      rw [hle]; split_ifs <;> omega
    omega
  have hPinEq : ∀ (S : UFlowGraphEditorSettings) (Owner_ : Owner)
      (Predicate : FFlowDebugTrait → Bool),
      (S.SaveConfigCalls = (RemovePinTraitByPredicate S Owner_ Predicate).SaveConfigCalls ↔
        (PinTraitsOf (RemovePinTraitByPredicate S Owner_ Predicate)
            Owner_.node.NodeGuid).length = (PinTraitsOf S Owner_.node.NodeGuid).length) := by
    intro S Owner_ Predicate
    have hle := RemovePinTraitByPredicate_SaveConfigCalls S Owner_ Predicate
    have hlen : (PinTraitsOf (RemovePinTraitByPredicate S Owner_ Predicate)
        Owner_.node.NodeGuid).length ≤ (PinTraitsOf S Owner_.node.NodeGuid).length := by
      rw [PinTraitsOf_RemovePinTraitByPredicate, if_pos rfl]
      exact (TArray.RemoveAllSwap_perm _ _).length_eq ▸ List.length_filter_le _ _
    have hlt := hPinLt S Owner_ Predicate
    have hge : S.SaveConfigCalls ≤
        (RemovePinTraitByPredicate S Owner_ Predicate).SaveConfigCalls := by
      rw [hle]; split_ifs <;> omega
    omega
  refine ⟨fun S OwnerNode Predicate =>
      ⟨hNodeLt S OwnerNode Predicate, ?_, RemoveNodeTraitByPredicate_of_none _ _ _⟩,
    fun S Owner_ Predicate =>
      ⟨hPinLt S Owner_ Predicate, ?_, RemovePinTraitByPredicate_of_none _ _ _⟩,
    fun S OwnerNode T => ⟨hNodeLt S OwnerNode (IsNodeTrait T), hNodeEq S OwnerNode (IsNodeTrait T)⟩,
    fun S OwnerPin T =>
      ⟨hPinLt S (.Pin OwnerPin) (IsPinTrait OwnerPin T),
        hPinEq S (.Pin OwnerPin) (IsPinTrait OwnerPin T)⟩,
    fun S Owner_ T => ?_⟩
  · rw [(hNode S OwnerNode Predicate).2, TArray.RemoveAllSwap_snd_eq_zero]
  · rw [(hPin S Owner_ Predicate).2, TArray.RemoveAllSwap_snd_eq_zero]
  · cases Owner_ with
    | Node OwnerNode =>
      rw [FindTrait_node]
      refine ⟨?_, fun h => RemoveNodeTraitByPredicate_of_none _ _ _
        (fun Trait hT => by simpa using List.find?_eq_none.mp h Trait hT)⟩
      rw [RemoveTrait, (hNode S OwnerNode _).1, ne_eq, TArray.RemoveAllSwap_snd_eq_zero,
        ← TArray.any_eq_isSome_find?]
      simp
    | Pin OwnerPin =>
      rw [FindTrait_pin]
      refine ⟨?_, fun h => RemovePinTraitByPredicate_of_none _ _ _
        (fun Trait hT => by simpa using List.find?_eq_none.mp h Trait hT)⟩
      rw [RemoveTrait, (hPin S (.Pin OwnerPin) _).1, ne_eq, TArray.RemoveAllSwap_snd_eq_zero,
        ← TArray.any_eq_isSome_find?]
      simp [Owner.node]

theorem ClearNodeTraits_of_no_record (S : UFlowGraphEditorSettings)
    (OwnerNode : UFlowGraphNode) (h : S.PerNodeTraits OwnerNode.NodeGuid = none) :
    ClearNodeTraits S OwnerNode = S := by
  simp [ClearNodeTraits, GetPerNodeSettings, h]

theorem ClearPinTraits_of_no_record (S : UFlowGraphEditorSettings) (Owner_ : Owner)
    (h : S.PerNodeTraits Owner_.node.NodeGuid = none) : ClearPinTraits S Owner_ = S := by
  cases Owner_ with
  | Node OwnerNode =>
    simp only [Owner.node] at h
    simp [ClearPinTraits, GetPerNodeSettings, h]
  | Pin OwnerPin =>
    simp only [Owner.node] at h
    simp [ClearPinTraits, GetPerNodeSettings, h]

/-- C19, counterexample: on settings with no record for node 7, `ClearNodeTraits`,
`ClearPinTraits` of the node and `ClearPinTraits` of a pin of the node request no save. -/
theorem C19_counterexample :
    (ClearNodeTraits UFlowGraphEditorSettings.empty
        { NodeGuid := 7, Pins := [1] }).SaveConfigCalls = 0 ∧
      (ClearPinTraits UFlowGraphEditorSettings.empty
        (.Node { NodeGuid := 7, Pins := [1] })).SaveConfigCalls = 0 ∧
      (ClearPinTraits UFlowGraphEditorSettings.empty
        (.Pin { PinId := 1, GetOwningNode := { NodeGuid := 7, Pins := [1] } })).SaveConfigCalls
        = 0 := by
  decide

/-- C19 (as amended): `ClearNodeTraits(node)` and `ClearPinTraits(node)` empty the node-level,
respectively pin-level, sequence; `ClearPinTraits(pin)` removes every trait of that pin and
keeps, up to order, the traits of the other pins; none touches the other sequence; the record
is pruned if both sequences are then empty; one save is requested when the node has a record,
and when it has none the settings are unchanged and no save is requested. -/
theorem C19_clear_traits (S : UFlowGraphEditorSettings) :
    (∀ OwnerNode : UFlowGraphNode,
      NodeTraitsOf (ClearNodeTraits S OwnerNode) OwnerNode.NodeGuid = [] ∧
      PinTraitsOf (ClearNodeTraits S OwnerNode) OwnerNode.NodeGuid =
        PinTraitsOf S OwnerNode.NodeGuid ∧
      (PinTraitsOf (ClearNodeTraits S OwnerNode) OwnerNode.NodeGuid = [] →
        GetPerNodeSettings (ClearNodeTraits S OwnerNode) OwnerNode = none) ∧
      (ClearNodeTraits S OwnerNode).SaveConfigCalls =
        S.SaveConfigCalls + (if (GetPerNodeSettings S OwnerNode).isSome then 1 else 0) ∧
      (GetPerNodeSettings S OwnerNode = none → ClearNodeTraits S OwnerNode = S)) ∧
    (∀ Owner_ : Owner,
      (match Owner_ with
        | .Node _ => PinTraitsOf (ClearPinTraits S Owner_) Owner_.node.NodeGuid = []
        | .Pin OwnerPin =>
          (PinTraitsOf (ClearPinTraits S Owner_) Owner_.node.NodeGuid).Perm
              ((PinTraitsOf S Owner_.node.NodeGuid).filter
                (fun Trait => !(Trait.PinId == OwnerPin.PinId))) ∧
            OwnerTraits (ClearPinTraits S Owner_) Owner_ = []) ∧
      NodeTraitsOf (ClearPinTraits S Owner_) Owner_.node.NodeGuid =
        NodeTraitsOf S Owner_.node.NodeGuid ∧
      (NodeTraitsOf (ClearPinTraits S Owner_) Owner_.node.NodeGuid = [] →
        PinTraitsOf (ClearPinTraits S Owner_) Owner_.node.NodeGuid = [] →
        GetPerNodeSettings (ClearPinTraits S Owner_) Owner_.node = none) ∧
      (ClearPinTraits S Owner_).SaveConfigCalls =
        S.SaveConfigCalls + (if (GetPerNodeSettings S Owner_.node).isSome then 1 else 0) ∧
      (GetPerNodeSettings S Owner_.node = none → ClearPinTraits S Owner_ = S)) := by
  constructor
  · intro OwnerNode
    refine ⟨by rw [NodeTraitsOf_ClearNodeTraits, if_pos rfl], PinTraitsOf_ClearNodeTraits _ _ _,
      ?_, ClearNodeTraits_SaveConfigCalls _ _, ClearNodeTraits_of_no_record _ _⟩
    simp only [PinTraitsOf, GetPerNodeSettings, ClearNodeTraits_apply, if_true]
    cases hR : S.PerNodeTraits OwnerNode.NodeGuid with
    | none => simp
    | some R =>
      dsimp only
      split_ifs with hc
      · simp
      · intro h; exact absurd h hc
  · intro Owner_
    refine ⟨?_, NodeTraitsOf_ClearPinTraits _ _ _, ?_, ClearPinTraits_SaveConfigCalls _ _,
      ClearPinTraits_of_no_record _ _⟩
    · cases Owner_ with
      | Node OwnerNode =>
        dsimp only
        rw [PinTraitsOf_ClearPinTraits, if_pos rfl]
      | Pin OwnerPin =>
        dsimp only
        have hP : PinTraitsOf (ClearPinTraits S (.Pin OwnerPin))
            (Owner.Pin OwnerPin).node.NodeGuid =
            (TArray.RemoveAllSwap (fun Trait => Trait.PinId == OwnerPin.PinId)
              (PinTraitsOf S (Owner.Pin OwnerPin).node.NodeGuid)).1 := by
          rw [PinTraitsOf_ClearPinTraits, if_pos rfl]
        refine ⟨by rw [hP]; exact TArray.RemoveAllSwap_perm _ _, ?_⟩
        simp only [OwnerTraits]
        simp only [Owner.node] at hP
        rw [hP, List.filter_eq_nil_iff]
        intro a ha
        have := ((TArray.mem_RemoveAllSwap _ _ a).mp ha).2
        simpa using this
    · simp only [NodeTraitsOf, PinTraitsOf, GetPerNodeSettings, ClearPinTraits_apply, if_true]
      cases hR : S.PerNodeTraits Owner_.node.NodeGuid with
      | none => simp
      | some R =>
        dsimp only
        split_ifs with hc
        · simp
        · intro h1 h2; exact absurd ⟨h1, h2⟩ hc

/-! ## Runtime logs -/

theorem Event.run_append (D : UFlowDebuggerSubsystem) (Events1 Events2 : List Event) :
    Event.run D (Events1 ++ Events2) = Event.run (Event.run D Events1) Events2 := by
  simp [Event.run, List.foldl_append]

theorem filterMap_ite_eq_map_filter {α β : Type} (q : α → Bool) (g : α → β) (l : List α) :
    l.filterMap (fun a => if q a then some (g a) else none) = (l.filter q).map g := by
  induction l with
  | nil => rfl
  | cons a as ih =>
    by_cases h : q a = true
    · simp [List.filterMap_cons, List.filter_cons, h, ih]
    · simp [List.filterMap_cons, List.filter_cons, h, ih]

/-- C14: after `OnBeginPIE` the table `RuntimeLogs` is empty, for every table and flag value;
hence after any sequence of notifications that ends with a session begin it is empty, whether or
not a session end came before. Scenario: begin, two registrations with messages, begin again
without a session end in between. -/
theorem C14_begin_pie_clears_logs :
    (∀ (D : UFlowDebuggerSubsystem) (bIsSimulating : Bool),
      (D.OnBeginPIE bIsSimulating).RuntimeLogs = [] ∧
      ∀ FlowAsset, (D.OnBeginPIE bIsSimulating).FindRef FlowAsset = none) ∧
    (∀ (D : UFlowDebuggerSubsystem) (Events : List Event) (bIsSimulating : Bool),
      (Event.run D (Events ++ [Event.BeginPIE bIsSimulating])).RuntimeLogs = []) ∧
    ((Event.run UFlowDebuggerSubsystem.initial
        [.BeginPIE false, .InstancedTemplateAdded 1,
          .RuntimeMessageAdded 1 { Severity := .Warning, Content := 5 },
          .InstancedTemplateAdded 2]).RuntimeLogs =
        [(1, { Messages := [{ Severity := .Warning, Content := 5 }],
               DataChangedBroadcasts := 1 }),
         (2, { Messages := [], DataChangedBroadcasts := 0 })] ∧
      (Event.run UFlowDebuggerSubsystem.initial
        [.BeginPIE false, .InstancedTemplateAdded 1,
          .RuntimeMessageAdded 1 { Severity := .Warning, Content := 5 },
          .InstancedTemplateAdded 2, .BeginPIE true]).RuntimeLogs = []) := by
  refine ⟨fun D b => ⟨rfl, fun _ => rfl⟩, fun D Events b => ?_, by decide, by decide⟩
  rw [Event.run_append]
  rfl

/-- C15, counterexample: two registered instances, a warning logged for the first and an error
for the second, both still valid at session end: `OnEndPIE` hands two notifications to
`AddNotification`, one for each. -/
theorem C15_counterexample :
    (Event.run UFlowDebuggerSubsystem.initial
        [.BeginPIE false, .InstancedTemplateAdded 1, .InstancedTemplateAdded 2,
          .RuntimeMessageAdded 1 { Severity := .Warning, Content := 5 },
          .RuntimeMessageAdded 2 { Severity := .Error, Content := 6 }]).OnEndPIE
      (fun _ => true) false =
    [{ HyperlinkAsset := 1 }, { HyperlinkAsset := 2 }] := by
  decide

/-- C15 (as amended): `OnEndPIE` emits one notification for each log whose instance is still
valid and which holds at least one warning-or-worse message, in table order, each linking to
that log's asset: the number of notifications is the number of such logs, 0 exactly when none
qualifies; the table itself is not touched by the handler. -/
theorem C15_end_pie_notifies_per_log (D : UFlowDebuggerSubsystem) (IsValid : UFlowAsset → Bool)
    (bIsSimulating : Bool) :
    (D.OnEndPIE IsValid bIsSimulating).map (fun Info => Info.HyperlinkAsset) =
        (D.RuntimeLogs.filter (fun Log =>
          IsValid Log.1 && decide (0 < Log.2.NumMessages EMessageSeverity.Warning))).map
          (fun Log => Log.1) ∧
      (D.OnEndPIE IsValid bIsSimulating).length =
        D.RuntimeLogs.countP (fun Log =>
          IsValid Log.1 && decide (0 < Log.2.NumMessages EMessageSeverity.Warning)) ∧
      ((D.OnEndPIE IsValid bIsSimulating).length = 0 ↔
        ∀ Log ∈ D.RuntimeLogs,
          ¬ (IsValid Log.1 = true ∧ 0 < Log.2.NumMessages EMessageSeverity.Warning)) ∧
      (Event.EndPIE bIsSimulating).step D = D := by
  have hMap : ∀ l : List (UFlowAsset × IMessageLogListing),
      (l.filterMap (fun Log =>
        if IsValid Log.1 && decide (Log.2.NumMessages EMessageSeverity.Warning > 0) then
          some ({ HyperlinkAsset := Log.1 } : FNotificationInfo)
        else none)).map (fun Info => Info.HyperlinkAsset) =
      (l.filter (fun Log =>
          IsValid Log.1 && decide (0 < Log.2.NumMessages EMessageSeverity.Warning))).map
          (fun Log => Log.1) := by
    intro l
    have := filterMap_ite_eq_map_filter
      (fun Log : UFlowAsset × IMessageLogListing =>
        IsValid Log.1 && decide (0 < Log.2.NumMessages EMessageSeverity.Warning))
      (fun Log => ({ HyperlinkAsset := Log.1 } : FNotificationInfo)) l
    simp only [gt_iff_lt]
    rw [this, List.map_map]
    rfl
  have hLen : (D.OnEndPIE IsValid bIsSimulating).length =
      D.RuntimeLogs.countP (fun Log =>
        IsValid Log.1 && decide (0 < Log.2.NumMessages EMessageSeverity.Warning)) := by
    have := congrArg List.length (hMap D.RuntimeLogs)
    simp only [List.length_map] at this
    rw [List.countP_eq_length_filter]
    exact this
  refine ⟨hMap D.RuntimeLogs, hLen, ?_, rfl⟩
  rw [hLen, List.countP_eq_zero]
  constructor
  · intro h Log hLog hq
    exact h Log hLog (by simp [hq.1, hq.2])
  · intro h Log hLog hq
    simp only [Bool.and_eq_true, decide_eq_true_eq] at hq
    exact h Log hLog hq

/-! ## Play session -/

theorem map_eq_self_iff {α : Type} (f : α → α) (l : List α) :
    l.map f = l ↔ ∀ a ∈ l, f a = a := by
  induction l with
  | nil => simp
  | cons a as ih => simp [ih]

theorem ForEachGameWorld_pause (Contexts : List FWorldContext) :
    ∀ bPaused : Bool,
      ForEachGameWorld
        (fun World bPaused =>
          if !World.bDebugPauseExecution then
            (({ World with bDebugPauseExecution := true } : UWorld), true)
          else (World, bPaused))
        Contexts bPaused =
      (Contexts.map FWorldContext.paused,
        bPaused || Contexts.any FWorldContext.runsUnpaused) := by
  induction Contexts with
  | nil => intro b; simp [ForEachGameWorld]
  | cons C Rest ih =>
    intro b
    cases C with
    | mk World =>
      cases World with
      | none =>
        simp only [ForEachGameWorld, ih]
        simp [FWorldContext.paused, FWorldContext.runsUnpaused]
      | some W =>
        cases W with
        | mk g p =>
          cases g <;> cases p <;> cases b <;>
            (simp only [ForEachGameWorld, ih]
             simp [FWorldContext.paused, FWorldContext.runsUnpaused])

theorem ForEachGameWorld_all_paused (Contexts : List FWorldContext) :
    ∀ bPaused : Bool,
      (ForEachGameWorld
        (fun (World : UWorld) (bPaused : Bool) => (World, bPaused && World.bDebugPauseExecution))
        Contexts bPaused).2 =
      (bPaused && Contexts.all (fun C => !C.runsUnpaused)) := by
  induction Contexts with
  | nil => intro b; simp [ForEachGameWorld]
  | cons C Rest ih =>
    intro b
    cases C with
    | mk World =>
      cases World with
      | none =>
        simp only [ForEachGameWorld, ih]
        simp [FWorldContext.runsUnpaused]
      | some W =>
        cases W with
        | mk g p =>
          cases g <;> cases p <;> cases b <;>
            (simp only [ForEachGameWorld, ih]
             simp [FWorldContext.runsUnpaused])

theorem FWorldContext.runsUnpaused_paused (C : FWorldContext) :
    C.paused.runsUnpaused = false := by
  cases C with
  | mk World =>
    cases World with
    | none => rfl
    | some W =>
      cases W with
      | mk g p => cases g <;> cases p <;> rfl

theorem FWorldContext.paused_eq_self_iff (C : FWorldContext) :
    C.paused = C ↔ C.runsUnpaused = false := by
  cases C with
  | mk World =>
    cases World with
    | none => simp [FWorldContext.paused, FWorldContext.runsUnpaused]
    | some W =>
      cases W with
      | mk g p =>
        cases g <;> cases p <;> simp [FWorldContext.paused, FWorldContext.runsUnpaused]

/-- C16: `PausePlaySession` sets the pause flag of every game world that was not paused and
leaves null worlds, non-game worlds and already paused worlds as they are; it calls
`PlaySessionPaused` if and only if some context held an unpaused game world, which is if and
only if some world's flag changed; a second call right after changes nothing and signals
nothing. -/
theorem C16_pause_play_session (Contexts : List FWorldContext) :
    (PausePlaySession Contexts).1 = Contexts.map FWorldContext.paused ∧
      (∀ C ∈ Contexts, ∀ W, C.World = some W →
        (W.IsGameWorld = true → W.bDebugPauseExecution = false →
          C.paused = { World := some { W with bDebugPauseExecution := true } }) ∧
        ((W.IsGameWorld = false ∨ W.bDebugPauseExecution = true) → C.paused = C)) ∧
      (∀ C ∈ Contexts, C.World = none → C.paused = C) ∧
      ((PausePlaySession Contexts).2 = true ↔
        ∃ C ∈ Contexts, ∃ W, C.World = some W ∧
          W.IsGameWorld = true ∧ W.bDebugPauseExecution = false) ∧
      ((PausePlaySession Contexts).2 = true ↔ (PausePlaySession Contexts).1 ≠ Contexts) ∧
      PausePlaySession (PausePlaySession Contexts).1 = ((PausePlaySession Contexts).1, false) := by
  have hP : PausePlaySession Contexts =
      (Contexts.map FWorldContext.paused, Contexts.any FWorldContext.runsUnpaused) := by
    unfold PausePlaySession
    rw [ForEachGameWorld_pause]
    simp
  have hAny : Contexts.any FWorldContext.runsUnpaused = true ↔
      ∃ C ∈ Contexts, ∃ W, C.World = some W ∧
        W.IsGameWorld = true ∧ W.bDebugPauseExecution = false := by
    rw [List.any_eq_true]
    constructor
    · rintro ⟨C, hC, hR⟩
      refine ⟨C, hC, ?_⟩
      cases C with
      | mk World =>
        cases World with
        | none => simp [FWorldContext.runsUnpaused] at hR
        | some W => exact ⟨W, rfl, by simpa [FWorldContext.runsUnpaused] using hR⟩
    · rintro ⟨C, hC, W, hW, hg, hp⟩
      exact ⟨C, hC, by simp [FWorldContext.runsUnpaused, hW, hg, hp]⟩
  refine ⟨by rw [hP], ?_, ?_, by rw [hP]; exact hAny, ?_, ?_⟩
  · intro C _ W hW
    constructor
    · intro hg hp
      simp [FWorldContext.paused, hW, hg, hp]
    · intro h
      rcases h with h | h <;> simp [FWorldContext.paused, hW, h]
  · intro C _ hW
    simp [FWorldContext.paused, hW]
  · rw [hP]
    simp only [ne_eq]
    rw [List.any_eq_true]
    constructor
    · rintro ⟨C, hC, hR⟩ hEq
      have h1 : ∀ C ∈ Contexts, C.paused = C := by
        intro C1 hC1
        exact (map_eq_self_iff FWorldContext.paused Contexts).mp hEq C1 hC1
      rw [(FWorldContext.paused_eq_self_iff C).mp (h1 C hC)] at hR
      exact absurd hR (by simp)
    · intro hNe
      by_contra hcon
      apply hNe
      have h2 : ∀ C ∈ Contexts, C.paused = C := by
        intro C hC
        rw [FWorldContext.paused_eq_self_iff]
        by_contra hR
        exact hcon ⟨C, hC, by simpa using hR⟩
      exact (map_eq_self_iff FWorldContext.paused Contexts).mpr h2
  · rw [hP]
    unfold PausePlaySession
    rw [ForEachGameWorld_pause]
    simp only [Bool.false_or, Prod.mk.injEq]
    constructor
    · apply (map_eq_self_iff _ _).mpr
      intro C hC
      obtain ⟨C0, _, rfl⟩ := List.mem_map.mp hC
      exact (FWorldContext.paused_eq_self_iff _).mpr (FWorldContext.runsUnpaused_paused C0)
    · rw [List.any_eq_false]
      intro C hC
      obtain ⟨C0, _, rfl⟩ := List.mem_map.mp hC
      simp [FWorldContext.runsUnpaused_paused]

/-- C17: `IsPlaySessionPaused` is true if and only if every game world of the world contexts has
its pause flag set (null and non-game worlds do not count, so one unpaused game world makes it
false and no game world at all makes it true); it is true right after `PausePlaySession`. -/
theorem C17_is_play_session_paused (Contexts : List FWorldContext) :
    (IsPlaySessionPaused Contexts = true ↔
        ∀ C ∈ Contexts, ∀ W, C.World = some W → W.IsGameWorld = true →
          W.bDebugPauseExecution = true) ∧
      IsPlaySessionPaused (PausePlaySession Contexts).1 = true := by
  have hI : ∀ Cs : List FWorldContext,
      IsPlaySessionPaused Cs = Cs.all (fun C => !C.runsUnpaused) := by
    intro Cs
    simp [IsPlaySessionPaused, AreAllGameWorldPaused, ForEachGameWorld_all_paused]
  constructor
  · rw [hI, List.all_eq_true]
    constructor
    · intro h C hC W hW hg
      have := h C hC
      simp only [FWorldContext.runsUnpaused, hW, hg, Bool.true_and, Bool.not_not] at this
      exact this
    · intro h C hC
      cases C with
      | mk World =>
        cases World with
        | none => rfl
        | some W =>
          cases hg : W.IsGameWorld with
          | false => simp [FWorldContext.runsUnpaused, hg]
          | true => simp [FWorldContext.runsUnpaused, hg, h _ hC W rfl hg]
  · rw [hI, List.all_eq_true]
    intro C hC
    have hP : (PausePlaySession Contexts).1 = Contexts.map FWorldContext.paused := by
      unfold PausePlaySession
      rw [ForEachGameWorld_pause]
    rw [hP] at hC
    obtain ⟨C0, _, rfl⟩ := List.mem_map.mp hC
    simp [FWorldContext.runsUnpaused_paused]

/-! ## One log and one listener per instance -/

theorem UFlowDebuggerSubsystem.keys_AddPair (FlowAsset : UFlowAsset)
    (Listing : IMessageLogListing) (l : List (UFlowAsset × IMessageLogListing)) :
    (UFlowDebuggerSubsystem.AddPair FlowAsset Listing l).map Prod.fst =
      if l.any (fun Log => Log.1 == FlowAsset) then l.map Prod.fst
      else l.map Prod.fst ++ [FlowAsset] := by
  induction l with
  | nil => simp [UFlowDebuggerSubsystem.AddPair]
  | cons a as ih =>
    by_cases h : a.1 = FlowAsset
    · simp [UFlowDebuggerSubsystem.AddPair, h]
    · by_cases h2 : as.any (fun Log => Log.1 == FlowAsset) = true
      · simp only [UFlowDebuggerSubsystem.AddPair, beq_iff_eq, h, if_false, List.map_cons, ih,
          h2, if_true, List.any_cons, Bool.or_true]
      · simp only [UFlowDebuggerSubsystem.AddPair, beq_iff_eq, h, if_false, List.map_cons, ih,
          h2, List.any_cons]
        simp [h, h2]

theorem UFlowDebuggerSubsystem.keys_storeLog (D : UFlowDebuggerSubsystem)
    (FlowAsset : UFlowAsset) (F : IMessageLogListing → IMessageLogListing) :
    (D.storeLog FlowAsset F).RuntimeLogs.map Prod.fst = D.RuntimeLogs.map Prod.fst := by
  simp only [UFlowDebuggerSubsystem.storeLog, List.map_map]
  apply List.map_congr_left
  intro a _
  by_cases h : a.1 = FlowAsset <;> simp [h]

theorem UFlowDebuggerSubsystem.keys_OnRuntimeMessageAdded (D : UFlowDebuggerSubsystem)
    (FlowAsset : UFlowAsset) (Message : FTokenizedMessage) :
    (D.OnRuntimeMessageAdded FlowAsset Message).RuntimeLogs.map Prod.fst =
        D.RuntimeLogs.map Prod.fst ∧
      (D.OnRuntimeMessageAdded FlowAsset Message).RuntimeMessageListeners =
        D.RuntimeMessageListeners := by
  simp only [UFlowDebuggerSubsystem.OnRuntimeMessageAdded]
  split
  · exact ⟨UFlowDebuggerSubsystem.keys_storeLog _ _ _, rfl⟩
  · exact ⟨rfl, rfl⟩

theorem UFlowDebuggerSubsystem.keys_Broadcast (FlowAsset : UFlowAsset)
    (Message : FTokenizedMessage) :
    ∀ (Bindings : Nat) (D : UFlowDebuggerSubsystem),
      (UFlowDebuggerSubsystem.Broadcast FlowAsset Message Bindings D).RuntimeLogs.map Prod.fst =
          D.RuntimeLogs.map Prod.fst ∧
        (UFlowDebuggerSubsystem.Broadcast FlowAsset Message Bindings D).RuntimeMessageListeners =
          D.RuntimeMessageListeners := by
  intro Bindings
  induction Bindings with
  | zero => intro D; exact ⟨rfl, rfl⟩
  | succ n ih =>
    intro D
    simp only [UFlowDebuggerSubsystem.Broadcast]
    have h1 := ih (D.OnRuntimeMessageAdded FlowAsset Message)
    have h2 := UFlowDebuggerSubsystem.keys_OnRuntimeMessageAdded D FlowAsset Message
    exact ⟨h1.1.trans h2.1, h1.2.trans h2.2⟩

theorem UFlowDebuggerSubsystem.Contains_eq (D : UFlowDebuggerSubsystem)
    (FlowAsset : UFlowAsset) :
    D.Contains FlowAsset = decide (FlowAsset ∈ D.RuntimeLogs.map Prod.fst) := by
  simp only [UFlowDebuggerSubsystem.Contains]
  induction D.RuntimeLogs with
  | nil => simp
  | cons a as ih =>
    by_cases h : a.1 = FlowAsset
    · simp [h]
    · have h2 : ¬ FlowAsset = a.1 := fun e => h e.symm
      have h3 : (a.1 == FlowAsset) = false := by simpa using h
      simp only [List.any_cons, h3, Bool.false_or, ih, List.map_cons, List.mem_cons, h2,
        false_or]

theorem UFlowDebuggerSubsystem.NumLogs_eq (D : UFlowDebuggerSubsystem)
    (FlowAsset : UFlowAsset) :
    D.NumLogs FlowAsset = (D.RuntimeLogs.map Prod.fst).count FlowAsset := by
  simp only [UFlowDebuggerSubsystem.NumLogs, List.count, List.countP_map]
  apply List.countP_congr
  intro a _
  simp [Function.comp]

/-- The keys of the table and the listener counts after one notification. -/
theorem Event.step_keys (D : UFlowDebuggerSubsystem) (E : Event) :
    ((E.step D).RuntimeLogs.map Prod.fst =
      match E with
      | .InstancedTemplateAdded FlowAsset =>
        if D.Contains FlowAsset then D.RuntimeLogs.map Prod.fst
        else D.RuntimeLogs.map Prod.fst ++ [FlowAsset]
      | .BeginPIE _ => []
      | _ => D.RuntimeLogs.map Prod.fst) ∧
    ((E.step D).RuntimeMessageListeners =
      match E with
      | .InstancedTemplateAdded FlowAsset =>
        if D.Contains FlowAsset then D.RuntimeMessageListeners
        else fun A =>
          if A = FlowAsset then D.RuntimeMessageListeners A + 1 else D.RuntimeMessageListeners A
      | .InstancedTemplateRemoved FlowAsset =>
        fun A => if A = FlowAsset then 0 else D.RuntimeMessageListeners A
      | _ => D.RuntimeMessageListeners) := by
  cases E with
  | InstancedTemplateAdded FlowAsset =>
    simp only [Event.step, UFlowDebuggerSubsystem.OnInstancedTemplateAdded]
    by_cases h : D.Contains FlowAsset = true
    · simp [h]
    · have h2 : D.RuntimeLogs.any (fun Log => Log.1 == FlowAsset) = false := by
        simp only [UFlowDebuggerSubsystem.Contains, Bool.not_eq_true] at h
        exact h
      simp only [h, Bool.not_false, if_true, UFlowDebuggerSubsystem.Add,
        UFlowDebuggerSubsystem.keys_AddPair, h2, if_false]
      simp
  | InstancedTemplateRemoved FlowAsset => exact ⟨rfl, rfl⟩
  | RuntimeMessageAdded FlowAsset Message =>
    exact UFlowDebuggerSubsystem.keys_Broadcast FlowAsset Message _ D
  | BeginPIE b => exact ⟨rfl, rfl⟩
  | EndPIE b => exact ⟨rfl, rfl⟩

theorem Event.step_nodup_keys (D : UFlowDebuggerSubsystem) (E : Event)
    (h : (D.RuntimeLogs.map Prod.fst).Nodup) : ((E.step D).RuntimeLogs.map Prod.fst).Nodup := by
  rw [(Event.step_keys D E).1]
  cases E with
  | InstancedTemplateAdded FlowAsset =>
    dsimp only
    split
    · exact h
    · rename_i hC
      rw [UFlowDebuggerSubsystem.Contains_eq] at hC
      rw [List.nodup_append]
      refine ⟨h, by simp, ?_⟩
      intro a ha hb
      simp only [List.mem_singleton] at hb
      subst hb
      simp [ha] at hC
  | InstancedTemplateRemoved FlowAsset => exact h
  | RuntimeMessageAdded FlowAsset Message => exact h
  | BeginPIE b => simp
  | EndPIE b => exact h

theorem Event.run_nodup_keys (Events : List Event) :
    ∀ D : UFlowDebuggerSubsystem, (D.RuntimeLogs.map Prod.fst).Nodup →
      ((Event.run D Events).RuntimeLogs.map Prod.fst).Nodup := by
  induction Events with
  | nil => intro D h; exact h
  | cons E Rest ih =>
    intro D h
    exact ih _ (Event.step_nodup_keys D E h)

theorem Event.BeginsUnbound_cons (D : UFlowDebuggerSubsystem) (E : Event) (Rest : List Event) :
    Event.BeginsUnbound D (E :: Rest) ↔
      ((∀ b, E = Event.BeginPIE b → ∀ FlowAsset, D.RuntimeMessageListeners FlowAsset = 0) ∧
        Event.BeginsUnbound (E.step D) Rest) := by
  cases E with
  | BeginPIE b =>
    simp only [Event.BeginsUnbound, Event.step]
    constructor
    · rintro ⟨h1, h2⟩
      exact ⟨fun _ _ => h1, h2⟩
    · rintro ⟨h1, h2⟩
      exact ⟨h1 b rfl, h2⟩
  | InstancedTemplateAdded FlowAsset => simp [Event.BeginsUnbound]
  | InstancedTemplateRemoved FlowAsset => simp [Event.BeginsUnbound]
  | RuntimeMessageAdded FlowAsset Message => simp [Event.BeginsUnbound]
  | EndPIE b => simp [Event.BeginsUnbound]

theorem Event.BeginsUnbound_take (Events : List Event) :
    ∀ (D : UFlowDebuggerSubsystem) (n : Nat),
      Event.BeginsUnbound D Events → Event.BeginsUnbound D (Events.take n) := by
  induction Events with
  | nil => intro D n h; simpa using h
  | cons E Rest ih =>
    intro D n h
    cases n with
    | zero => simp [Event.BeginsUnbound]
    | succ m =>
      rw [List.take_succ_cons, Event.BeginsUnbound_cons]
      rw [Event.BeginsUnbound_cons] at h
      exact ⟨h.1, ih _ m h.2⟩

theorem Event.step_ListenersMatchLogs (D : UFlowDebuggerSubsystem) (E : Event)
    (h : D.ListenersMatchLogs)
    (hB : ∀ b, E = Event.BeginPIE b → ∀ FlowAsset, D.RuntimeMessageListeners FlowAsset = 0) :
    (E.step D).ListenersMatchLogs := by
  intro A
  have hA := h A
  rw [UFlowDebuggerSubsystem.Contains_eq] at hA ⊢
  rw [(Event.step_keys D E).1, (Event.step_keys D E).2]
  cases E with
  | InstancedTemplateAdded FlowAsset =>
    dsimp only
    by_cases hC : D.Contains FlowAsset = true
    · simp only [hC, if_true]
      exact hA
    · have hF := h FlowAsset
      have hF0 : D.RuntimeMessageListeners FlowAsset = 0 := by simpa [hC] using hF
      simp only [hC, Bool.false_eq_true, if_false]
      by_cases hEq : A = FlowAsset
      · rw [hEq]
        simp [hF0]
      · have hMem : (A ∈ List.map Prod.fst D.RuntimeLogs ++ [FlowAsset]) ↔
            A ∈ List.map Prod.fst D.RuntimeLogs := by
          simp [hEq]
        rw [if_neg hEq, decide_eq_decide.mpr hMem]
        exact hA
  | InstancedTemplateRemoved FlowAsset =>
    dsimp only
    by_cases hEq : A = FlowAsset
    · simp [hEq]
    · simpa [hEq] using hA
  | RuntimeMessageAdded FlowAsset Message => exact hA
  | BeginPIE b => simp [hB b rfl A]
  | EndPIE b => exact hA

theorem Event.run_ListenersMatchLogs (Events : List Event) :
    ∀ D : UFlowDebuggerSubsystem, D.ListenersMatchLogs → Event.BeginsUnbound D Events →
      (Event.run D Events).ListenersMatchLogs := by
  induction Events with
  | nil => intro D h _; exact h
  | cons E Rest ih =>
    intro D h hB
    rw [Event.BeginsUnbound_cons] at hB
    exact ih _ (Event.step_ListenersMatchLogs D E h hB.1) hB.2

/-- C20, counterexample: an instance is registered, a session begins while its listener is
still bound, and the instance is registered again: the table holds one log for it, but two
listeners of the subsystem are bound to its message delegate, and a message it broadcasts is
then logged twice. -/
theorem C20_counterexample :
    (Event.run UFlowDebuggerSubsystem.initial
        [.InstancedTemplateAdded 1, .BeginPIE false,
          .InstancedTemplateAdded 1]).RuntimeMessageListeners 1 = 2 ∧
      (Event.run UFlowDebuggerSubsystem.initial
        [.InstancedTemplateAdded 1, .BeginPIE false, .InstancedTemplateAdded 1]).NumLogs 1 = 1 ∧
      (Event.run UFlowDebuggerSubsystem.initial
        [.InstancedTemplateAdded 1, .BeginPIE false, .InstancedTemplateAdded 1,
          .RuntimeMessageAdded 1 { Severity := .Warning, Content := 5 }]).RuntimeLogs =
        [(1, { Messages := [{ Severity := .Warning, Content := 5 },
                            { Severity := .Warning, Content := 5 }],
               DataChangedBroadcasts := 2 })] := by
  decide

/-- C20 (as amended): after every sequence of instance-registered, instance-unregistered,
message-added, session-begin and session-end notifications, and after each of its prefixes,
the table holds at most one log per instance; and when every session begin arrives while no
listener is bound, each instance has at most one listener bound to its message delegate, and
none unless the table holds its log. -/
theorem C20_one_log_one_listener (Events : List Event) (n : Nat) (FlowAsset : UFlowAsset) :
    (Event.run UFlowDebuggerSubsystem.initial (Events.take n)).NumLogs FlowAsset ≤ 1 ∧
      (Event.BeginsUnbound UFlowDebuggerSubsystem.initial Events →
        (Event.run UFlowDebuggerSubsystem.initial (Events.take n)).RuntimeMessageListeners
            FlowAsset ≤ 1 ∧
        ((Event.run UFlowDebuggerSubsystem.initial (Events.take n)).Contains FlowAsset = false →
          (Event.run UFlowDebuggerSubsystem.initial (Events.take n)).RuntimeMessageListeners
            FlowAsset = 0)) := by
  constructor
  · rw [UFlowDebuggerSubsystem.NumLogs_eq]
    exact List.nodup_iff_count_le_one.mp
      (Event.run_nodup_keys _ UFlowDebuggerSubsystem.initial (by simp [UFlowDebuggerSubsystem.initial]))
      FlowAsset
  · intro hB
    have hInit : UFlowDebuggerSubsystem.initial.ListenersMatchLogs := by
      intro A
      simp [UFlowDebuggerSubsystem.initial]
    have h := Event.run_ListenersMatchLogs (Events.take n) _ hInit
      (Event.BeginsUnbound_take Events _ n hB) FlowAsset
    constructor
    · split at h
      · exact h
      · exact Nat.le_trans h (Nat.zero_le 1)
    · intro hC
      simpa [hC] using h

/-- C20 (as amended) on two sessions in which the instance is unregistered before the second
begin: the sequence keeps to the rule and the instance ends with one log and one listener. -/
theorem C20_one_log_one_listener_witness :
    Event.BeginsUnbound UFlowDebuggerSubsystem.initial
        [.BeginPIE false, .InstancedTemplateAdded 1,
          .RuntimeMessageAdded 1 { Severity := .Warning, Content := 5 },
          .InstancedTemplateRemoved 1, .EndPIE false, .BeginPIE false,
          .InstancedTemplateAdded 1] ∧
      (Event.run UFlowDebuggerSubsystem.initial
        (List.take 7 [.BeginPIE false, .InstancedTemplateAdded 1,
          .RuntimeMessageAdded 1 { Severity := .Warning, Content := 5 },
          .InstancedTemplateRemoved 1, .EndPIE false, .BeginPIE false,
          .InstancedTemplateAdded 1])).RuntimeMessageListeners 1 ≤ 1 ∧
      (Event.run UFlowDebuggerSubsystem.initial
        (List.take 7 [.BeginPIE false, .InstancedTemplateAdded 1,
          .RuntimeMessageAdded 1 { Severity := .Warning, Content := 5 },
          .InstancedTemplateRemoved 1, .EndPIE false, .BeginPIE false,
          .InstancedTemplateAdded 1])).RuntimeMessageListeners 1 = 1 :=
  have hB : Event.BeginsUnbound UFlowDebuggerSubsystem.initial
      [.BeginPIE false, .InstancedTemplateAdded 1,
        .RuntimeMessageAdded 1 { Severity := .Warning, Content := 5 },
        .InstancedTemplateRemoved 1, .EndPIE false, .BeginPIE false,
        .InstancedTemplateAdded 1] := by
    simp only [Event.BeginsUnbound, Event.step, and_true]
    refine ⟨fun _ => rfl, fun A => ?_⟩
    show (if A = 1 then 0 else if A = 1 then 0 + 1 else 0) = 0
    by_cases hA : A = 1 <;> simp [hA]
  ⟨hB, ((C20_one_log_one_listener _ 7 1).2 hB).1, by decide⟩

/-! ## The message-added handler -/

theorem UFlowDebuggerSubsystem.FindRef_storeLog (D : UFlowDebuggerSubsystem)
    (FlowAsset Other : UFlowAsset) (F : IMessageLogListing → IMessageLogListing) :
    (D.storeLog FlowAsset F).FindRef Other =
      if Other = FlowAsset then (D.FindRef Other).map F else D.FindRef Other := by
  simp only [UFlowDebuggerSubsystem.FindRef, UFlowDebuggerSubsystem.storeLog]
  induction D.RuntimeLogs with
  | nil => simp
  | cons a as ih =>
    by_cases hO : Other = FlowAsset
    · subst hO
      simp only [if_true] at ih ⊢
      by_cases ha : a.1 = Other
      · simp [List.find?, ha]
      · have ha2 : (a.1 == Other) = false := by simpa using ha
        simp only [List.map_cons, ha2, Bool.false_eq_true, if_false, List.find?]
        exact ih
    · simp only [hO, if_false] at ih ⊢
      by_cases ha : a.1 = FlowAsset
      · have ha3 : (a.1 == Other) = false := by
          simp only [beq_eq_false_iff_ne, ne_eq, ha]
          exact fun e => hO e.symm
        simp only [List.map_cons, ha, beq_self_eq_true, if_true, List.find?]
        rw [← ha] at ih ⊢
        simp only [ha3]
        exact ih
      · have ha2 : (a.1 == FlowAsset) = false := by simpa using ha
        simp only [List.map_cons, ha2, Bool.false_eq_true, if_false, List.find?]
        by_cases hb : (a.1 == Other) = true
        · simp [hb]
        · simp only [hb]
          exact ih

/-- C21: the handler `OnRuntimeMessageAdded` for instance A appends the message at the end of
A's log (and broadcasts the data change once) when the table holds a log for A, leaves the log
of every other instance, the keys of the table and the listeners as they are, and leaves the
whole subsystem unchanged when A has no log. Scenario: two registered instances 1 and 2; a
message handled for 1 is in the log of 1 and not in the log of 2. -/
theorem C21_message_added_handler :
    (∀ (D : UFlowDebuggerSubsystem) (FlowAsset : UFlowAsset) (Message : FTokenizedMessage),
      (∀ Log, D.FindRef FlowAsset = some Log →
        (D.OnRuntimeMessageAdded FlowAsset Message).FindRef FlowAsset =
          some { Messages := Log.Messages ++ [Message],
                 DataChangedBroadcasts := Log.DataChangedBroadcasts + 1 }) ∧
      (∀ Other, Other ≠ FlowAsset →
        (D.OnRuntimeMessageAdded FlowAsset Message).FindRef Other = D.FindRef Other) ∧
      (D.OnRuntimeMessageAdded FlowAsset Message).RuntimeLogs.map Prod.fst =
        D.RuntimeLogs.map Prod.fst ∧
      (D.OnRuntimeMessageAdded FlowAsset Message).RuntimeMessageListeners =
        D.RuntimeMessageListeners ∧
      (D.FindRef FlowAsset = none → D.OnRuntimeMessageAdded FlowAsset Message = D)) ∧
    (((Event.run UFlowDebuggerSubsystem.initial
          [.InstancedTemplateAdded 1, .InstancedTemplateAdded 2]).OnRuntimeMessageAdded 1
        { Severity := .Warning, Content := 5 }).RuntimeLogs =
      [(1, { Messages := [{ Severity := .Warning, Content := 5 }],
             DataChangedBroadcasts := 1 }),
       (2, { Messages := [], DataChangedBroadcasts := 0 })]) := by
  refine ⟨fun D FlowAsset Message => ⟨?_, ?_,
    (UFlowDebuggerSubsystem.keys_OnRuntimeMessageAdded D FlowAsset Message).1,
    (UFlowDebuggerSubsystem.keys_OnRuntimeMessageAdded D FlowAsset Message).2, ?_⟩, by decide⟩
  · intro Log hLog
    simp only [UFlowDebuggerSubsystem.OnRuntimeMessageAdded, hLog,
      UFlowDebuggerSubsystem.FindRef_storeLog, if_true, Option.map_some']
    rfl
  · intro Other hO
    simp only [UFlowDebuggerSubsystem.OnRuntimeMessageAdded]
    split
    · rw [UFlowDebuggerSubsystem.FindRef_storeLog, if_neg hO]
    · rfl
  · intro hNone
    simp [UFlowDebuggerSubsystem.OnRuntimeMessageAdded, hNone]

/-! ## Toggling twice -/

theorem TArray.RemoveAllSwapLoop_at_end {α : Type} (p : α → Bool) (L : List α) :
    ∀ fuel : Nat, TArray.RemoveAllSwapLoop p fuel L L.length = L := by
  intro fuel
  cases fuel with
  | zero => rfl
  | succ n =>
    have hnone : L.get? L.length = none := by simp
    simp only [TArray.RemoveAllSwapLoop, hnone]

theorem TArray.RemoveAllSwapLoop_append_last {α : Type} (p : α → Bool) (t : α)
    (ht : p t = true) :
    ∀ (R L : List α) (fuel : Nat), (∀ x ∈ R, p x = false) → R.length + 1 ≤ fuel →
      TArray.RemoveAllSwapLoop p fuel (L ++ (R ++ [t])) L.length = L ++ R := by
  intro R
  induction R with
  | nil =>
    intro L fuel _ hfuel
    obtain ⟨n, rfl⟩ : ∃ n, fuel = n + 1 := ⟨fuel - 1, by simp at hfuel; omega⟩
    have hget : (L ++ [t]).get? L.length = some t := by
      rw [List.get?_eq_getElem?, List.getElem?_append_right (Nat.le_refl _)]
      simp
    simp only [List.nil_append, List.append_nil]
    simp only [TArray.RemoveAllSwapLoop, hget, ht, if_true,
      TArray.RemoveAtSwap_append_singleton, TArray.RemoveAllSwapLoop_at_end]
  | cons x R ih =>
    intro L fuel hR hfuel
    obtain ⟨n, rfl⟩ : ∃ n, fuel = n + 1 := ⟨fuel - 1, by simp at hfuel; omega⟩
    have hx : p x = false := hR x (List.mem_cons_self _ _)
    have hget : (L ++ (x :: R ++ [t])).get? L.length = some x := by
      rw [List.get?_eq_getElem?, List.getElem?_append_right (Nat.le_refl _)]
      simp
    simp only [TArray.RemoveAllSwapLoop, hget, hx, Bool.false_eq_true, if_false]
    have := ih (L ++ [x]) n (fun y hy => hR y (List.mem_cons_of_mem _ hy))
      (by simp at hfuel; omega)
    simpa using this

theorem TArray.RemoveAllSwap_append_last {α : Type} (p : α → Bool) (t : α) (l : List α)
    (ht : p t = true) (hl : ∀ x ∈ l, p x = false) :
    TArray.RemoveAllSwap p (l ++ [t]) = (l, 1) := by
  have h := TArray.RemoveAllSwapLoop_append_last p t ht l [] (l ++ [t]).length hl (by simp)
  simp only [List.nil_append, List.length_nil] at h
  simp only [List.length_append, List.length_singleton] at h
  simp only [TArray.RemoveAllSwap, List.length_append, List.length_singleton, h]
  congr 1
  omega

/-- Removing a trait right after creating it, where `FindTrait` had found nothing and the
node's record (if any) was not empty, gives back the map of records as it was. -/
theorem RemoveTrait_CreateTrait (DO_GUARD_SLOW : Bool) (S S1 : UFlowGraphEditorSettings)
    (Owner_ : Owner) (T : EFlowTraitType) (e : Bool)
    (hFind : FindTrait S Owner_ T = none)
    (hRec : ∀ R, S.PerNodeTraits Owner_.node.NodeGuid = some R →
      R.NodeTraits ≠ [] ∨ R.PinTraits ≠ [])
    (hC : CreateTrait DO_GUARD_SLOW S Owner_ T e = some S1) :
    ∀ g, (RemoveTrait S1 Owner_ T).PerNodeTraits g = S.PerNodeTraits g := by
  intro g
  have hA := (CreateTrait_apply _ _ _ _ _ _ hC).1
  cases Owner_ with
  | Node OwnerNode =>
    rw [FindTrait_node, List.find?_eq_none] at hFind
    have hl : ∀ x ∈ NodeTraitsOf S OwnerNode.NodeGuid, IsNodeTrait T x = false := by
      intro x hx; simpa using hFind x hx
    have hSwap := TArray.RemoveAllSwap_append_last (IsNodeTrait T)
      (FFlowDebugTrait.ofType T e) (NodeTraitsOf S OwnerNode.NodeGuid)
      (IsNodeTrait_ofType T e) hl
    simp only [RemoveTrait, RemoveNodeTraitByPredicate_apply]
    by_cases hg : g = OwnerNode.NodeGuid
    · subst hg
      simp only [if_true, hA, Owner.node, hSwap]
      simp only [Owner.node] at hRec
      cases hR : S.PerNodeTraits OwnerNode.NodeGuid with
      | none => simp [NodeTraitsOf, PinTraitsOf, hR]
      | some R =>
        have hB := hRec R hR
        simp only [NodeTraitsOf, PinTraitsOf, hR]
        have hne : ¬ (R.NodeTraits = [] ∧ R.PinTraits = []) := by
          rintro ⟨h1, h2⟩
          rcases hB with hB | hB
          · exact hB h1
          · exact hB h2
        simp [hne]
    · simp only [hg, if_false, hA, Owner.node]
  | Pin OwnerPin =>
    rw [FindTrait_pin, List.find?_eq_none] at hFind
    have hl : ∀ x ∈ PinTraitsOf S OwnerPin.GetOwningNode.NodeGuid,
        IsPinTrait OwnerPin T x = false := by
      intro x hx; simpa using hFind x hx
    have hSwap := TArray.RemoveAllSwap_append_last (IsPinTrait OwnerPin T)
      (FFlowDebugTrait.ofPin T OwnerPin.PinId e) (PinTraitsOf S OwnerPin.GetOwningNode.NodeGuid)
      (IsPinTrait_ofPin OwnerPin T e) hl
    simp only [RemoveTrait, RemovePinTraitByPredicate_apply]
    by_cases hg : g = OwnerPin.GetOwningNode.NodeGuid
    · subst hg
      simp only [if_true, hA, Owner.node, hSwap]
      simp only [Owner.node] at hRec
      cases hR : S.PerNodeTraits OwnerPin.GetOwningNode.NodeGuid with
      | none => simp [NodeTraitsOf, PinTraitsOf, hR]
      | some R =>
        have hB := hRec R hR
        simp only [NodeTraitsOf, PinTraitsOf, hR]
        have hne : ¬ (R.PinTraits = [] ∧ R.NodeTraits = []) := by
          rintro ⟨h1, h2⟩
          rcases hB with hB | hB
          · exact hB h2
          · exact hB h1
        simp [hne]
    · simp only [Owner.node, hg, if_false, hA]

theorem RemoveTrait_SaveConfigCalls_le (S : UFlowGraphEditorSettings) (Owner_ : Owner)
    (T : EFlowTraitType) : S.SaveConfigCalls ≤ (RemoveTrait S Owner_ T).SaveConfigCalls := by
  cases Owner_ with
  | Node OwnerNode =>
    rw [RemoveTrait, RemoveNodeTraitByPredicate_SaveConfigCalls]
    exact Nat.le_add_right _ _
  | Pin OwnerPin =>
    rw [RemoveTrait, RemovePinTraitByPredicate_SaveConfigCalls]
    exact Nat.le_add_right _ _

/-- C22: two `ToggleTrait` calls in a row both return. When the trait existed, whatever its
enabled and hit flags, it exists afterwards with enabled = true and hit = false, so toggling
twice is not the identity on flags. When the trait was absent and no record is empty, the map of
records is afterwards exactly the original one; in particular a record the first call created is
removed again by the second. Both calls save. Scenarios: a disabled, hit breakpoint of node 7
comes back enabled and not hit; on empty settings the record created for a pin's breakpoint is
gone after the second call, three saves made. -/
theorem C22_toggle_twice_flags_and_state :
    (∀ (DO_GUARD_SLOW : Bool) (S : UFlowGraphEditorSettings) (Owner_ : Owner)
        (T : EFlowTraitType),
      ∃ S1 S2, ToggleTrait DO_GUARD_SLOW S Owner_ T = some S1 ∧
        ToggleTrait DO_GUARD_SLOW S1 Owner_ T = some S2 ∧
        ((FindTrait S Owner_ T).isSome = true →
          ∃ Trait, FindTrait S2 Owner_ T = some Trait ∧
            Trait.bEnabled = true ∧ Trait.bHit = false) ∧
        (FindTrait S Owner_ T = none → NoEmptyRecord S →
          S2.PerNodeTraits = S.PerNodeTraits ∧
          (S.PerNodeTraits Owner_.node.NodeGuid = none →
            (S1.PerNodeTraits Owner_.node.NodeGuid).isSome = true ∧
            S2.PerNodeTraits Owner_.node.NodeGuid = none) ∧
          S.SaveConfigCalls < S2.SaveConfigCalls)) ∧
    (((ToggleTrait true
          { PerNodeTraits := fun g =>
              if g = 7 then
                some { NodeTraits := [{ PinId := 0, Type_ := .Breakpoint, bEnabled := false,
                                        bHit := true }],
                       PinTraits := [] }
              else none,
            SaveConfigCalls := 0 }
          (.Node { NodeGuid := 7, Pins := [] }) .Breakpoint).bind
        (fun S1 => ToggleTrait true S1 (.Node { NodeGuid := 7, Pins := [] }) .Breakpoint)).map
        (fun S2 => FindTrait S2 (.Node { NodeGuid := 7, Pins := [] }) .Breakpoint) =
      some (some { PinId := 0, Type_ := .Breakpoint, bEnabled := true, bHit := false })) ∧
    (((ToggleTrait true UFlowGraphEditorSettings.empty
          (.Pin { PinId := 1, GetOwningNode := { NodeGuid := 7, Pins := [1] } }) .Breakpoint).bind
        (fun S1 => ToggleTrait true S1
          (.Pin { PinId := 1, GetOwningNode := { NodeGuid := 7, Pins := [1] } }) .Breakpoint)).map
        (fun S2 => (S2.PerNodeTraits 7, S2.SaveConfigCalls)) =
      some (none, 3)) := by
  refine ⟨fun DO_GUARD_SLOW S Owner_ T => ?_, by decide, by decide⟩
  obtain ⟨S1, h1, hA1, hB1⟩ := ToggleTrait_spec DO_GUARD_SLOW S Owner_ T
  obtain ⟨S2, h2, hA2, hB2⟩ := ToggleTrait_spec DO_GUARD_SLOW S1 Owner_ T
  refine ⟨S1, S2, h1, h2, ?_, ?_⟩
  · intro hF
    exact (hB2 (hA1 hF).2).2
  · intro hF hInv
    obtain ⟨hC, Trait1, hT1, _, _⟩ := hB1 hF
    have hS2 : S2 = RemoveTrait S1 Owner_ T := (hA2 (by simp [hT1])).1
    have hMap := RemoveTrait_CreateTrait DO_GUARD_SLOW S S1 Owner_ T true hF
      (fun R hR => hInv _ R hR) hC
    have hEq : S2.PerNodeTraits = S.PerNodeTraits := by
      rw [hS2]
      exact funext hMap
    refine ⟨hEq, ?_, ?_⟩
    · intro hNone
      refine ⟨?_, by rw [hEq]; exact hNone⟩
      rw [(CreateTrait_apply _ _ _ _ _ _ hC).1, if_pos rfl]
      rfl
    · have hSave1 := (CreateTrait_apply _ _ _ _ _ _ hC).2
      have hSave2 := RemoveTrait_SaveConfigCalls_le S1 Owner_ T
      rw [hS2]
      omega

/-! ## Every call touches only the addressed sequence -/

theorem TArray.filter_RemoveAllSwap_perm {α : Type} (p q : α → Bool) (l : List α)
    (h : ∀ a, p a = true → q a = false) :
    ((TArray.RemoveAllSwap p l).1.filter q).Perm (l.filter q) := by
  have h1 := (TArray.RemoveAllSwap_perm p l).filter q
  have h2 : (l.filter (fun x => !p x)).filter q = l.filter q := by
    rw [List.filter_filter]
    apply List.filter_congr
    intro a _
    cases hq : q a with
    | false => simp
    | true =>
      cases hp : p a with
      | false => simp
      | true => rw [h a hp] at hq; exact absurd hq (by simp)
  rw [h2] at h1
  exact h1

theorem TArray.filter_storeFirst {α : Type} (Test q : α → Bool) (F : α → α)
    (h : ∀ a, Test a = true → q a = false ∧ q (F a) = false) (l : List α) :
    (TArray.storeFirst Test F l).filter q = l.filter q := by
  induction l with
  | nil => rfl
  | cons a as ih =>
    by_cases hT : Test a = true
    · simp [TArray.storeFirst, hT, List.filter_cons, (h a hT).1, (h a hT).2]
    · simp [TArray.storeFirst, hT, List.filter_cons, ih]

theorem TouchesOnly_refl (S : UFlowGraphEditorSettings) (g : FGuid) (bPin : Bool)
    (Pin : Option UEdGraphPin) : TouchesOnly S S g bPin Pin :=
  ⟨fun _ _ => rfl, fun _ => rfl, fun _ => rfl, fun _ _ => List.Perm.refl _⟩

theorem TouchesOnly_Save (S S1 : UFlowGraphEditorSettings) (g : FGuid) (bPin : Bool)
    (Pin : Option UEdGraphPin) (h : TouchesOnly S S1 g bPin Pin) :
    TouchesOnly S (SaveFlowGraphEditorSettings S1) g bPin Pin := h

theorem TouchesOnly_RemoveNodeTraitByPredicate (S : UFlowGraphEditorSettings)
    (OwnerNode : UFlowGraphNode) (Predicate : FFlowDebugTrait → Bool) :
    TouchesOnly S (RemoveNodeTraitByPredicate S OwnerNode Predicate) OwnerNode.NodeGuid
      false none := by
  refine ⟨fun g hg => ?_, fun _ => PinTraitsOf_RemoveNodeTraitByPredicate _ _ _ _,
    fun h => by simp at h, fun _ h => by simp at h⟩
  rw [RemoveNodeTraitByPredicate_apply, if_neg hg]

theorem TouchesOnly_RemovePinTraitByPredicate (S : UFlowGraphEditorSettings)
    (Owner_ : Owner) (Predicate : FFlowDebugTrait → Bool) (Pin : Option UEdGraphPin)
    (hPin : ∀ OwnerPin, Pin = some OwnerPin →
      ∀ Trait, Predicate Trait = true → Trait.PinId = OwnerPin.PinId) :
    TouchesOnly S (RemovePinTraitByPredicate S Owner_ Predicate) Owner_.node.NodeGuid
      true Pin := by
  refine ⟨fun g hg => ?_, fun h => by simp at h,
    fun _ => NodeTraitsOf_RemovePinTraitByPredicate _ _ _ _, fun OwnerPin hP => ?_⟩
  · rw [RemovePinTraitByPredicate_apply, if_neg hg]
  · rw [PinTraitsOf_RemovePinTraitByPredicate, if_pos rfl]
    apply TArray.filter_RemoveAllSwap_perm
    intro a ha
    simp [hPin OwnerPin hP a ha]

theorem TouchesOnly_ClearNodeTraits (S : UFlowGraphEditorSettings)
    (OwnerNode : UFlowGraphNode) :
    TouchesOnly S (ClearNodeTraits S OwnerNode) OwnerNode.NodeGuid false none := by
  refine ⟨fun g hg => ?_, fun _ => PinTraitsOf_ClearNodeTraits _ _ _,
    fun h => by simp at h, fun _ h => by simp at h⟩
  rw [ClearNodeTraits_apply, if_neg hg]

theorem TouchesOnly_ClearPinTraits (S : UFlowGraphEditorSettings) (Owner_ : Owner) :
    TouchesOnly S (ClearPinTraits S Owner_) Owner_.node.NodeGuid true Owner_.pin? := by
  refine ⟨fun g hg => ?_, fun h => by simp at h,
    fun _ => NodeTraitsOf_ClearPinTraits _ _ _, fun OwnerPin hP => ?_⟩
  · rw [ClearPinTraits_apply, if_neg hg]
  · cases Owner_ with
    | Node OwnerNode => simp [Owner.pin?] at hP
    | Pin P =>
      simp only [Owner.pin?, Option.some.injEq] at hP
      subst hP
      rw [PinTraitsOf_ClearPinTraits, if_pos rfl]
      apply TArray.filter_RemoveAllSwap_perm
      intro a ha
      simpa using ha

theorem TouchesOnly_storeTrait (S : UFlowGraphEditorSettings) (Owner_ : Owner)
    (T : EFlowTraitType) (F : FFlowDebugTrait → FFlowDebugTrait)
    (hF : ∀ a, (F a).PinId = a.PinId) :
    TouchesOnly S (storeTrait S Owner_ T F) Owner_.node.NodeGuid Owner_.pin?.isSome
      Owner_.pin? := by
  refine ⟨fun g hg => ?_, fun hb => ?_, fun hb => ?_, fun OwnerPin hP => ?_⟩
  · rw [storeTrait_apply, if_neg hg]
  · cases Owner_ with
    | Node OwnerNode => rw [PinTraitsOf_storeTrait]
    | Pin P => simp [Owner.pin?] at hb
  · cases Owner_ with
    | Node OwnerNode => simp [Owner.pin?] at hb
    | Pin P => rw [NodeTraitsOf_storeTrait]
  · cases Owner_ with
    | Node OwnerNode => simp [Owner.pin?] at hP
    | Pin P =>
      simp only [Owner.pin?, Option.some.injEq] at hP
      subst hP
      rw [PinTraitsOf_storeTrait]
      simp only [Owner.node, if_true]
      rw [TArray.filter_storeFirst]
      intro a ha
      simp only [IsPinTrait, Bool.and_eq_true, beq_iff_eq] at ha
      simp [hF a, ha.1]

theorem TouchesOnly_CreateTrait (DO_GUARD_SLOW : Bool) (S S1 : UFlowGraphEditorSettings)
    (Owner_ : Owner) (T : EFlowTraitType) (e : Bool)
    (hC : CreateTrait DO_GUARD_SLOW S Owner_ T e = some S1) :
    TouchesOnly S S1 Owner_.node.NodeGuid Owner_.pin?.isSome Owner_.pin? := by
  refine ⟨fun g hg => ?_, fun hb => ?_, fun hb => ?_, fun OwnerPin hP => ?_⟩
  · rw [(CreateTrait_apply _ _ _ _ _ _ hC).1, if_neg hg]
  · cases Owner_ with
    | Node OwnerNode => rw [PinTraitsOf_CreateTrait _ _ _ _ _ _ _ hC]
    | Pin P => simp [Owner.pin?] at hb
  · cases Owner_ with
    | Node OwnerNode => simp [Owner.pin?] at hb
    | Pin P => rw [NodeTraitsOf_CreateTrait _ _ _ _ _ _ _ hC]
  · cases Owner_ with
    | Node OwnerNode => simp [Owner.pin?] at hP
    | Pin P =>
      simp only [Owner.pin?, Option.some.injEq] at hP
      subst hP
      rw [PinTraitsOf_CreateTrait _ _ _ _ _ _ _ hC]
      simp [Owner.node, List.filter_append, FFlowDebugTrait.ofPin]

theorem TouchesOnly_RemoveTrait (S : UFlowGraphEditorSettings) (Owner_ : Owner)
    (T : EFlowTraitType) :
    TouchesOnly S (RemoveTrait S Owner_ T) Owner_.node.NodeGuid Owner_.pin?.isSome
      Owner_.pin? := by
  cases Owner_ with
  | Node OwnerNode => exact TouchesOnly_RemoveNodeTraitByPredicate _ _ _
  | Pin P =>
    refine TouchesOnly_RemovePinTraitByPredicate S (.Pin P) _ (some P) ?_
    intro OwnerPin hP a ha
    simp only [Option.some.injEq] at hP
    subst hP
    simp only [IsPinTrait, Bool.and_eq_true, beq_iff_eq] at ha
    exact ha.1

theorem TouchesOnly_SetTraitEnabled (S : UFlowGraphEditorSettings) (Owner_ : Owner)
    (T : EFlowTraitType) (bIsEnabled : Bool) :
    TouchesOnly S (SetTraitEnabled S Owner_ T bIsEnabled) Owner_.node.NodeGuid
      Owner_.pin?.isSome Owner_.pin? := by
  cases hF : FindTrait S Owner_ T with
  | none =>
    simp only [SetTraitEnabled, hF]
    exact TouchesOnly_refl _ _ _ _
  | some Trait =>
    simp only [SetTraitEnabled, hF]
    exact TouchesOnly_Save _ _ _ _ _ (TouchesOnly_storeTrait _ _ _ _ (fun _ => rfl))

theorem TouchesOnly_SetTraitHit (S : UFlowGraphEditorSettings) (Owner_ : Owner)
    (T : EFlowTraitType) (bHit : Bool) :
    TouchesOnly S (SetTraitHit S Owner_ T bHit).1 Owner_.node.NodeGuid
      Owner_.pin?.isSome Owner_.pin? := by
  rw [SetTraitHit_fst]
  exact TouchesOnly_storeTrait _ _ _ _ (fun _ => rfl)

theorem TouchesOnly_SetAllTraitsHit (S : UFlowGraphEditorSettings) (Owner_ : Owner)
    (bHit : Bool) :
    TouchesOnly S (SetAllTraitsHit S Owner_ bHit).1 Owner_.node.NodeGuid
      Owner_.pin?.isSome Owner_.pin? := by
  rw [SetAllTraitsHit_eq]
  exact TouchesOnly_storeTrait _ _ _ _ (fun _ => rfl)

theorem TouchesOnly_ToggleTrait (DO_GUARD_SLOW : Bool) (S S1 : UFlowGraphEditorSettings)
    (Owner_ : Owner) (T : EFlowTraitType)
    (hT : ToggleTrait DO_GUARD_SLOW S Owner_ T = some S1) :
    TouchesOnly S S1 Owner_.node.NodeGuid Owner_.pin?.isSome Owner_.pin? := by
  cases hF : FindTrait S Owner_ T with
  | none =>
    simp only [ToggleTrait, hF] at hT
    exact TouchesOnly_CreateTrait _ _ _ _ _ _ hT
  | some Trait =>
    simp only [ToggleTrait, hF, Option.some.injEq] at hT
    subst hT
    exact TouchesOnly_RemoveTrait _ _ _

theorem TouchesOnly_run (DO_GUARD_SLOW : Bool) (S S1 : UFlowGraphEditorSettings)
    (M : Mutation) (hR : M.run DO_GUARD_SLOW S = some S1) :
    TouchesOnly S S1 M.node.NodeGuid M.onPinTraits M.pin? := by
  cases M with
  | CreateTrait Owner_ T e => exact TouchesOnly_CreateTrait _ _ _ _ _ _ hR
  | ToggleTrait Owner_ T => exact TouchesOnly_ToggleTrait _ _ _ _ _ hR
  | RemoveTrait Owner_ T =>
    simp only [Mutation.run, Option.some.injEq] at hR
    subst hR
    exact TouchesOnly_RemoveTrait _ _ _
  | RemoveNodeTraitByPredicate OwnerNode Predicate =>
    simp only [Mutation.run, Option.some.injEq] at hR
    subst hR
    exact TouchesOnly_RemoveNodeTraitByPredicate _ _ _
  | RemovePinTraitByPredicate Owner_ Predicate =>
    simp only [Mutation.run, Option.some.injEq] at hR
    subst hR
    exact TouchesOnly_RemovePinTraitByPredicate _ _ _ none (fun _ h => by simp at h)
  | ClearNodeTraits OwnerNode =>
    simp only [Mutation.run, Option.some.injEq] at hR
    subst hR
    exact TouchesOnly_ClearNodeTraits _ _
  | ClearPinTraits Owner_ =>
    simp only [Mutation.run, Option.some.injEq] at hR
    subst hR
    exact TouchesOnly_ClearPinTraits _ _
  | CleanupTraits OwnerNode =>
    simp only [Mutation.run, Option.some.injEq] at hR
    subst hR
    exact TouchesOnly_RemovePinTraitByPredicate S (.Node OwnerNode) _ none
      (fun _ h => by simp at h)
  | SetTraitEnabled Owner_ T bIsEnabled =>
    simp only [Mutation.run, Option.some.injEq] at hR
    subst hR
    exact TouchesOnly_SetTraitEnabled _ _ _ _
  | SetTraitHit Owner_ T bHit =>
    simp only [Mutation.run, Option.some.injEq] at hR
    subst hR
    exact TouchesOnly_SetTraitHit _ _ _ _
  | SetAllTraitsHit Owner_ bHit =>
    simp only [Mutation.run, Option.some.injEq] at hR
    subst hR
    exact TouchesOnly_SetAllTraitsHit _ _ _

theorem Mutation.run_eq_none (DO_GUARD_SLOW : Bool) (S : UFlowGraphEditorSettings)
    (M : Mutation) (hR : M.run DO_GUARD_SLOW S = none) :
    DO_GUARD_SLOW = true ∧
      ∃ Owner_ T bEnabled, M = .CreateTrait Owner_ T bEnabled ∧
        (FindTrait S Owner_ T).isSome = true := by
  cases M with
  | CreateTrait Owner_ T e =>
    have h := (CreateTrait_eq_none_iff _ _ _ _ _).1 hR
    exact ⟨h.1, Owner_, T, e, rfl, h.2⟩
  | ToggleTrait Owner_ T =>
    obtain ⟨S1, h1, _⟩ := ToggleTrait_spec DO_GUARD_SLOW S Owner_ T
    simp only [Mutation.run] at hR
    rw [h1] at hR
    exact absurd hR (by simp)
  | RemoveTrait Owner_ T => simp [Mutation.run] at hR
  | RemoveNodeTraitByPredicate OwnerNode Predicate => simp [Mutation.run] at hR
  | RemovePinTraitByPredicate Owner_ Predicate => simp [Mutation.run] at hR
  | ClearNodeTraits OwnerNode => simp [Mutation.run] at hR
  | ClearPinTraits Owner_ => simp [Mutation.run] at hR
  | CleanupTraits OwnerNode => simp [Mutation.run] at hR
  | SetTraitEnabled Owner_ T bIsEnabled => simp [Mutation.run] at hR
  | SetTraitHit Owner_ T bHit => simp [Mutation.run] at hR
  | SetAllTraitsHit Owner_ bHit => simp [Mutation.run] at hR

/-- C23: every call of the mutation API touches only the addressed sequence. Whenever a call `M`
(any of `CreateTrait`, `RemoveTrait`, `ToggleTrait`, `SetTraitEnabled`, `SetTraitHit`,
`SetAllTraitsHit`, `ClearNodeTraits`, `ClearPinTraits`, `CleanupTraits`, and the two
`Remove...TraitByPredicate`) run on any settings `S` returns settings `S1`: the record under
every guid other than the guid of the addressed node is the same in `S1` as in `S`; a call that
works on the node-level sequence leaves the pin-level sequence of the addressed node as it was,
and a call that works on the pin-level sequence leaves the node-level sequence as it was; and
after a call addressed to one pin `OwnerPin`, the traits of the node whose `PinId` is not
`OwnerPin->PinId` are the same as before up to their order. A call returns in every case but
one: `CreateTrait` in a build with `checkSlow` active when the trait already exists. The last
part runs `RemoveTrait` for pin 1 of node 7, which holds breakpoints on pins 1, 2 and 3 and one
on the node itself, next to a record for node 8: the record of node 8 and the node-level
sequence are as before, and the breakpoints of pins 2 and 3 remain, with their order swapped. -/
theorem C23_mutation_touches_only_addressed_sequence :
    (∀ (DO_GUARD_SLOW : Bool) (S : UFlowGraphEditorSettings) (M : Mutation),
      (∀ S1, M.run DO_GUARD_SLOW S = some S1 →
        (∀ g, g ≠ M.node.NodeGuid → S1.PerNodeTraits g = S.PerNodeTraits g) ∧
        (M.onPinTraits = false →
          PinTraitsOf S1 M.node.NodeGuid = PinTraitsOf S M.node.NodeGuid) ∧
        (M.onPinTraits = true →
          NodeTraitsOf S1 M.node.NodeGuid = NodeTraitsOf S M.node.NodeGuid) ∧
        (∀ OwnerPin, M.pin? = some OwnerPin →
          ((PinTraitsOf S1 M.node.NodeGuid).filter
              (fun Trait => !(Trait.PinId == OwnerPin.PinId))).Perm
            ((PinTraitsOf S M.node.NodeGuid).filter
              (fun Trait => !(Trait.PinId == OwnerPin.PinId))))) ∧
      (M.run DO_GUARD_SLOW S = none →
        DO_GUARD_SLOW = true ∧
          ∃ Owner_ T bEnabled, M = .CreateTrait Owner_ T bEnabled ∧
            (FindTrait S Owner_ T).isSome = true)) ∧
    ((Mutation.run true
        { PerNodeTraits := fun g =>
            if g = 7 then
              some { NodeTraits := [{ PinId := 0, Type_ := .Breakpoint, bEnabled := true,
                                      bHit := false }],
                     PinTraits := [{ PinId := 1, Type_ := .Breakpoint, bEnabled := true,
                                     bHit := false },
                                   { PinId := 2, Type_ := .Breakpoint, bEnabled := false,
                                     bHit := true },
                                   { PinId := 3, Type_ := .Breakpoint, bEnabled := true,
                                     bHit := true }] }
            else if g = 8 then
              some { NodeTraits := [{ PinId := 0, Type_ := .Breakpoint, bEnabled := true,
                                      bHit := false }],
                     PinTraits := [] }
            else none,
          SaveConfigCalls := 0 }
        (.RemoveTrait (.Pin { PinId := 1, GetOwningNode := { NodeGuid := 7, Pins := [1, 2, 3] } })
          .Breakpoint)).map
        (fun S1 => (S1.PerNodeTraits 8, NodeTraitsOf S1 7, PinTraitsOf S1 7)) =
      some (some { NodeTraits := [{ PinId := 0, Type_ := .Breakpoint, bEnabled := true,
                                    bHit := false }],
                   PinTraits := [] },
            [{ PinId := 0, Type_ := .Breakpoint, bEnabled := true, bHit := false }],
            [{ PinId := 3, Type_ := .Breakpoint, bEnabled := true, bHit := true },
             { PinId := 2, Type_ := .Breakpoint, bEnabled := false, bHit := true }])) := by
  refine ⟨fun DO_GUARD_SLOW S M => ⟨fun S1 hR => ?_, Mutation.run_eq_none DO_GUARD_SLOW S M⟩,
    by decide⟩
  exact TouchesOnly_run DO_GUARD_SLOW S S1 M hR

end FlowDebugger
